import Mathlib

/-!
# Function auto-vectorization (`source/blender/functions/functions/auto_vectorization.cpp`)

A shallow embedding of the two vectorization backends and of the construction
step `to_vectorized_function`, followed by the properties proved about them.

* `FN.AutoVectorization`    : the interpreted (tuple-call) backend, `call`.
* `FN.AutoVectorizationGen` : the compiled backend; each method is embedded as the
  meaning of the instructions it emits, run on concrete input values.
* `FN.to_vectorized_function` : the construction step.

Conventions of the embedding.

* Base values live in one type `α`; a slot of the vectorized function holds a
  `Value α`: a base value or a list of base values.
* Unsigned 32-bit quantities (`uint`, `Int32` lengths and indices) are natural
  numbers; the one place where the sign of a 32-bit pattern matters,
  `CreateSIntMax`, interprets the pattern explicitly (`toInt32`).
* A step that the source leaves undefined (reading a slot of the wrong kind, an index
  past the end of a vector, a null body) yields `Failure.invalid`.
* The execution context is threaded explicitly. Besides the stack it carries a log of
  what was done (ghost state), so that statements about the moment of a nested call
  can be made.
-/

namespace FN

/-! ## Values, frames, execution context -/

/-- A value held by one slot of the vectorized function: a value of a base type, or a
list of values of a base type. -/
inductive Value (α : Type) where
  | base (a : α)
  | list (xs : List α)
deriving DecidableEq, Repr

/-- An entry of the diagnostic stack. The stack holds the addresses of frames
(`ctx.stack().push(&frame)`, lines 300-301). `iteration` is the address of a live
`IterationStackFrame` (lines 11-19), whose field `m_iteration` has no initializer: `none`
stands for "not yet assigned". `text` is the address of a live `TextStackFrame`, the name
frame of the spec, which records a function's name. `dangling` is an address left on the
stack whose frame exists no more: a frame that is a local of a function does not outlive
the function. -/
inductive StackFrame where
  | iteration (m_iteration : Option Nat)
  | text (name : String)
  | dangling
deriving DecidableEq, Repr

/-- What the interpreted backend did, in order (ghost state). Calls record the stack as
it stands when the call is made. -/
inductive Event (α : Type) where
  | push (frame : StackFrame)
  | pop
  | init_default (index : Nat)
  | get_element (index load_index : Nat) (stack : List StackFrame)
  | main_call (main_in : List α) (stack : List StackFrame)
deriving DecidableEq, Repr

/-- Modelled from the spec: the execution context (`ExecutionContext`, section 3), an
ordered stack of diagnostic frames, top first. The log is ghost state of the embedding. -/
structure ExecutionContext (α : Type) where
  stack : List StackFrame
  log : List (Event α)
deriving DecidableEq, Repr

/-- Modelled from the spec: `ctx.stack().push(frame)`, the diagnostic stack accepts a
frame on top. -/
def ExecutionContext.push {α : Type} (ctx : ExecutionContext α) (frame : StackFrame) :
    ExecutionContext α :=
  { stack := frame :: ctx.stack, log := ctx.log ++ [Event.push frame] }

/-- Modelled from the spec: `ctx.stack().pop()`, the top frame is removed. -/
def ExecutionContext.pop {α : Type} (ctx : ExecutionContext α) : ExecutionContext α :=
  { stack := ctx.stack.tail, log := ctx.log ++ [Event.pop] }

/-- Appends an entry to the log. -/
def ExecutionContext.record {α : Type} (ctx : ExecutionContext α) (e : Event α) :
    ExecutionContext α :=
  { stack := ctx.stack, log := ctx.log ++ [e] }

/-- The assignment `iteration_frame.m_iteration = iteration` (line 316). The stack holds a
pointer to the local `iteration_frame`, pushed first and so lying directly under the
function-name frame; the write is seen through the stack at depth 1. -/
def ExecutionContext.set_iteration {α : Type} (ctx : ExecutionContext α) (iteration : Nat) :
    ExecutionContext α :=
  { stack := ctx.stack.set 1 (StackFrame.iteration (some iteration)), log := ctx.log }

/-- The stack once a function that pushed the addresses of two of its locals is left
without the pops: the two top entries stay where they are and their frames are destroyed
with the function's scope. -/
def ExecutionContext.destroy_locals {α : Type} (ctx : ExecutionContext α) :
    ExecutionContext α :=
  { stack := StackFrame.dangling :: StackFrame.dangling :: ctx.stack.drop 2, log := ctx.log }

/-- Why a call did not return normally. -/
inductive Failure (ε : Type) where
  | invalid
  | main (e : ε)
deriving DecidableEq, Repr

/-- The outcome of a step: a value, or a failure that propagates to the caller. -/
inductive Result (ε β : Type) where
  | ok (value : β)
  | failed (f : Failure ε)
deriving DecidableEq, Repr

/-- Modelled from the spec: the macro `BLI_assert`, which is not among the sources at hand.
A violated precondition is a fatal assertion (section 4.2): `none` stands for the abort,
after which nothing is returned. -/
def BLI_assert (condition : Bool) : Option Unit :=
  if condition then some () else none

/-! ## Signatures and functions -/

/-- Modelled from the spec: a named, typed parameter (`InputParameter`,
`OutputParameter`). -/
structure Parameter (τ : Type) where
  name : String
  type : τ
deriving DecidableEq, Repr

/-- Modelled from the spec: a signature (`Signature`), ordered inputs and ordered
outputs. -/
structure Signature (τ : Type) where
  inputs : List (Parameter τ)
  outputs : List (Parameter τ)
deriving DecidableEq, Repr

/-- Modelled from the spec: a function (`Function`, section 3), a name, a signature and
the bodies attached to it. `T` is the type of its tuple-call body, `L` the type of its
code-generation body; `none` is an absent body (`body<T>()` returns null, `has_body<T>()`
is false). -/
structure Function (τ T L : Type) where
  name : String
  signature : Signature τ
  tuple_call_body : Option T
  llvm_build_ir_body : Option L

/-- The method `Function::input_amount`. -/
def Function.input_amount {τ T L : Type} (fn : Function τ T L) : Nat :=
  fn.signature.inputs.length

/-- The method `Function::output_amount`. -/
def Function.output_amount {τ T L : Type} (fn : Function τ T L) : Nat :=
  fn.signature.outputs.length

/-- Modelled from the spec: a tuple-call body (`TupleCallBody`) of a function over base
values: `call` maps the input tuple to the output tuple, or fails with `e`. -/
structure TupleCallBody (α ε : Type) where
  call : List α → Except ε (List α)

/-- Modelled from the spec: a code-generation body (`LLVMBuildIRBody`) of a function over
base values, as the meaning of the instructions it emits: the output values computed from
the input values. -/
structure LLVMBuildIRBody (α : Type) where
  build_ir : List α → List α

/-- Modelled from the spec: the native extension of a type (`CPPTypeInfo`), the size of a
value and the value default construction yields. -/
structure CPPTypeInfo (α : Type) where
  size_of_type : Nat
  construct_default : α

/-- Modelled from the spec: the compiled extension of a type (`LLVMTypeInfo`). Its copy,
load and store instructions move a value unchanged; nothing else of it is used. -/
structure LLVMTypeInfo where
  mk ::

/-- Modelled from the spec: the type model of section 4.1, which is not among the sources
at hand: the registry lookup `get_list_type` (a function, so repeated lookups agree) and
the two extension lookups `type->extension<T>()`, `none` being the null result. -/
structure TypeSystem (τ α : Type) where
  get_list_type : τ → τ
  cpp_type_info : τ → Option (CPPTypeInfo α)
  llvm_type_info : τ → Option LLVMTypeInfo

/-- The original function and the default-value builders: functions over base values. -/
abbrev SharedFunction (τ α ε : Type) := Function τ (TupleCallBody α ε) (LLVMBuildIRBody α)

/-! ## Per-type list bodies -/

/-- Modelled from the spec: the per-type length body (`GET_FN_list_length`,
`GET_C_FN_list_length`): the length query of a list value. -/
def list_length {α : Type} : Value α → Option Nat
  | Value.list xs => some xs.length
  | Value.base _ => none

/-- Modelled from the spec: the per-type element-get body (`GET_FN_get_list_element`):
indexed element access; inputs are the list, the index and a fallback value. -/
def get_list_element {α : Type} : Value α → Nat → α → Option α
  | Value.list xs, index, fallback => some (xs.getD index fallback)
  | Value.base _, _, _ => none

/-- Modelled from the spec: the per-type empty-construction body (`GET_FN_empty_list`). -/
def empty_list {α : Type} : Value α := Value.list []

/-- Modelled from the spec: the per-type append body (`GET_FN_append_to_list`). -/
def append_to_list {α : Type} : Value α → α → Option (Value α)
  | Value.list xs, a => some (Value.list (xs ++ [a]))
  | Value.base _, _ => none

/-! ## The interpreted backend: `class AutoVectorization` (lines 244-401) -/

/-- The members of `class AutoVectorization` (lines 246-257). -/
structure AutoVectorization (τ α ε : Type) where
  m_main : SharedFunction τ α ε
  m_main_body : Option (TupleCallBody α ε)
  m_input_is_list : List Bool
  m_list_inputs : List Nat
  m_get_length_bodies : List (Value α → Option Nat)
  m_get_element_bodies : List (Value α → Nat → α → Option α)
  m_create_empty_bodies : List (Value α)
  m_append_bodies : List (Value α → α → Option (Value α))

/-- Lines 263-267: the positions, counted from `i`, at which the mask is true. -/
def list_inputs_from : List Bool → Nat → List Nat
  | [], _ => []
  | true :: rest, i => i :: list_inputs_from rest (i + 1)
  | false :: rest, i => list_inputs_from rest (i + 1)

/-- Modelled from the spec: `Tuple::init_default(index)` on a tuple whose slots have the
types of `params`, the default construction of slot `index`; it needs the native extension
of the slot's type. -/
def init_default {τ α : Type} (types : TypeSystem τ α) (params : List (Parameter τ))
    (index : Nat) : Option α :=
  match params[index]? with
  | none => none
  | some p =>
    match types.cpp_type_info p.type with
    | none => none
    | some info => some info.construct_default

namespace AutoVectorization

variable {τ α ε : Type}

/-- The constructor (lines 260-286). The per-type bodies are looked up by the base type of
each list input and of each output; the lists of the embedding are all lists over `α`, so
each lookup yields the same body. The two tuple sizes `m_max_len_in_size`,
`m_max_len_out_size` are never read and left out. -/
def new (main : SharedFunction τ α ε) (input_is_list : List Bool) : AutoVectorization τ α ε :=
  let m_list_inputs := list_inputs_from input_is_list 0
  { m_main := main
    m_main_body := main.tuple_call_body
    m_input_is_list := input_is_list
    m_list_inputs := m_list_inputs
    m_get_length_bodies := m_list_inputs.map (fun _ => list_length)
    m_get_element_bodies := m_list_inputs.map (fun _ => get_list_element)
    m_create_empty_bodies := main.signature.outputs.map (fun _ => empty_list)
    m_append_bodies := main.signature.outputs.map (fun _ => append_to_list) }

/-- The method `get_input_list_length` (lines 337-349). `call__setup_stack` runs a per-type body
between a push and a pop of that body's own frame and so leaves the stack as it found it;
here and below these nested frames are left out and the context is not threaded through
the per-type bodies. -/
def get_input_list_length (self : AutoVectorization τ α ε) (fn_in : List (Value α))
    (index_in_tuple list_index : Nat) : Option Nat :=
  match self.m_get_length_bodies[list_index]?, fn_in[index_in_tuple]? with
  | some body, some v => body v
  | _, _ => none

/-- The loop of `get_input_list_lengths` over the remaining entries of `m_list_inputs`,
`i` being the position of the first of them. -/
def get_input_list_lengths_from (self : AutoVectorization τ α ε) (fn_in : List (Value α)) :
    List Nat → Nat → Option (List Nat)
  | [], _ => some []
  | index_in_tuple :: rest, i =>
    match self.get_input_list_length fn_in index_in_tuple i with
    | none => none
    | some length =>
      match get_input_list_lengths_from self fn_in rest (i + 1) with
      | none => none
      | some lengths => some (length :: lengths)

/-- The method `get_input_list_lengths` (lines 329-335). -/
def get_input_list_lengths (self : AutoVectorization τ α ε) (fn_in : List (Value α)) :
    Option (List Nat) :=
  self.get_input_list_lengths_from fn_in self.m_list_inputs 0

/-- The value `*std::max_element(first, last)` (line 292) over unsigned values; dereferencing the
result on an empty range is undefined (`none`). -/
def max_element : List Nat → Option Nat
  | [] => none
  | x :: xs => some (xs.foldl max x)

/-- The method `initialize_empty_list` (lines 382-389): the value placed in slot `index` of
`fn_out`. -/
def initialize_empty_list (self : AutoVectorization τ α ε) (index : Nat) : Option (Value α) :=
  self.m_create_empty_bodies[index]?

/-- The loop of `initialize_empty_lists` for `n` more outputs starting at `index`. -/
def initialize_empty_lists_from (self : AutoVectorization τ α ε) :
    Nat → Nat → Option (List (Value α))
  | 0, _ => some []
  | n + 1, index =>
    match self.initialize_empty_list index with
    | none => none
    | some v =>
      match initialize_empty_lists_from self n (index + 1) with
      | none => none
      | some vs => some (v :: vs)

/-- The method `initialize_empty_lists` (lines 375-380): the output tuple `fn_out`. -/
def initialize_empty_lists (self : AutoVectorization τ α ε) : Option (List (Value α)) :=
  self.initialize_empty_lists_from self.m_main.output_amount 0

/-- The method `copy_in_iteration` (lines 351-373). Slot `index` of `main_in` is written; the slots
of `main_in` are written in increasing order of `index`, and the embedding collects them
in a list. -/
def copy_in_iteration (types : TypeSystem τ α) (self : AutoVectorization τ α ε)
    (iteration : Nat) (fn_in : List (Value α)) (main_in : List α)
    (index list_index list_length : Nat) (ctx : ExecutionContext α) :
    Result ε (List α) × ExecutionContext α :=
  if list_length = 0 then
    match init_default types self.m_main.signature.inputs index with
    | some a => (Result.ok (main_in ++ [a]), ctx.record (Event.init_default index))
    | none => (Result.failed Failure.invalid, ctx)
  else
    let load_index := iteration % list_length
    match self.m_get_element_bodies[list_index]?, fn_in[index]?,
        init_default types self.m_main.signature.inputs index with
    | some get_element, some list, some fallback =>
      match get_element list load_index fallback with
      | some a =>
        (Result.ok (main_in ++ [a]),
          ctx.record (Event.get_element index load_index ctx.stack))
      | none => (Result.failed Failure.invalid, ctx)
    | _, _, _ => (Result.failed Failure.invalid, ctx)

/-- The loop over the inputs in `call` (lines 304-314), for the remaining mask entries,
`i` being the position of the first of them. -/
def prepare_main_in (types : TypeSystem τ α) (self : AutoVectorization τ α ε)
    (iteration : Nat) (fn_in : List (Value α)) (input_lengths : List Nat) :
    List Bool → Nat → Nat → List α → ExecutionContext α →
      Result ε (List α) × ExecutionContext α
  | [], _, _, main_in, ctx => (Result.ok main_in, ctx)
  | true :: rest, i, list_index, main_in, ctx =>
    match input_lengths[list_index]? with
    | none => (Result.failed Failure.invalid, ctx)
    | some list_length =>
      match self.copy_in_iteration types iteration fn_in main_in i list_index list_length
          ctx with
      | (Result.ok main_in1, ctx1) =>
        prepare_main_in types self iteration fn_in input_lengths rest (i + 1) (list_index + 1)
          main_in1 ctx1
      | (Result.failed f, ctx1) => (Result.failed f, ctx1)
  | false :: rest, i, list_index, main_in, ctx =>
    match fn_in[i]? with
    | some (Value.base a) =>
      prepare_main_in types self iteration fn_in input_lengths rest (i + 1) list_index
        (main_in ++ [a]) ctx
    | _ => (Result.failed Failure.invalid, ctx)

/-- The method `append_to_output` (lines 391-400): slot `index` of `fn_out` is replaced by itself
with slot `index` of `main_out` appended. -/
def append_to_output (self : AutoVectorization τ α ε) (main_out : List α)
    (fn_out : List (Value α)) (index : Nat) : Option (List (Value α)) :=
  match self.m_append_bodies[index]?, fn_out[index]?, main_out[index]? with
  | some append, some list, some a =>
    match append list a with
    | some list1 => some (fn_out.set index list1)
    | none => none
  | _, _, _ => none

/-- The loop over the outputs in `call` (lines 319-321), for `n` more outputs starting at
`index`. -/
def append_outputs_from (self : AutoVectorization τ α ε) (main_out : List α) :
    Nat → Nat → List (Value α) → Option (List (Value α))
  | 0, _, fn_out => some fn_out
  | n + 1, index, fn_out =>
    match self.append_to_output main_out fn_out index with
    | none => none
    | some fn_out1 => append_outputs_from self main_out n (index + 1) fn_out1

/-- The loop `for (iteration = 0; iteration < max_length; iteration++)` of `call`
(lines 303-322), for `n` more iterations starting at `iteration`. A failure of the
original function's body leaves the loop and `call` at once. -/
def iterations (types : TypeSystem τ α) (self : AutoVectorization τ α ε)
    (body : TupleCallBody α ε) (fn_in : List (Value α)) (input_lengths : List Nat) :
    Nat → Nat → List (Value α) → ExecutionContext α →
      Result ε (List (Value α)) × ExecutionContext α
  | 0, _, fn_out, ctx => (Result.ok fn_out, ctx)
  | n + 1, iteration, fn_out, ctx =>
    match self.prepare_main_in types iteration fn_in input_lengths self.m_input_is_list 0 0 []
        ctx with
    | (Result.failed f, ctx1) => (Result.failed f, ctx1)
    | (Result.ok main_in, ctx1) =>
      let ctx2 := ctx1.set_iteration iteration
      let ctx3 := ctx2.record (Event.main_call main_in ctx2.stack)
      match body.call main_in with
      | Except.error e => (Result.failed (Failure.main e), ctx3)
      | Except.ok main_out =>
        match self.append_outputs_from main_out self.m_main.output_amount 0 fn_out with
        | none => (Result.failed Failure.invalid, ctx3)
        | some fn_out1 =>
          iterations types self body fn_in input_lengths n (iteration + 1) fn_out1 ctx3

/-- The method `AutoVectorization::call` (lines 288-326): the output tuple `fn_out`, or the failure
that left the call, and the execution context as the call leaves it. The frames pushed at
lines 300-301 are the locals `iteration_frame` and `function_name_frame` (lines 298-299).
A failure that leaves the loop leaves `call` without reaching the pops of lines 324-325:
the two entries stay on the stack and the locals they point to are destroyed. -/
def call (types : TypeSystem τ α) (self : AutoVectorization τ α ε) (fn_in : List (Value α))
    (ctx : ExecutionContext α) : Result ε (List (Value α)) × ExecutionContext α :=
  match self.get_input_list_lengths fn_in with
  | none => (Result.failed Failure.invalid, ctx)
  | some input_lengths =>
    match max_element input_lengths with
    | none => (Result.failed Failure.invalid, ctx)
    | some max_length =>
      match self.initialize_empty_lists with
      | none => (Result.failed Failure.invalid, ctx)
      | some fn_out =>
        match self.m_main_body with
        | none => (Result.failed Failure.invalid, ctx)
        | some body =>
          let iteration_frame := StackFrame.iteration none
          let function_name_frame := StackFrame.text self.m_main.name
          let ctx1 := (ctx.push iteration_frame).push function_name_frame
          match self.iterations types body fn_in input_lengths max_length 0 fn_out ctx1 with
          | (Result.failed f, ctx2) => (Result.failed f, ctx2.destroy_locals)
          | (Result.ok fn_out1, ctx2) => (Result.ok fn_out1, ctx2.pop.pop)

end AutoVectorization

/-! ## The compiled backend: `class AutoVectorizationGen` (lines 21-242)

Each method is embedded as the meaning of the instructions it emits, run on the values
`inputs` of the vectorized function's inputs. A data pointer into a list is the list's
elements. A null extension or body that the method dereferences, or a value of the wrong
kind, yields `none`. -/

/-- What the emitted instructions did, in order (ghost state). -/
inductive IREvent (α : Type) where
  | new_list (output_index length : Nat)
  | default_builder (list_input_index : Nat)
  | load (index load_index : Nat)
  | main_call (main_inputs : List α)
  | store (output_index offset : Nat)
  | free (index : Nat)
deriving DecidableEq, Repr

/-- The record `struct InputInfo` (lines 27-34). -/
structure InputInfo (α : Type) where
  is_list : Bool
  base_cpp_type : Option (CPPTypeInfo α)
  base_llvm_type : Option LLVMTypeInfo
  list_llvm_type : Option LLVMTypeInfo
  get_length_fn : Value α → Option Nat
  get_data_ptr_fn : Value α → Option (List α)

/-- The record `struct OutputInfo` (lines 36-41). `get_new_list_fn n u` is a new list with an
allocated buffer of `n` elements, each holding the not yet written content `u`. -/
structure OutputInfo (α : Type) where
  base_cpp_type : Option (CPPTypeInfo α)
  base_llvm_type : Option LLVMTypeInfo
  get_new_list_fn : Nat → α → List α

/-- The members of `class AutoVectorizationGen` (lines 23-44). -/
structure AutoVectorizationGen (τ α ε : Type) where
  m_main : SharedFunction τ α ε
  m_input_is_list : List Bool
  m_empty_list_value_builders : List (SharedFunction τ α ε)
  m_input_info : List (InputInfo α)
  m_output_info : List (OutputInfo α)

/-- Modelled from the spec: `GET_C_FN_list_data_ptr`, the accessor for a list's raw
element storage. -/
def list_data_ptr {α : Type} : Value α → Option (List α)
  | Value.list xs => some xs
  | Value.base _ => none

/-- Modelled from the spec: `GET_C_FN_new_list_with_allocated_buffer`, the constructor
for a new list of exactly `n` elements. -/
def new_list_with_allocated_buffer {α : Type} (n : Nat) (u : α) : List α :=
  List.replicate n u

/-- The value of a 32-bit pattern read as a signed integer. -/
def toInt32 (n : Nat) : Int :=
  if n % 2 ^ 32 < 2 ^ 31 then ((n % 2 ^ 32 : Nat) : Int) else ((n % 2 ^ 32 : Nat) : Int) - 2 ^ 32

/-- Modelled from the spec: `CodeBuilder::CreateSIntMax(a, b)`, which is not among the
sources at hand: the maximum of two `Int32` values compared as signed integers. -/
def CreateSIntMax2 (a b : Nat) : Nat :=
  if toInt32 b ≤ toInt32 a then a else b

/-- Modelled from the spec: `CodeBuilder::CreateSIntMax(values)`, which is not among the
sources at hand: the signed maximum of one or more `Int32` values; no value at all is
refused. -/
def CreateSIntMax : List Nat → Option Nat
  | [] => none
  | x :: xs => some (xs.foldl CreateSIntMax2 x)

namespace AutoVectorizationGen

variable {τ α ε : Type}

/-- The first loop of the constructor (lines 55-66), over the remaining inputs of `main`,
`i` being the position of the first of them. -/
def input_info_from (types : TypeSystem τ α) (input_is_list : List Bool) :
    List (Parameter τ) → Nat → Option (List (InputInfo α))
  | [], _ => some []
  | p :: rest, i =>
    match input_is_list[i]? with
    | none => none
    | some is_list =>
      match input_info_from types input_is_list rest (i + 1) with
      | none => none
      | some infos =>
        some ({ is_list := is_list
                base_cpp_type := types.cpp_type_info p.type
                base_llvm_type := types.llvm_type_info p.type
                list_llvm_type := types.llvm_type_info (types.get_list_type p.type)
                get_length_fn := list_length
                get_data_ptr_fn := list_data_ptr } :: infos)

/-- The second loop of the constructor (lines 67-75). -/
def output_info (types : TypeSystem τ α) (outputs : List (Parameter τ)) : List (OutputInfo α) :=
  outputs.map (fun output =>
    { base_cpp_type := types.cpp_type_info output.type
      base_llvm_type := types.llvm_type_info output.type
      get_new_list_fn := new_list_with_allocated_buffer })

/-- The constructor (lines 47-76); `none` when `BLI_assert(input_is_list.contains(true))`
fails or the mask is indexed past its end. -/
def new (types : TypeSystem τ α) (main : SharedFunction τ α ε) (input_is_list : List Bool)
    (empty_list_value_builders : List (SharedFunction τ α ε)) :
    Option (AutoVectorizationGen τ α ε) :=
  match BLI_assert (input_is_list.contains true) with
  | none => none
  | some _ =>
    match input_info_from types input_is_list main.signature.inputs 0 with
    | none => none
    | some infos =>
      some { m_main := main
             m_input_is_list := input_is_list
             m_empty_list_value_builders := empty_list_value_builders
             m_input_info := infos
             m_output_info := output_info types main.signature.outputs }

/-- The method `get_input_list_lengths` (lines 109-122), over the remaining entries of
`m_input_info`, `i` being the position of the first of them. -/
def get_input_list_lengths_from (inputs : List (Value α)) :
    List (InputInfo α) → Nat → Option (List Nat)
  | [], _ => some []
  | info :: rest, i =>
    if info.is_list then
      match inputs[i]? with
      | none => none
      | some v =>
        match info.get_length_fn v with
        | none => none
        | some length =>
          match get_input_list_lengths_from inputs rest (i + 1) with
          | none => none
          | some list_lengths => some (length :: list_lengths)
    else get_input_list_lengths_from inputs rest (i + 1)

/-- The method `get_input_list_lengths` (lines 109-122). -/
def get_input_list_lengths (self : AutoVectorizationGen τ α ε) (inputs : List (Value α)) :
    Option (List Nat) :=
  get_input_list_lengths_from inputs self.m_input_info 0

/-- The method `get_input_data_pointers` (lines 124-139), over the remaining entries of
`m_input_info`. The stride is read from the native extension, which must be there. -/
def get_input_data_pointers_from (inputs : List (Value α)) :
    List (InputInfo α) → Nat → Option (List (List α))
  | [], _ => some []
  | info :: rest, i =>
    if info.is_list then
      match info.base_cpp_type, inputs[i]? with
      | some _, some v =>
        match info.get_data_ptr_fn v with
        | none => none
        | some data_ptr =>
          match get_input_data_pointers_from inputs rest (i + 1) with
          | none => none
          | some data_pointers => some (data_ptr :: data_pointers)
      | _, _ => none
    else get_input_data_pointers_from inputs rest (i + 1)

/-- The method `get_input_data_pointers` (lines 124-139). -/
def get_input_data_pointers (self : AutoVectorizationGen τ α ε) (inputs : List (Value α)) :
    Option (List (List α)) :=
  get_input_data_pointers_from inputs self.m_input_info 0

/-- The method `create_output_lists` (lines 141-163), over the remaining entries of `m_output_info`:
the buffers of the new output lists, which are the vectorized function's outputs, and
the log. -/
def create_output_lists_from (length : Nat) (u : α) :
    List (OutputInfo α) → Nat → Option (List (List α) × List (IREvent α))
  | [], _ => some ([], [])
  | info :: rest, i =>
    match info.base_cpp_type with
    | none => none
    | some _ =>
      match create_output_lists_from length u rest (i + 1) with
      | none => none
      | some (data_pointers, log) =>
        some (info.get_new_list_fn length u :: data_pointers, IREvent.new_list i length :: log)

/-- The method `create_output_lists` (lines 141-163). -/
def create_output_lists (self : AutoVectorizationGen τ α ε) (length : Nat) (u : α) :
    Option (List (List α) × List (IREvent α)) :=
  create_output_lists_from length u self.m_output_info 0

/-- The method `store_computed_values_in_output_lists` (lines 165-175), over the remaining
entries of `m_output_info`: the value computed for output `i` is stored at offset
`iteration` of buffer `i`. -/
def store_computed_values_from (computed_values : List α) (iteration : Nat) :
    List (OutputInfo α) → Nat → List (List α) → Option (List (List α) × List (IREvent α))
  | [], _, output_data => some (output_data, [])
  | info :: rest, i, output_data =>
    match info.base_llvm_type, output_data[i]?, computed_values[i]? with
    | some _, some buffer, some a =>
      match store_computed_values_from computed_values iteration rest (i + 1)
          (output_data.set i (buffer.set iteration a)) with
      | none => none
      | some (output_data1, log) => some (output_data1, IREvent.store i iteration :: log)
    | _, _, _ => none

/-- The method `store_computed_values_in_output_lists` (lines 165-175). -/
def store_computed_values_in_output_lists (self : AutoVectorizationGen τ α ε)
    (computed_values : List α) (output_data : List (List α)) (iteration : Nat) :
    Option (List (List α) × List (IREvent α)) :=
  store_computed_values_from computed_values iteration self.m_output_info 0 output_data

/-- The method `prepare_main_function_inputs` (lines 177-231), over the remaining entries of
`m_input_info`, `i` being the position of the first of them. For a list input the
instructions of the default-value builder are emitted with `builder` (line 206), ahead of
the conditional, and so run whatever the length; the remainder and the load are emitted
with `else_builder` and run when the length is not zero; the phi node (lines 218-220)
takes the default value from the branch of the empty list and the loaded value from the
other. -/
def prepare_main_function_inputs_from (self : AutoVectorizationGen τ α ε)
    (inputs : List (Value α)) (input_data_pointers : List (List α))
    (input_list_lengths : List Nat) (iteration : Nat) :
    List (InputInfo α) → Nat → Nat → Option (List α × List (IREvent α))
  | [], _, _ => some ([], [])
  | info :: rest, i, list_input_index =>
    match info.base_llvm_type, self.m_input_is_list[i]? with
    | some _, some true =>
      match input_list_lengths[list_input_index]?,
          self.m_empty_list_value_builders[list_input_index]?,
          input_data_pointers[list_input_index]? with
      | some list_length, some default_builder, some data_ptr =>
        match default_builder.llvm_build_ir_body with
        | none => none
        | some default_builder_body =>
          match (default_builder_body.build_ir [])[0]? with
          | none => none
          | some default_value =>
            let phi : Option (α × List (IREvent α)) :=
              if list_length = 0 then
                some (default_value, [IREvent.default_builder list_input_index])
              else
                let current_index := iteration % list_length
                match data_ptr[current_index]? with
                | none => none
                | some loaded_value_for_main =>
                  some (loaded_value_for_main,
                    [IREvent.default_builder list_input_index, IREvent.load i current_index])
            match phi with
            | none => none
            | some (value, log) =>
              match prepare_main_function_inputs_from self inputs input_data_pointers
                  input_list_lengths iteration rest (i + 1) (list_input_index + 1) with
              | none => none
              | some (main_inputs, log1) => some (value :: main_inputs, log ++ log1)
      | _, _, _ => none
    | some _, some false =>
      match inputs[i]? with
      | some (Value.base source_value) =>
        match prepare_main_function_inputs_from self inputs input_data_pointers
            input_list_lengths iteration rest (i + 1) list_input_index with
        | none => none
        | some (main_inputs, log1) => some (source_value :: main_inputs, log1)
      | _ => none
    | _, _ => none

/-- The method `prepare_main_function_inputs` (lines 177-231). -/
def prepare_main_function_inputs (self : AutoVectorizationGen τ α ε)
    (inputs : List (Value α)) (input_data_pointers : List (List α))
    (input_list_lengths : List Nat) (iteration : Nat) : Option (List α × List (IREvent α)) :=
  self.prepare_main_function_inputs_from inputs input_data_pointers input_list_lengths
    iteration self.m_input_info 0 0

/-- The method `free_input_lists` (lines 233-241), over the remaining entries of `m_input_info`. -/
def free_input_lists_from : List (InputInfo α) → Nat → Option (List (IREvent α))
  | [], _ => some []
  | info :: rest, i =>
    if info.is_list then
      match info.list_llvm_type with
      | none => none
      | some _ =>
        match free_input_lists_from rest (i + 1) with
        | none => none
        | some log => some (IREvent.free i :: log)
    else free_input_lists_from rest (i + 1)

/-- The method `free_input_lists` (lines 233-241). -/
def free_input_lists (self : AutoVectorizationGen τ α ε) : Option (List (IREvent α)) :=
  free_input_lists_from self.m_input_info 0

/-- Modelled from the spec: the loop of `CodeBuilder::CreateNIterationsLoop(max_length)`,
a single counted loop from 0 to `max_length` (exclusive); here for `n` more iterations
starting at `iteration`. The body is lines 92-102 of `build_ir`. The source emits the
instructions of the body once, whatever `max_length` is, and dereferences the compiled
extensions and the builders' bodies while doing so (lines 172, 188-218); the embedding runs
the body and so meets a null among them only when an iteration runs. Where all of them are
there, as in a well-formed setting, the two agree. -/
def loop (self : AutoVectorizationGen τ α ε) (main_body : LLVMBuildIRBody α)
    (inputs : List (Value α)) (input_data_pointers : List (List α))
    (input_list_lengths : List Nat) :
    Nat → Nat → List (List α) → Option (List (List α) × List (IREvent α))
  | 0, _, output_data => some (output_data, [])
  | n + 1, iteration, output_data =>
    match self.prepare_main_function_inputs inputs input_data_pointers input_list_lengths
        iteration with
    | none => none
    | some (main_inputs, log1) =>
      let main_outputs := main_body.build_ir main_inputs
      match self.store_computed_values_in_output_lists main_outputs output_data iteration with
      | none => none
      | some (output_data1, log2) =>
        match loop self main_body inputs input_data_pointers input_list_lengths n
            (iteration + 1) output_data1 with
        | none => none
        | some (output_data2, log3) =>
          some (output_data2, log1 ++ [IREvent.main_call main_inputs] ++ log2 ++ log3)

/-- The method `AutoVectorizationGen::build_ir` (lines 78-106), as the run of the emitted
instructions on `inputs`: the output lists and the log. `u` is the content of a list
element that was allocated and not yet written. -/
def build_ir (self : AutoVectorizationGen τ α ε) (inputs : List (Value α)) (u : α) :
    Option (List (Value α) × List (IREvent α)) :=
  match self.get_input_list_lengths inputs with
  | none => none
  | some input_list_lengths =>
    match CreateSIntMax input_list_lengths with
    | none => none
    | some max_length =>
      match self.get_input_data_pointers inputs, self.create_output_lists max_length u with
      | some input_data_pointers, some (output_data, log1) =>
        match self.m_main.llvm_build_ir_body with
        | none => none
        | some body =>
          match self.loop body inputs input_data_pointers input_list_lengths max_length 0
              output_data with
          | none => none
          | some (output_data1, log2) =>
            match self.free_input_lists with
            | none => none
            | some log3 => some (output_data1.map Value.list, log1 ++ log2 ++ log3)
      | _, _ => none

end AutoVectorizationGen

/-! ## Construction: `to_vectorized_function` (lines 403-448) -/

/-- Modelled from the spec: `derive_TupleCallBody_from_LLVMBuildIRBody`, which is not among
the sources at hand: a tuple-call body derived from the code-generation body is added to
the function; calling it yields what the generated instructions compute. -/
def derive_TupleCallBody_from_LLVMBuildIRBody {τ α ε : Type} (fn : SharedFunction τ α ε) :
    SharedFunction τ α ε :=
  match fn.llvm_build_ir_body with
  | none => fn
  | some body =>
    { fn with tuple_call_body := some { call := fun args => Except.ok (body.build_ir args) } }

/-- The vectorized function: its bodies are the two vectorization backends. -/
abbrev VectorizedFunction (τ α ε : Type) :=
  Function τ (AutoVectorization τ α ε) (AutoVectorizationGen τ α ε)

/-- The loop of lines 423-433 over the remaining inputs, `i` being the position of the first
of them. -/
def vectorized_inputs_from {τ α : Type} (types : TypeSystem τ α)
    (vectorized_inputs_mask : List Bool) : List (Parameter τ) → Nat → Option (List (Parameter τ))
  | [], _ => some []
  | original_parameter :: rest, i =>
    match vectorized_inputs_mask[i]?, vectorized_inputs_from types vectorized_inputs_mask rest
        (i + 1) with
    | some true, some inputs =>
      some ({ name := original_parameter.name ++ " (List)"
              type := types.get_list_type original_parameter.type } :: inputs)
    | some false, some inputs => some (original_parameter :: inputs)
    | _, _ => none

/-- The loop of lines 435-440. -/
def vectorized_outputs {τ α : Type} (types : TypeSystem τ α) (outputs : List (Parameter τ)) :
    List (Parameter τ) :=
  outputs.map (fun original_parameter =>
    { name := original_parameter.name ++ " (List)"
      type := types.get_list_type original_parameter.type })

/-- The function `to_vectorized_function` (lines 403-448). A failed assertion yields `none`:
no function is returned. The result is the original function, as the call leaves it, and the
new function. Line 444, which would attach the `AutoVectorization` body, is commented out in
the source. -/
def to_vectorized_function {τ α ε : Type} (types : TypeSystem τ α)
    (original_fn : SharedFunction τ α ε) (vectorized_inputs_mask : List Bool)
    (empty_list_value_builders : List (SharedFunction τ α ε)) :
    Option (SharedFunction τ α ε × VectorizedFunction τ α ε) :=
  let input_amount := original_fn.input_amount
  match BLI_assert (decide (vectorized_inputs_mask.length = input_amount)),
      BLI_assert (vectorized_inputs_mask.contains true),
      BLI_assert (decide
        (empty_list_value_builders.length = vectorized_inputs_mask.count true)) with
  | some _, some _, some _ =>
    let original_fn1 : Option (SharedFunction τ α ε) :=
      if original_fn.tuple_call_body.isNone then
        if original_fn.llvm_build_ir_body.isSome then
          some (derive_TupleCallBody_from_LLVMBuildIRBody original_fn)
        else (BLI_assert false).map (fun _ => original_fn)
      else some original_fn
    match original_fn1 with
    | none => none
    | some original_fn2 =>
      match vectorized_inputs_from types vectorized_inputs_mask original_fn2.signature.inputs 0
          with
      | none => none
      | some inputs =>
        let outputs := vectorized_outputs types original_fn2.signature.outputs
        let name := original_fn2.name ++ " (Vectorized)"
        match AutoVectorizationGen.new types original_fn2 vectorized_inputs_mask
            empty_list_value_builders with
        | none => none
        | some body =>
          some (original_fn2,
            { name := name
              signature := { inputs := inputs, outputs := outputs }
              tuple_call_body := none
              llvm_build_ir_body := some body })
  | _, _, _ => none

/-! ## Reference functions

Closed forms against which the two backends are compared. -/

/-- The lengths of the list values among `inputs`, in order. -/
def lengths_of {α : Type} : List (Value α) → List Nat
  | [] => []
  | Value.list xs :: vs => xs.length :: lengths_of vs
  | Value.base _ :: vs => lengths_of vs

/-- The element lists of the list values among `inputs`, in order. -/
def data_of {α : Type} : List (Value α) → List (List α)
  | [] => []
  | Value.list xs :: vs => xs :: data_of vs
  | Value.base _ :: vs => data_of vs

/-- Whether `inputs` fits the mask: a list where the mask is true, a base value where
it is false, and as many values as mask entries. -/
def well_typed {α : Type} : List Bool → List (Value α) → Bool
  | [], [] => true
  | true :: mask, Value.list _ :: vs => well_typed mask vs
  | false :: mask, Value.base _ :: vs => well_typed mask vs
  | _, _ => false

/-- The arguments of iteration `j`: a base value as it is, of a non-empty list the
element at `j mod length`, of an empty list the default `D i k`, where `i` is the
position of the input and `k` its position among the list inputs. -/
def broadcast {α : Type} (j : Nat) (D : Nat → Nat → α) : List (Value α) → Nat → Nat → List α
  | [], _, _ => []
  | Value.base a :: vs, i, k => a :: broadcast j D vs (i + 1) k
  | Value.list xs :: vs, i, k => xs.getD (j % xs.length) (D i k) :: broadcast j D vs (i + 1) (k + 1)

/-- Entry `k` of every row that has one. -/
def column {α : Type} (rows : List (List α)) (k : Nat) : List α :=
  rows.filterMap (fun row => row[k]?)

/-- The first `m` columns of `rows`. -/
def columns {α : Type} (m : Nat) (rows : List (List α)) : List (List α) :=
  (List.range m).map (column rows)

/-- The rows `f (args 0)`, ..., `f (args (n - 1))` of the outputs of `f`. -/
def rows_of {α : Type} (f : List α → List α) (args : Nat → List α) (n : Nat) : List (List α) :=
  (List.range n).map (fun j => f (args j))

/-- The stack during the loop of `call`: the function-name frame on top, the iteration
frame holding `it` beneath it, then the caller's frames. -/
def frames (name : String) (it : Option Nat) (base : List StackFrame) : List StackFrame :=
  StackFrame.text name :: StackFrame.iteration it :: base

/-- The log entries of assembling the inputs of one iteration in the interpreted backend,
`i` being the position of the first of `inputs`. -/
def prepare_events {α : Type} (iteration : Nat) (stack : List StackFrame) :
    List (Value α) → Nat → List (Event α)
  | [], _ => []
  | Value.base _ :: vs, i => prepare_events iteration stack vs (i + 1)
  | Value.list xs :: vs, i =>
    (if xs.length = 0 then Event.init_default i
      else Event.get_element i (iteration % xs.length) stack) ::
      prepare_events iteration stack vs (i + 1)

/-- The log entries of `n` iterations of the loop of `call` starting at iteration `j`;
`prev` is what the iteration frame holds when iteration `j` begins. -/
def loop_events {α : Type} (name : String) (base : List StackFrame) (args : Nat → List α)
    (inputs : List (Value α)) : Nat → Nat → Option Nat → List (Event α)
  | 0, _, _ => []
  | n + 1, j, prev =>
    prepare_events j (frames name prev base) inputs 0 ++
      [Event.main_call (args j) (frames name (some j) base)] ++
      loop_events name base args inputs n (j + 1) (some j)

/-- Whether a log entry is a push or a pop of the diagnostic stack. -/
def Event.is_stack_op {α : Type} : Event α → Bool
  | Event.push _ => true
  | Event.pop => true
  | _ => false

/-- The pushes and pops of a log, in order. -/
def stack_ops {α : Type} (log : List (Event α)) : List (Event α) :=
  log.filter Event.is_stack_op

/-- The input records of the compiled backend fit the mask and the inputs: a record marked
as a list stands for a true mask entry and a list value and holds the list accessors and
the extensions dereferenced for a list input; a record not so marked stands for a false
mask entry and a base value and holds the compiled extension of the base type. -/
inductive Fits {α : Type} : List (InputInfo α) → List Bool → List (Value α) → Prop where
  | nil : Fits [] [] []
  | list (info : InputInfo α) (xs : List α) {infos : List (InputInfo α)} {mask : List Bool}
      {vs : List (Value α)} (h_list : info.is_list = true)
      (h_length : info.get_length_fn = list_length)
      (h_data : info.get_data_ptr_fn = list_data_ptr)
      (h_cpp : info.base_cpp_type.isSome = true) (h_llvm : info.base_llvm_type.isSome = true)
      (h_free : info.list_llvm_type.isSome = true) (rest : Fits infos mask vs) :
      Fits (info :: infos) (true :: mask) (Value.list xs :: vs)
  | base (info : InputInfo α) (a : α) {infos : List (InputInfo α)} {mask : List Bool}
      {vs : List (Value α)} (h_list : info.is_list = false)
      (h_llvm : info.base_llvm_type.isSome = true) (rest : Fits infos mask vs) :
      Fits (info :: infos) (false :: mask) (Value.base a :: vs)

/-- The log entries of assembling the inputs of one iteration in the compiled backend, `i`
being the position of the first of `inputs` and `k` its position among the list inputs. -/
def gen_prepare_events {α : Type} (iteration : Nat) :
    List (Value α) → Nat → Nat → List (IREvent α)
  | [], _, _ => []
  | Value.base _ :: vs, i, k => gen_prepare_events iteration vs (i + 1) k
  | Value.list xs :: vs, i, k =>
    (if xs.length = 0 then [IREvent.default_builder k]
      else [IREvent.default_builder k, IREvent.load i (iteration % xs.length)]) ++
      gen_prepare_events iteration vs (i + 1) (k + 1)

/-- The output buffers of the compiled backend once the rows `rows` are stored: the
columns of the rows, then what is left of the `n` allocated elements. -/
def buffers {α : Type} (m n : Nat) (u : α) (rows : List (List α)) : List (List α) :=
  (List.range m).map (fun k => column rows k ++ List.replicate (n - rows.length) u)

/-- The log entries of `n` iterations of the compiled loop starting at iteration `j`, for
`m` outputs. -/
def gen_loop_events {α : Type} (m : Nat) (args : Nat → List α) (inputs : List (Value α)) :
    Nat → Nat → List (IREvent α)
  | 0, _ => []
  | n + 1, j =>
    gen_prepare_events j inputs 0 0 ++ [IREvent.main_call (args j)] ++
      (List.range m).map (fun i => IREvent.store i j) ++
      gen_loop_events m args inputs n (j + 1)

/-- The input tuples handed to the original function's body, in order, as the log of the
interpreted backend records them. -/
def main_calls {α : Type} (log : List (Event α)) : List (List α) :=
  log.filterMap (fun e =>
    match e with
    | Event.main_call main_in _ => some main_in
    | _ => none)

/-- The inputs handed to the inlined body of the original function, in order, as the log of
the compiled backend records them. -/
def ir_main_calls {α : Type} (log : List (IREvent α)) : List (List α) :=
  log.filterMap (fun e =>
    match e with
    | IREvent.main_call main_inputs => some main_inputs
    | _ => none)

/-- The value a default-value builder generates (lines 198-207): output 0 of its
code-generation body run on no inputs; `none` when the body or the output is missing. -/
def default_value_of {τ α ε : Type} (default_builder : SharedFunction τ α ε) : Option α :=
  match default_builder.llvm_build_ir_body with
  | none => none
  | some default_builder_body => (default_builder_body.build_ir [])[0]?

/-- The setting in which the two backends are compared: the construction preconditions of
`to_vectorized_function` (lines 410-412), an original function whose two bodies both
compute `f` and yield all its outputs, the extensions the backends dereference, and
builders that generate a value. -/
structure WellFormed {τ α ε : Type} (types : TypeSystem τ α) (main : SharedFunction τ α ε)
    (f : List α → List α) (mask : List Bool) (builders : List (SharedFunction τ α ε)) :
    Prop where
  mask_length : mask.length = main.input_amount
  mask_true : mask.contains true = true
  builder_count : builders.length = mask.count true
  tuple_call : ∃ body, main.tuple_call_body = some body ∧ ∀ a, body.call a = Except.ok (f a)
  build_ir : ∃ body, main.llvm_build_ir_body = some body ∧ ∀ a, body.build_ir a = f a
  outputs : ∀ a, (f a).length = main.output_amount
  input_types : ∀ p ∈ main.signature.inputs,
    (types.cpp_type_info p.type).isSome = true ∧ (types.llvm_type_info p.type).isSome = true ∧
      (types.llvm_type_info (types.get_list_type p.type)).isSome = true
  output_types : ∀ p ∈ main.signature.outputs,
    (types.cpp_type_info p.type).isSome = true ∧ (types.llvm_type_info p.type).isSome = true
  builders_ok : ∀ b ∈ builders, (default_value_of b).isSome = true

/-- The stacks recorded at the calls of the original function's body, in order. -/
def main_call_stacks {α : Type} (log : List (Event α)) : List (List StackFrame) :=
  log.filterMap (fun e =>
    match e with
    | Event.main_call _ stack => some stack
    | _ => none)

/-- The number of true mask entries at positions before `i`: the position of input `i`
among the list inputs. -/
def list_input_index (mask : List Bool) (i : Nat) : Nat :=
  (mask.take i).count true

/-- The number of default-initialisations of slot `i` (`main_in.init_default(i)`) that a
log of the interpreted backend records. -/
def init_default_count {α : Type} (i : Nat) (log : List (Event α)) : Nat :=
  log.countP (fun e =>
    match e with
    | Event.init_default index => index == i
    | _ => false)

/-- A type system over type names in which every type has both extensions, the default
construction of every type is `0` and the list type of `t` is named `t List`. -/
def number_types : TypeSystem String Int :=
  { get_list_type := fun t => t ++ " List"
    cpp_type_info := fun _ => some { size_of_type := 4, construct_default := 0 }
    llvm_type_info := fun _ => some LLVMTypeInfo.mk }

/-- A function of two numbers with one numeric output. -/
def binary_fn (name : String) (f : Int → Int → Int) : SharedFunction String Int String :=
  { name := name
    signature :=
      { inputs := [{ name := "a", type := "number" }, { name := "b", type := "number" }]
        outputs := [{ name := "result", type := "number" }] }
    tuple_call_body := some { call := fun args => Except.ok [f (args.getD 0 0) (args.getD 1 0)] }
    llvm_build_ir_body := some { build_ir := fun args => [f (args.getD 0 0) (args.getD 1 0)] } }

/-- What `add` computes on an input tuple. -/
def add_values (args : List Int) : List Int := [args.getD 0 0 + args.getD 1 0]

/-- The spec's `add(a, b)`. -/
def add_fn : SharedFunction String Int String := binary_fn "add" (fun a b => a + b)

/-- What `multiply` computes on an input tuple. -/
def multiply_values (args : List Int) : List Int := [args.getD 0 0 * args.getD 1 0]

/-- The spec's element-wise multiply function. -/
def multiply_fn : SharedFunction String Int String := binary_fn "multiply" (fun a b => a * b)

/-- A body that fails on the input 2 and hands every other input back. -/
def failing_fn_body : TupleCallBody Int String :=
  { call := fun args => if args.getD 0 0 = 2 then Except.error "failed" else Except.ok args }

/-- A function of one number whose tuple-call body fails on the input `2`. -/
def failing_fn : SharedFunction String Int String :=
  { name := "checked"
    signature :=
      { inputs := [{ name := "a", type := "number" }]
        outputs := [{ name := "result", type := "number" }] }
    tuple_call_body := some failing_fn_body
    llvm_build_ir_body := none }

/-- A function with a signature and no body at all. -/
def bodiless_fn : SharedFunction String Int String :=
  { name := "declared"
    signature :=
      { inputs := [{ name := "a", type := "number" }]
        outputs := [{ name := "result", type := "number" }] }
    tuple_call_body := none
    llvm_build_ir_body := none }

/-- A list of `2 ^ 31` numbers. -/
def long_list : List Int := List.replicate (2 ^ 31) 0

/-- Two list inputs of lengths `2 ^ 31` and `1`. -/
def long_and_short : List (Value Int) := [Value.list long_list, Value.list [5]]

/-- A default-value builder: no inputs, one output, the constant `c`. -/
def constant_fn (c : Int) : SharedFunction String Int String :=
  { name := "constant"
    signature := { inputs := [], outputs := [{ name := "value", type := "number" }] }
    tuple_call_body := some { call := fun _ => Except.ok [c] }
    llvm_build_ir_body := some { build_ir := fun _ => [c] } }

/-- An empty execution context. -/
def ctx0 : ExecutionContext Int := { stack := [], log := [] }

/-- An execution context whose stack holds one frame of a caller. -/
def ctx_caller : ExecutionContext Int := { stack := [StackFrame.text "caller"], log := [] }

/-- A type system in which no type has the native extension (`extension<CPPTypeInfo>()` is
null) and every type has the compiled one. -/
def bare_types : TypeSystem String Int :=
  { get_list_type := fun t => t ++ " List"
    cpp_type_info := fun _ => none
    llvm_type_info := fun _ => some LLVMTypeInfo.mk }

/-- A function of one number that has a code-generation body only. -/
def compiled_only_fn : SharedFunction String Int String :=
  { name := "negate"
    signature :=
      { inputs := [{ name := "a", type := "number" }]
        outputs := [{ name := "result", type := "number" }] }
    tuple_call_body := none
    llvm_build_ir_body := some { build_ir := fun args => [-(args.getD 0 0)] } }

/-! # Properties

## Auxiliary facts -/

/-! ## Auxiliary facts about lists -/

theorem getElem?_of_drop_eq_cons {β : Type} {l : List β} {i : Nat} {a : β} {t : List β}
    (h : l.drop i = a :: t) : l[i]? = some a := by
  have := List.head?_drop l i
  rw [h] at this
  simpa using this.symm

theorem drop_succ_of_drop_eq_cons {β : Type} {l : List β} {i : Nat} {a : β} {t : List β}
    (h : l.drop i = a :: t) : l.drop (i + 1) = t := by
  have := List.tail_drop l i
  rw [h] at this
  simpa using this.symm

theorem lengths_of_length {α : Type} : ∀ (mask : List Bool) (vs : List (Value α)),
    well_typed mask vs = true → (lengths_of vs).length = mask.count true
  | [], [], _ => by simp [lengths_of]
  | [], _ :: _, h => by simp [well_typed] at h
  | true :: mask, [], h => by simp [well_typed] at h
  | false :: mask, [], h => by simp [well_typed] at h
  | true :: mask, Value.list xs :: vs, h => by
    simp only [well_typed] at h
    simp [lengths_of, lengths_of_length mask vs h]
  | true :: mask, Value.base a :: vs, h => by simp [well_typed] at h
  | false :: mask, Value.list xs :: vs, h => by simp [well_typed] at h
  | false :: mask, Value.base a :: vs, h => by
    simp only [well_typed] at h
    simp [lengths_of, lengths_of_length mask vs h]

theorem well_typed_length {α : Type} : ∀ (mask : List Bool) (vs : List (Value α)),
    well_typed mask vs = true → vs.length = mask.length
  | [], [], _ => rfl
  | [], _ :: _, h => by simp [well_typed] at h
  | true :: mask, [], h => by simp [well_typed] at h
  | false :: mask, [], h => by simp [well_typed] at h
  | true :: mask, Value.list xs :: vs, h => by
    simp only [well_typed] at h
    simp [well_typed_length mask vs h]
  | true :: mask, Value.base a :: vs, h => by simp [well_typed] at h
  | false :: mask, Value.list xs :: vs, h => by simp [well_typed] at h
  | false :: mask, Value.base a :: vs, h => by
    simp only [well_typed] at h
    simp [well_typed_length mask vs h]

theorem list_inputs_from_length : ∀ (mask : List Bool) (i : Nat),
    (list_inputs_from mask i).length = mask.count true
  | [], _ => rfl
  | true :: mask, i => by simp [list_inputs_from, list_inputs_from_length mask (i + 1)]
  | false :: mask, i => by simp [list_inputs_from, list_inputs_from_length mask (i + 1)]

namespace AutoVectorization
variable {τ α ε : Type}

/-- The lengths read by the interpreted backend are the lengths of the list inputs. -/
theorem get_input_list_lengths_from_eq (self : AutoVectorization τ α ε) (fn_in : List (Value α))
    (N : Nat) (hb : ∀ k, k < N → self.m_get_length_bodies[k]? = some list_length) :
    ∀ (mask : List Bool) (vs : List (Value α)) (i k : Nat),
      well_typed mask vs = true → fn_in.drop i = vs → k + mask.count true ≤ N →
      self.get_input_list_lengths_from fn_in (list_inputs_from mask i) k = some (lengths_of vs)
  | [], [], _, _, _, _, _ => by simp [list_inputs_from, get_input_list_lengths_from, lengths_of]
  | [], _ :: _, _, _, h, _, _ => by simp [well_typed] at h
  | true :: mask, [], _, _, h, _, _ => by simp [well_typed] at h
  | false :: mask, [], _, _, h, _, _ => by simp [well_typed] at h
  | true :: mask, Value.base a :: vs, _, _, h, _, _ => by simp [well_typed] at h
  | false :: mask, Value.list xs :: vs, _, _, h, _, _ => by simp [well_typed] at h
  | true :: mask, Value.list xs :: vs, i, k, h, hd, hk => by
    simp only [well_typed] at h
    have hk1 : k < N := by simp at hk; omega
    have hk2 : k + 1 + mask.count true ≤ N := by simp at hk; omega
    have ih := get_input_list_lengths_from_eq self fn_in N hb mask vs (i + 1) (k + 1) h
      (drop_succ_of_drop_eq_cons hd) hk2
    simp [list_inputs_from, get_input_list_lengths_from, get_input_list_length, hb k hk1,
      getElem?_of_drop_eq_cons hd, list_length, ih, lengths_of]
  | false :: mask, Value.base a :: vs, i, k, h, hd, hk => by
    simp only [well_typed] at h
    have hk2 : k + mask.count true ≤ N := by simpa using hk
    have ih := get_input_list_lengths_from_eq self fn_in N hb mask vs (i + 1) k h
      (drop_succ_of_drop_eq_cons hd) hk2
    simp [list_inputs_from, ih, lengths_of]

theorem new_get_input_list_lengths (main : SharedFunction τ α ε) (mask : List Bool)
    (fn_in : List (Value α)) (h : well_typed mask fn_in = true) :
    (AutoVectorization.new main mask).get_input_list_lengths fn_in = some (lengths_of fn_in) := by
  unfold get_input_list_lengths
  apply get_input_list_lengths_from_eq _ fn_in (mask.count true) _ mask fn_in 0 0 h (by simp)
    (by simp)
  intro k hk
  simp [AutoVectorization.new, list_inputs_from_length, hk]

theorem initialize_empty_lists_from_eq (self : AutoVectorization τ α ε) (N : Nat)
    (hb : ∀ k, k < N → self.m_create_empty_bodies[k]? = some empty_list) :
    ∀ (n index : Nat), index + n ≤ N →
      self.initialize_empty_lists_from n index = some (List.replicate n (Value.list []))
  | 0, _, _ => by simp [initialize_empty_lists_from]
  | n + 1, index, h => by
    have ih := initialize_empty_lists_from_eq self N hb n (index + 1) (by omega)
    simp [initialize_empty_lists_from, initialize_empty_list, hb index (by omega), ih,
      empty_list, List.replicate_succ]


theorem prepare_main_in_eq (types : TypeSystem τ α) (self : AutoVectorization τ α ε)
    (iteration : Nat) (fn_in : List (Value α)) (input_lengths : List Nat) (D : Nat → Nat → α)
    (N : Nat) (hb : ∀ k, k < N → self.m_get_element_bodies[k]? = some get_list_element)
    (hD : ∀ i k, i < self.m_main.signature.inputs.length →
      init_default types self.m_main.signature.inputs i = some (D i k)) :
    ∀ (mask : List Bool) (vs : List (Value α)) (i k : Nat) (main_in : List α)
      (ctx : ExecutionContext α),
      well_typed mask vs = true → fn_in.drop i = vs → input_lengths.drop k = lengths_of vs →
      k + mask.count true ≤ N → i + mask.length ≤ self.m_main.signature.inputs.length →
      self.prepare_main_in types iteration fn_in input_lengths mask i k main_in ctx =
        (Result.ok (main_in ++ broadcast iteration D vs i k),
          { stack := ctx.stack
            log := ctx.log ++ prepare_events iteration ctx.stack vs i })
  | [], [], _, _, _, _, _, _, _, _, _ => by
    simp [prepare_main_in, broadcast, prepare_events]
  | [], _ :: _, _, _, _, _, h, _, _, _, _ => by simp [well_typed] at h
  | true :: mask, [], _, _, _, _, h, _, _, _, _ => by simp [well_typed] at h
  | false :: mask, [], _, _, _, _, h, _, _, _, _ => by simp [well_typed] at h
  | true :: mask, Value.base a :: vs, _, _, _, _, h, _, _, _, _ => by simp [well_typed] at h
  | false :: mask, Value.list xs :: vs, _, _, _, _, h, _, _, _, _ => by simp [well_typed] at h
  | true :: mask, Value.list xs :: vs, i, k, main_in, ctx, h, hd, hl, hk, hi => by
    simp only [well_typed] at h
    simp only [lengths_of] at hl
    have hk1 : k < N := by simp at hk; omega
    have hk2 : k + 1 + mask.count true ≤ N := by simp at hk; omega
    have hi1 : i < self.m_main.signature.inputs.length := by simp at hi; omega
    have hi2 : i + 1 + mask.length ≤ self.m_main.signature.inputs.length := by
      simp at hi; omega
    have ih := fun main_in1 ctx1 =>
      prepare_main_in_eq types self iteration fn_in input_lengths D N hb hD mask vs (i + 1)
        (k + 1) main_in1 ctx1 h (drop_succ_of_drop_eq_cons hd) (drop_succ_of_drop_eq_cons hl)
        hk2 hi2
    by_cases hx : xs.length = 0
    · have hxs : xs = [] := List.length_eq_zero.mp hx
      subst hxs
      simp [prepare_main_in, getElem?_of_drop_eq_cons hl, copy_in_iteration, hD i k hi1, ih,
        broadcast, prepare_events, ExecutionContext.record]
    · simp [prepare_main_in, getElem?_of_drop_eq_cons hl, copy_in_iteration, hx, hD i k hi1,
        hb k hk1, getElem?_of_drop_eq_cons hd, get_list_element, ih, broadcast, prepare_events,
        ExecutionContext.record]
  | false :: mask, Value.base a :: vs, i, k, main_in, ctx, h, hd, hl, hk, hi => by
    simp only [well_typed] at h
    simp only [lengths_of] at hl
    have hk2 : k + mask.count true ≤ N := by simpa using hk
    have hi2 : i + 1 + mask.length ≤ self.m_main.signature.inputs.length := by
      simp at hi; omega
    have ih := fun main_in1 ctx1 =>
      prepare_main_in_eq types self iteration fn_in input_lengths D N hb hD mask vs (i + 1)
        k main_in1 ctx1 h (drop_succ_of_drop_eq_cons hd) hl hk2 hi2
    simp [prepare_main_in, getElem?_of_drop_eq_cons hd, ih, broadcast, prepare_events]

end AutoVectorization

theorem column_append_row {α : Type} (rows : List (List α)) (row : List α) (k : Nat) (a : α)
    (h : row[k]? = some a) : column (rows ++ [row]) k = column rows k ++ [a] := by
  simp [column, List.filterMap_append, h]

theorem columns_getElem? {α : Type} (m : Nat) (rows : List (List α)) (k : Nat) (hk : k < m) :
    (columns m rows)[k]? = some (column rows k) := by
  simp [columns, List.getElem?_range hk]

theorem columns_length {α : Type} (m : Nat) (rows : List (List α)) :
    (columns m rows).length = m := by
  simp [columns]

namespace AutoVectorization
variable {τ α ε : Type}

/-- The loop over the outputs while row `row` is being appended: the first `idx` columns
have it, and in the end all have. -/
theorem append_outputs_from_eq (self : AutoVectorization τ α ε) (m : Nat)
    (hb : ∀ k, k < m → self.m_append_bodies[k]? = some append_to_list)
    (rows : List (List α)) (row : List α) (hrow : m ≤ row.length) :
    ∀ (n idx : Nat), idx + n = m →
      self.append_outputs_from row n idx
        ((List.range m).map (fun k =>
          Value.list (if k < idx then column (rows ++ [row]) k else column rows k))) =
      some ((columns m (rows ++ [row])).map Value.list)
  | 0, idx, h => by
    simp only [append_outputs_from, columns, List.map_map]
    congr 1
    apply List.map_congr_left
    intro k hk
    have : k < idx := by simp at hk; omega
    simp [this]
  | n + 1, idx, h => by
    have hidx : idx < m := by omega
    have hr : idx < row.length := by omega
    have ih := append_outputs_from_eq self m hb rows row hrow n (idx + 1) (by omega)
    simp only [append_outputs_from, append_to_output, hb idx hidx, List.getElem?_map,
      List.getElem?_range hidx, Option.map_some', lt_irrefl, if_false,
      List.getElem?_eq_getElem hr, append_to_list]
    rw [← ih]
    congr 1
    apply List.ext_getElem?
    intro k
    rw [List.getElem?_set]
    by_cases hk : idx = k
    · subst hk
      simp [hidx, List.getElem?_range hidx,
        column_append_row rows row idx _ (List.getElem?_eq_getElem hr)]
    · simp only [hk, if_false, List.getElem?_map]
      by_cases hkm : k < m
      · simp only [List.getElem?_range hkm, Option.map_some']
        have : (k < idx + 1) = (k < idx) := by
          apply propext; constructor <;> intro h1 <;> omega
        simp [this]
      · simp [List.getElem?_eq_none (by simpa using hkm : (List.range m).length ≤ k)]

theorem append_outputs_eq (self : AutoVectorization τ α ε) (m : Nat)
    (hb : ∀ k, k < m → self.m_append_bodies[k]? = some append_to_list)
    (rows : List (List α)) (row : List α) (hrow : m ≤ row.length) :
    self.append_outputs_from row m 0 ((columns m rows).map Value.list) =
      some ((columns m (rows ++ [row])).map Value.list) := by
  have := append_outputs_from_eq self m hb rows row hrow m 0 (by omega)
  simpa [columns] using this

end AutoVectorization

theorem rows_of_succ {α : Type} (f : List α → List α) (args : Nat → List α) (n : Nat) :
    rows_of f args (n + 1) = rows_of f args n ++ [f (args n)] := by
  simp [rows_of, List.range_succ]

namespace AutoVectorization
variable {τ α ε : Type}

theorem iterations_eq (types : TypeSystem τ α) (self : AutoVectorization τ α ε)
    (body : TupleCallBody α ε) (fn_in : List (Value α)) (input_lengths : List Nat)
    (f : List α → List α) (args : Nat → List α) (base : List StackFrame)
    (hcall : ∀ a, body.call a = Except.ok (f a))
    (hf : ∀ a, self.m_main.output_amount ≤ (f a).length)
    (hb : ∀ k, k < self.m_main.output_amount → self.m_append_bodies[k]? = some append_to_list)
    (hprep : ∀ (j : Nat) (ctx : ExecutionContext α),
      self.prepare_main_in types j fn_in input_lengths self.m_input_is_list 0 0 [] ctx =
        (Result.ok (args j),
          { stack := ctx.stack, log := ctx.log ++ prepare_events j ctx.stack fn_in 0 })) :
    ∀ (n j : Nat) (prev : Option Nat) (log : List (Event α)),
      self.iterations types body fn_in input_lengths n j
          ((columns self.m_main.output_amount (rows_of f args j)).map Value.list)
          { stack := frames self.m_main.name prev base, log := log } =
        (Result.ok ((columns self.m_main.output_amount (rows_of f args (j + n))).map Value.list),
          { stack := frames self.m_main.name (if n = 0 then prev else some (j + n - 1)) base
            log := log ++ loop_events self.m_main.name base args fn_in n j prev })
  | 0, j, prev, log => by simp [iterations, loop_events]
  | n + 1, j, prev, log => by
    have ih := iterations_eq types self body fn_in input_lengths f args base hcall hf hb hprep
      n (j + 1) (some j)
    have hrows := append_outputs_eq self self.m_main.output_amount hb (rows_of f args j)
      (f (args j)) (hf _)
    rw [← rows_of_succ] at hrows
    simp only [iterations, hprep, hcall, hrows, ExecutionContext.set_iteration,
      ExecutionContext.record, frames, List.set_cons_succ, List.set_cons_zero]
    have ih1 := ih (log ++ prepare_events j (frames self.m_main.name prev base) fn_in 0 ++
      [Event.main_call (args j) (frames self.m_main.name (some j) base)])
    simp only [frames] at ih1
    rw [ih1]
    have e1 : j + 1 + n = j + (n + 1) := by omega
    have e2 : (if n = 0 then some j else some (j + 1 + n - 1)) = some (j + (n + 1) - 1) := by
      split
      · next h => subst h; rfl
      · congr 1; omega
    simp [e1, e2, loop_events, frames]


theorem copy_in_iteration_quiet (types : TypeSystem τ α) (self : AutoVectorization τ α ε)
    (iteration : Nat) (fn_in : List (Value α)) (main_in : List α)
    (index list_index list_length : Nat) (ctx : ExecutionContext α) :
    (self.copy_in_iteration types iteration fn_in main_in index list_index list_length ctx).2.stack
        = ctx.stack ∧
      stack_ops (self.copy_in_iteration types iteration fn_in main_in index list_index
        list_length ctx).2.log = stack_ops ctx.log ∧
      ∀ e, (self.copy_in_iteration types iteration fn_in main_in index list_index
        list_length ctx).1 ≠ Result.failed (Failure.main e) := by
  unfold copy_in_iteration
  split
  · split <;> simp [ExecutionContext.record, stack_ops, Event.is_stack_op]
  · dsimp only
    split
    · split <;> simp [ExecutionContext.record, stack_ops, Event.is_stack_op]
    · simp

theorem prepare_main_in_quiet (types : TypeSystem τ α) (self : AutoVectorization τ α ε)
    (iteration : Nat) (fn_in : List (Value α)) (input_lengths : List Nat) :
    ∀ (mask : List Bool) (i k : Nat) (main_in : List α) (ctx : ExecutionContext α),
      (self.prepare_main_in types iteration fn_in input_lengths mask i k main_in ctx).2.stack
          = ctx.stack ∧
        stack_ops (self.prepare_main_in types iteration fn_in input_lengths mask i k main_in
          ctx).2.log = stack_ops ctx.log ∧
        ∀ e, (self.prepare_main_in types iteration fn_in input_lengths mask i k main_in
          ctx).1 ≠ Result.failed (Failure.main e)
  | [], _, _, _, _ => by simp [prepare_main_in]
  | true :: mask, i, k, main_in, ctx => by
    unfold prepare_main_in
    split
    · simp
    · next list_length _ =>
      have h1 := copy_in_iteration_quiet types self iteration fn_in main_in i k list_length ctx
      split
      · next main_in1 ctx1 heq =>
        have ih := prepare_main_in_quiet types self iteration fn_in input_lengths mask (i + 1)
          (k + 1) main_in1 ctx1
        rw [heq] at h1
        simp only at h1
        rw [← h1.1, ← h1.2.1]
        exact ih
      · next f ctx1 heq =>
        rw [heq] at h1
        simpa using h1
  | false :: mask, i, k, main_in, ctx => by
    unfold prepare_main_in
    split
    · next a _ =>
      exact prepare_main_in_quiet types self iteration fn_in input_lengths mask (i + 1) k
        (main_in ++ [a]) ctx
    · simp

/-- The loop of `call` leaves the two frames in place; when the body of the original
function fails, the iteration frame holds the iteration of the failed call, whose log
entry is the last. -/
theorem iterations_stack (types : TypeSystem τ α) (self : AutoVectorization τ α ε)
    (body : TupleCallBody α ε) (fn_in : List (Value α)) (input_lengths : List Nat)
    (base : List StackFrame) :
    ∀ (n j : Nat) (fn_out : List (Value α)) (ctx : ExecutionContext α) (prev : Option Nat),
      ctx.stack = frames self.m_main.name prev base →
      (∃ it, (self.iterations types body fn_in input_lengths n j fn_out ctx).2.stack =
          frames self.m_main.name it base) ∧
        stack_ops (self.iterations types body fn_in input_lengths n j fn_out ctx).2.log =
          stack_ops ctx.log ∧
        ∀ e, (self.iterations types body fn_in input_lengths n j fn_out ctx).1 =
            Result.failed (Failure.main e) →
          ∃ it main_in, j ≤ it ∧ it < j + n ∧ body.call main_in = Except.error e ∧
            (self.iterations types body fn_in input_lengths n j fn_out ctx).2.stack =
              frames self.m_main.name (some it) base ∧
            (self.iterations types body fn_in input_lengths n j fn_out ctx).2.log.getLast? =
              some (Event.main_call main_in (frames self.m_main.name (some it) base))
  | 0, j, fn_out, ctx, prev, h => by
    exact ⟨⟨prev, by simp [iterations, h]⟩, by simp [iterations], by simp [iterations]⟩
  | n + 1, j, fn_out, ctx, prev, h => by
    have hq := prepare_main_in_quiet types self j fn_in input_lengths self.m_input_is_list 0 0
      [] ctx
    unfold iterations
    split
    · next f ctx1 heq =>
      rw [heq] at hq
      simp only at hq
      refine ⟨⟨prev, by rw [hq.1, h]⟩, hq.2.1, ?_⟩
      intro e he
      simp only [Result.failed.injEq] at he
      exact absurd (by rw [he]) (hq.2.2 e)
    · next main_in ctx1 heq =>
      rw [heq] at hq
      simp only at hq
      have hs : (ctx1.set_iteration j).stack = frames self.m_main.name (some j) base := by
        simp [ExecutionContext.set_iteration, hq.1, h, frames]
      dsimp only
      split
      · next e hcall =>
        refine ⟨⟨some j, by simp [ExecutionContext.record, hs]⟩, ?_, ?_⟩
        · simp [ExecutionContext.record, ExecutionContext.set_iteration, stack_ops,
            Event.is_stack_op]
          simpa [stack_ops] using hq.2.1
        · intro e1 he1
          simp only [Result.failed.injEq, Failure.main.injEq] at he1
          subst he1
          exact ⟨j, main_in, le_refl _, by omega, hcall, by simp [ExecutionContext.record, hs],
            by simp [ExecutionContext.record, hs]⟩
      · next main_out hcall =>
        split
        · refine ⟨⟨some j, by simp [ExecutionContext.record, hs]⟩, ?_, ?_⟩
          · simp [ExecutionContext.record, ExecutionContext.set_iteration, stack_ops,
              Event.is_stack_op]
            simpa [stack_ops] using hq.2.1
          · intro e1 he1
            simp at he1
        · next fn_out1 _ =>
          have ih := iterations_stack types self body fn_in input_lengths base n (j + 1) fn_out1
            ((ctx1.set_iteration j).record
              (Event.main_call main_in (ctx1.set_iteration j).stack)) (some j)
            (by simp [ExecutionContext.record, hs])
          refine ⟨ih.1, ?_, ?_⟩
          · rw [ih.2.1]
            simp [ExecutionContext.record, ExecutionContext.set_iteration, stack_ops,
              Event.is_stack_op]
            simpa [stack_ops] using hq.2.1
          · intro e1 he1
            obtain ⟨it, mi, h1, h2, h3, h4, h5⟩ := ih.2.2 e1 he1
            exact ⟨it, mi, by omega, by omega, h3, h4, h5⟩


/-- What `call` returns, in terms of its loop. -/
theorem call_cases (types : TypeSystem τ α) (self : AutoVectorization τ α ε)
    (fn_in : List (Value α)) (ctx : ExecutionContext α) :
    (self.call types fn_in ctx = (Result.failed Failure.invalid, ctx)) ∨
    ∃ body input_lengths max_length fn_out, self.m_main_body = some body ∧
      self.get_input_list_lengths fn_in = some input_lengths ∧
      max_element input_lengths = some max_length ∧
      self.initialize_empty_lists = some fn_out ∧
      ((∃ f, (self.iterations types body fn_in input_lengths max_length 0 fn_out
            ((ctx.push (StackFrame.iteration none)).push (StackFrame.text self.m_main.name))).1
              = Result.failed f ∧
          self.call types fn_in ctx = (Result.failed f,
            (self.iterations types body fn_in input_lengths max_length 0 fn_out
              ((ctx.push (StackFrame.iteration none)).push
                (StackFrame.text self.m_main.name))).2.destroy_locals)) ∨
       (∃ fn_out1, (self.iterations types body fn_in input_lengths max_length 0 fn_out
            ((ctx.push (StackFrame.iteration none)).push (StackFrame.text self.m_main.name))).1
              = Result.ok fn_out1 ∧
          self.call types fn_in ctx = (Result.ok fn_out1,
            (self.iterations types body fn_in input_lengths max_length 0 fn_out
              ((ctx.push (StackFrame.iteration none)).push
                (StackFrame.text self.m_main.name))).2.pop.pop))) := by
  cases h1 : self.get_input_list_lengths fn_in with
  | none => left; simp [call, h1]
  | some input_lengths =>
    cases h2 : max_element input_lengths with
    | none => left; simp [call, h1, h2]
    | some max_length =>
      cases h3 : self.initialize_empty_lists with
      | none => left; simp [call, h1, h2, h3]
      | some fn_out =>
        cases h4 : self.m_main_body with
        | none => left; simp [call, h1, h2, h3, h4]
        | some body =>
          right
          refine ⟨body, input_lengths, max_length, fn_out, rfl, rfl, h2, rfl, ?_⟩
          cases h5 : self.iterations types body fn_in input_lengths max_length 0 fn_out
            ((ctx.push (StackFrame.iteration none)).push (StackFrame.text self.m_main.name)) with
          | mk r ctx2 =>
            cases r with
            | ok fn_out1 =>
              right
              exact ⟨fn_out1, rfl, by simp [call, h1, h2, h3, h4, h5]⟩
            | failed f =>
              left
              exact ⟨f, rfl, by simp [call, h1, h2, h3, h4, h5]⟩

/-- C10: a call of `AutoVectorization::call` that completes normally, whatever the maximum
length (zero included), pushes exactly two frames, first the iteration frame and then the
function-name frame, and pops exactly two: the stack after the call is the stack before
the call. -/
theorem call_normal_completion_restores_stack (types : TypeSystem τ α)
    (self : AutoVectorization τ α ε) (fn_in : List (Value α)) (ctx : ExecutionContext α)
    (fn_out : List (Value α)) (h : (self.call types fn_in ctx).1 = Result.ok fn_out) :
    (self.call types fn_in ctx).2.stack = ctx.stack ∧
      stack_ops (self.call types fn_in ctx).2.log =
        stack_ops ctx.log ++
          [Event.push (StackFrame.iteration none), Event.push (StackFrame.text self.m_main.name),
            Event.pop, Event.pop] := by
  rcases call_cases types self fn_in ctx with hc | ⟨body, lens, n, out0, _, _, _, _, hc⟩
  · rw [hc] at h; simp at h
  · rcases hc with ⟨f, hf, hc⟩ | ⟨out1, hok, hc⟩
    · rw [hc] at h; simp at h
    · have hs := iterations_stack types self body fn_in lens ctx.stack n 0 out0
        ((ctx.push (StackFrame.iteration none)).push (StackFrame.text self.m_main.name)) none
        (by simp [ExecutionContext.push, frames])
      obtain ⟨⟨it, hst⟩, hlog, _⟩ := hs
      rw [hc]
      constructor
      · simp [ExecutionContext.pop, hst, frames]
      · simp only [ExecutionContext.pop, stack_ops, List.filter_append] at hlog ⊢
        rw [hlog]
        simp [ExecutionContext.push, Event.is_stack_op, List.filter_append]

/-- A failure that `call` hands to its caller comes from the body of the original function:
the call of the body that failed is the last entry of the log and ran on the stack before
the call with the iteration frame, holding the iteration of the failure, and the
function-name frame on it. No pop follows: after the call the stack still has the two
entries on top of the caller's, and their frames are gone. -/
theorem call_failed_inv (types : TypeSystem τ α)
    (self : AutoVectorization τ α ε) (fn_in : List (Value α)) (ctx : ExecutionContext α)
    (e : ε) (h : (self.call types fn_in ctx).1 = Result.failed (Failure.main e)) :
    ∃ body iteration main_in, self.m_main_body = some body ∧
      body.call main_in = Except.error e ∧
      (self.call types fn_in ctx).2.log.getLast? =
        some (Event.main_call main_in (frames self.m_main.name (some iteration) ctx.stack)) ∧
      (self.call types fn_in ctx).2.stack =
        StackFrame.dangling :: StackFrame.dangling :: ctx.stack ∧
      stack_ops (self.call types fn_in ctx).2.log =
        stack_ops ctx.log ++
          [Event.push (StackFrame.iteration none),
            Event.push (StackFrame.text self.m_main.name)] := by
  rcases call_cases types self fn_in ctx with hc | ⟨body, lens, n, out0, hb, _, _, _, hc⟩
  · rw [hc] at h; simp at h
  · rcases hc with ⟨f, hf, hc⟩ | ⟨out1, hok, hc⟩
    · have hs := iterations_stack types self body fn_in lens ctx.stack n 0 out0
        ((ctx.push (StackFrame.iteration none)).push (StackFrame.text self.m_main.name)) none
        (by simp [ExecutionContext.push, frames])
      obtain ⟨_, hlog, hfail⟩ := hs
      rw [hc] at h ⊢
      simp only [Result.failed.injEq] at h
      rw [h] at hf
      obtain ⟨it, main_in, _, _, hcall, hst, hlast⟩ := hfail e hf
      refine ⟨body, it, main_in, hb, hcall, hlast, ?_, ?_⟩
      · simp [ExecutionContext.destroy_locals, hst, frames]
      · simp only [ExecutionContext.destroy_locals]
        rw [hlog]
        simp [ExecutionContext.push, stack_ops, Event.is_stack_op, List.filter_append]
    · rw [hc] at h; simp at h

end AutoVectorization

theorem columns_nil {α : Type} (m : Nat) :
    (columns m ([] : List (List α))).map Value.list = List.replicate m (Value.list []) := by
  simp [columns, column, List.map_const', Function.comp_def]

namespace AutoVectorization
variable {τ α ε : Type}

/-- The interpreted backend in closed form, for inputs that fit the mask and a body that
computes `f`. -/
theorem call_eq (types : TypeSystem τ α) (main : SharedFunction τ α ε) (mask : List Bool)
    (fn_in : List (Value α)) (ctx : ExecutionContext α) (body : TupleCallBody α ε)
    (f : List α → List α) (D : Nat → Nat → α) (N : Nat)
    (hmask : mask.length ≤ main.signature.inputs.length)
    (htyped : well_typed mask fn_in = true)
    (hbody : main.tuple_call_body = some body)
    (hcall : ∀ a, body.call a = Except.ok (f a))
    (hf : ∀ a, main.output_amount ≤ (f a).length)
    (hD : ∀ i k, i < main.signature.inputs.length →
      init_default types main.signature.inputs i = some (D i k))
    (hN : max_element (lengths_of fn_in) = some N) :
    (AutoVectorization.new main mask).call types fn_in ctx =
      (Result.ok ((columns main.output_amount
          (rows_of f (fun j => broadcast j D fn_in 0 0) N)).map Value.list),
        { stack := ctx.stack
          log := ctx.log ++
            [Event.push (StackFrame.iteration none), Event.push (StackFrame.text main.name)] ++
            loop_events main.name ctx.stack (fun j => broadcast j D fn_in 0 0) fn_in N 0 none ++
            [Event.pop, Event.pop] }) := by
  have h1 := new_get_input_list_lengths main mask fn_in htyped
  have h3 : (AutoVectorization.new main mask).initialize_empty_lists =
      some ((columns main.output_amount
        (rows_of f (fun j => broadcast j D fn_in 0 0) 0)).map Value.list) := by
    unfold initialize_empty_lists
    rw [initialize_empty_lists_from_eq _ main.output_amount]
    · simp [rows_of, columns_nil, AutoVectorization.new]
    · intro k hk
      simp only [AutoVectorization.new, Function.output_amount] at hk ⊢
      simp [hk]
    · simp [AutoVectorization.new]
  have hprep : ∀ (j : Nat) (c : ExecutionContext α),
      (AutoVectorization.new main mask).prepare_main_in types j fn_in (lengths_of fn_in)
          (AutoVectorization.new main mask).m_input_is_list 0 0 [] c =
        (Result.ok (broadcast j D fn_in 0 0),
          { stack := c.stack, log := c.log ++ prepare_events j c.stack fn_in 0 }) := by
    intro j c
    have := prepare_main_in_eq types (AutoVectorization.new main mask) j fn_in
      (lengths_of fn_in) D (mask.count true)
      (by intro k hk; simp [AutoVectorization.new, list_inputs_from_length, hk])
      (by simpa [AutoVectorization.new] using hD)
      mask fn_in 0 0 [] c htyped (by simp) (by simp) (by simp)
      (by simpa [AutoVectorization.new] using hmask)
    simpa [AutoVectorization.new] using this
  have hit := iterations_eq types (AutoVectorization.new main mask) body fn_in
    (lengths_of fn_in) f (fun j => broadcast j D fn_in 0 0) ctx.stack hcall
    (by simpa [AutoVectorization.new] using hf)
    (by
      intro k hk
      simp only [AutoVectorization.new, Function.output_amount] at hk ⊢
      simp [hk])
    hprep N 0 none
    (ctx.log ++ [Event.push (StackFrame.iteration none), Event.push (StackFrame.text main.name)])
  have hm : (AutoVectorization.new main mask).m_main = main := rfl
  have hb : (AutoVectorization.new main mask).m_main_body = some body := by
    simp [AutoVectorization.new, hbody]
  simp only [Nat.zero_add] at hit
  simp only [call, h1, hN, h3, hb, hm, ExecutionContext.push, frames, List.append_assoc,
    List.singleton_append] at hit ⊢
  simp only [frames, List.cons_append, List.nil_append] at hit
  rw [hit]
  simp [ExecutionContext.pop, frames]

end AutoVectorization

/-! ## The compiled backend in closed form -/

theorem column_length {α : Type} (rows : List (List α)) (k : Nat)
    (h : ∀ row ∈ rows, k < row.length) : (column rows k).length = rows.length := by
  induction rows with
  | nil => simp [column]
  | cons row rows ih =>
    have h1 : k < row.length := h row (by simp)
    have h2 := ih (fun r hr => h r (by simp [hr]))
    simp only [column] at h2 ⊢
    simp [List.filterMap_cons, List.getElem?_eq_getElem h1, h2]

theorem set_written_prefix {α : Type} (col : List α) (n : Nat) (u a : α) (h : col.length < n) :
    (col ++ List.replicate (n - col.length) u).set col.length a =
      (col ++ [a]) ++ List.replicate (n - (col.length + 1)) u := by
  have e : n - col.length = (n - (col.length + 1)) + 1 := by omega
  rw [e, List.replicate_succ, List.set_append]
  simp

theorem buffers_nil {α : Type} (infos : List (OutputInfo α)) (n : Nat) (u : α) :
    infos.map (fun _ => List.replicate n u) = buffers infos.length n u [] := by
  simp [buffers, column, List.map_const', Function.comp_def]

theorem buffers_full {α : Type} (m : Nat) (u : α) (rows : List (List α)) :
    buffers m rows.length u rows = columns m rows := by
  simp [buffers, columns]

namespace AutoVectorizationGen
variable {τ α ε : Type}

theorem gen_get_input_list_lengths_from_eq (inputs : List (Value α)) :
    ∀ {infos : List (InputInfo α)} {mask : List Bool} {vs : List (Value α)},
      Fits infos mask vs → ∀ (i : Nat), inputs.drop i = vs →
      get_input_list_lengths_from inputs infos i = some (lengths_of vs) := by
  intro infos mask vs h
  induction h with
  | nil => intro i _; simp [get_input_list_lengths_from, lengths_of]
  | list info xs h_list h_length h_data h_cpp h_llvm h_free rest ih =>
    intro i hd
    simp [get_input_list_lengths_from, h_list, getElem?_of_drop_eq_cons hd, h_length,
      list_length, ih (i + 1) (drop_succ_of_drop_eq_cons hd), lengths_of]
  | base info a h_list h_llvm rest ih =>
    intro i hd
    simp [get_input_list_lengths_from, h_list, ih (i + 1) (drop_succ_of_drop_eq_cons hd),
      lengths_of]

theorem get_input_data_pointers_from_eq (inputs : List (Value α)) :
    ∀ {infos : List (InputInfo α)} {mask : List Bool} {vs : List (Value α)},
      Fits infos mask vs → ∀ (i : Nat), inputs.drop i = vs →
      get_input_data_pointers_from inputs infos i = some (data_of vs) := by
  intro infos mask vs h
  induction h with
  | nil => intro i _; simp [get_input_data_pointers_from, data_of]
  | list info xs h_list h_length h_data h_cpp h_llvm h_free rest ih =>
    intro i hd
    obtain ⟨c, hc⟩ := Option.isSome_iff_exists.mp h_cpp
    simp [get_input_data_pointers_from, h_list, getElem?_of_drop_eq_cons hd, h_data, hc,
      list_data_ptr, ih (i + 1) (drop_succ_of_drop_eq_cons hd), data_of]
  | base info a h_list h_llvm rest ih =>
    intro i hd
    simp [get_input_data_pointers_from, h_list, ih (i + 1) (drop_succ_of_drop_eq_cons hd),
      data_of]

theorem free_input_lists_from_eq :
    ∀ {infos : List (InputInfo α)} {mask : List Bool} {vs : List (Value α)},
      Fits infos mask vs → ∀ (i : Nat),
      free_input_lists_from infos i = some ((list_inputs_from mask i).map IREvent.free) := by
  intro infos mask vs h
  induction h with
  | nil => intro i; simp [free_input_lists_from, list_inputs_from]
  | list info xs h_list h_length h_data h_cpp h_llvm h_free rest ih =>
    intro i
    obtain ⟨c, hc⟩ := Option.isSome_iff_exists.mp h_free
    simp [free_input_lists_from, h_list, hc, ih (i + 1), list_inputs_from]
  | base info a h_list h_llvm rest ih =>
    intro i
    simp [free_input_lists_from, h_list, ih (i + 1), list_inputs_from]

theorem prepare_main_function_inputs_from_eq (self : AutoVectorizationGen τ α ε)
    (inputs : List (Value α)) (input_data_pointers : List (List α))
    (input_list_lengths : List Nat) (iteration : Nat) (B : Nat → α)
    (hB : ∀ k, k < self.m_empty_list_value_builders.length →
      ∃ b body, self.m_empty_list_value_builders[k]? = some b ∧
        b.llvm_build_ir_body = some body ∧ (body.build_ir [])[0]? = some (B k)) :
    ∀ {infos : List (InputInfo α)} {mask : List Bool} {vs : List (Value α)},
      Fits infos mask vs → ∀ (i k : Nat), inputs.drop i = vs →
      self.m_input_is_list.drop i = mask →
      input_list_lengths.drop k = lengths_of vs →
      input_data_pointers.drop k = data_of vs →
      k + mask.count true ≤ self.m_empty_list_value_builders.length →
      self.prepare_main_function_inputs_from inputs input_data_pointers input_list_lengths
          iteration infos i k =
        some (broadcast iteration (fun _ k => B k) vs i k, gen_prepare_events iteration vs i k) := by
  intro infos mask vs h
  induction h with
  | nil =>
    intro i k _ _ _ _ _
    simp [prepare_main_function_inputs_from, broadcast, gen_prepare_events]
  | list info xs h_list h_length h_data h_cpp h_llvm h_free rest ih =>
    intro i k hd hm hl hp hk
    obtain ⟨c, hc⟩ := Option.isSome_iff_exists.mp h_llvm
    simp only [lengths_of] at hl
    simp only [data_of] at hp
    have hk1 : k < self.m_empty_list_value_builders.length := by simp at hk; omega
    obtain ⟨b, body, hb1, hb2, hb3⟩ := hB k hk1
    have ih1 := ih (i + 1) (k + 1) (drop_succ_of_drop_eq_cons hd) (drop_succ_of_drop_eq_cons hm)
      (drop_succ_of_drop_eq_cons hl) (drop_succ_of_drop_eq_cons hp) (by simp at hk; omega)
    by_cases hx : xs.length = 0
    · have hxs : xs = [] := List.length_eq_zero.mp hx
      subst hxs
      simp [prepare_main_function_inputs_from, hc, getElem?_of_drop_eq_cons hm,
        getElem?_of_drop_eq_cons hl, getElem?_of_drop_eq_cons hp, hb1, hb2, hb3, ih1,
        broadcast, gen_prepare_events]
    · have hlt : iteration % xs.length < xs.length := Nat.mod_lt _ (Nat.pos_of_ne_zero hx)
      simp [prepare_main_function_inputs_from, hc, getElem?_of_drop_eq_cons hm,
        getElem?_of_drop_eq_cons hl, getElem?_of_drop_eq_cons hp, hb1, hb2, hb3, ih1,
        broadcast, gen_prepare_events, hx, List.getElem?_eq_getElem hlt,
        List.getD_eq_getElem _ _ hlt]
  | base info a h_list h_llvm rest ih =>
    intro i k hd hm hl hp hk
    obtain ⟨c, hc⟩ := Option.isSome_iff_exists.mp h_llvm
    simp only [lengths_of] at hl
    simp only [data_of] at hp
    have ih1 := ih (i + 1) k (drop_succ_of_drop_eq_cons hd) (drop_succ_of_drop_eq_cons hm)
      hl hp (by simpa using hk)
    simp [prepare_main_function_inputs_from, hc, getElem?_of_drop_eq_cons hm,
      getElem?_of_drop_eq_cons hd, ih1, broadcast, gen_prepare_events]


theorem create_output_lists_from_eq (length : Nat) (u : α) :
    ∀ (infos : List (OutputInfo α)) (i : Nat),
      (∀ info ∈ infos, info.base_cpp_type.isSome = true ∧
        info.get_new_list_fn = new_list_with_allocated_buffer) →
      create_output_lists_from length u infos i =
        some (infos.map (fun _ => List.replicate length u),
          (List.range' i infos.length).map (fun o => IREvent.new_list o length))
  | [], _, _ => by simp [create_output_lists_from]
  | info :: rest, i, h => by
    obtain ⟨c, hc⟩ := Option.isSome_iff_exists.mp (h info (by simp)).1
    have ih := create_output_lists_from_eq length u rest (i + 1)
      (fun x hx => h x (by simp [hx]))
    simp [create_output_lists_from, hc, ih, (h info (by simp)).2,
      new_list_with_allocated_buffer, List.range'_succ]

theorem store_computed_values_from_eq (m n : Nat) (u : α) (rows : List (List α)) (row : List α)
    (hrows : ∀ r ∈ rows, m ≤ r.length) (hrow : m ≤ row.length) (ht : rows.length < n) :
    ∀ (infos : List (OutputInfo α)) (idx : Nat), idx + infos.length = m →
      (∀ info ∈ infos, info.base_llvm_type.isSome = true) →
      store_computed_values_from row rows.length infos idx
        ((List.range m).map (fun k =>
          if k < idx then column (rows ++ [row]) k ++ List.replicate (n - (rows.length + 1)) u
          else column rows k ++ List.replicate (n - rows.length) u)) =
      some (buffers m n u (rows ++ [row]),
        (List.range' idx infos.length).map (fun o => IREvent.store o rows.length))
  | [], idx, h, _ => by
    simp only [store_computed_values_from, buffers, List.length_nil, List.range'_zero,
      List.map_nil, Option.some.injEq, Prod.mk.injEq, and_true]
    apply List.map_congr_left
    intro k hk
    have : k < idx := by simp at hk h; omega
    simp [this]
  | info :: rest, idx, h, hl => by
    obtain ⟨c, hc⟩ := Option.isSome_iff_exists.mp (hl info (by simp))
    have hidx : idx < m := by simp at h; omega
    have hr : idx < row.length := by omega
    have hcol : (column rows idx).length = rows.length :=
      column_length rows idx (fun r hr1 => lt_of_lt_of_le hidx (hrows r hr1))
    have ih := store_computed_values_from_eq m n u rows row hrows hrow ht rest (idx + 1)
      (by simp at h; omega) (fun x hx => hl x (by simp [hx]))
    have hset : ((List.range m).map (fun k =>
          if k < idx then column (rows ++ [row]) k ++ List.replicate (n - (rows.length + 1)) u
          else column rows k ++ List.replicate (n - rows.length) u)).set idx
          ((column rows idx ++ List.replicate (n - rows.length) u).set rows.length row[idx]) =
        (List.range m).map (fun k =>
          if k < idx + 1 then
            column (rows ++ [row]) k ++ List.replicate (n - (rows.length + 1)) u
          else column rows k ++ List.replicate (n - rows.length) u) := by
      apply List.ext_getElem?
      intro k
      rw [List.getElem?_set]
      by_cases hk : idx = k
      · subst hk
        have hs := set_written_prefix (column rows idx) n u row[idx] (by rw [hcol]; exact ht)
        rw [hcol] at hs
        simp [hidx, List.getElem?_range hidx, hs,
          column_append_row rows row idx _ (List.getElem?_eq_getElem hr)]
      · simp only [hk, if_false, List.getElem?_map]
        by_cases hkm : k < m
        · simp only [List.getElem?_range hkm, Option.map_some']
          have : (k < idx + 1) = (k < idx) := by
            apply propext; constructor <;> intro h1 <;> omega
          simp [this]
        · simp [List.getElem?_eq_none (by simpa using hkm : (List.range m).length ≤ k)]
    simp only [store_computed_values_from, hc, List.getElem?_map, List.getElem?_range hidx,
      Option.map_some', lt_irrefl, if_false, List.getElem?_eq_getElem hr, hset, ih]
    simp [List.range'_succ]

theorem store_computed_values_eq (self : AutoVectorizationGen τ α ε) (n : Nat) (u : α)
    (rows : List (List α)) (row : List α)
    (hrows : ∀ r ∈ rows, self.m_output_info.length ≤ r.length)
    (hrow : self.m_output_info.length ≤ row.length) (ht : rows.length < n)
    (hl : ∀ info ∈ self.m_output_info, info.base_llvm_type.isSome = true) :
    self.store_computed_values_in_output_lists row
        (buffers self.m_output_info.length n u rows) rows.length =
      some (buffers self.m_output_info.length n u (rows ++ [row]),
        (List.range self.m_output_info.length).map (fun o => IREvent.store o rows.length)) := by
  have := store_computed_values_from_eq self.m_output_info.length n u rows row hrows hrow ht
    self.m_output_info 0 (by simp) hl
  simp only [Nat.not_lt_zero, if_false] at this
  rw [store_computed_values_in_output_lists, List.range_eq_range']
  exact this

end AutoVectorizationGen

theorem rows_of_length {α : Type} (f : List α → List α) (args : Nat → List α) (n : Nat) :
    (rows_of f args n).length = n := by
  simp [rows_of]

theorem rows_of_mem {α : Type} (f : List α → List α) (args : Nat → List α) (n m : Nat)
    (hf : ∀ a, m ≤ (f a).length) : ∀ r ∈ rows_of f args n, m ≤ r.length := by
  intro r hr
  simp only [rows_of, List.mem_map] at hr
  obtain ⟨j, _, rfl⟩ := hr
  exact hf _

namespace AutoVectorizationGen
variable {τ α ε : Type}

theorem loop_eq (self : AutoVectorizationGen τ α ε) (main_body : LLVMBuildIRBody α)
    (inputs : List (Value α)) (input_data_pointers : List (List α))
    (input_list_lengths : List Nat) (f : List α → List α) (args : Nat → List α) (N : Nat)
    (u : α)
    (hbody : ∀ a, main_body.build_ir a = f a)
    (hf : ∀ a, self.m_output_info.length ≤ (f a).length)
    (hl : ∀ info ∈ self.m_output_info, info.base_llvm_type.isSome = true)
    (hprep : ∀ j, self.prepare_main_function_inputs inputs input_data_pointers
      input_list_lengths j = some (args j, gen_prepare_events j inputs 0 0)) :
    ∀ (n j : Nat), j + n ≤ N →
      self.loop main_body inputs input_data_pointers input_list_lengths n j
          (buffers self.m_output_info.length N u (rows_of f args j)) =
        some (buffers self.m_output_info.length N u (rows_of f args (j + n)),
          gen_loop_events self.m_output_info.length args inputs n j)
  | 0, j, _ => by simp [loop, gen_loop_events]
  | n + 1, j, h => by
    have ih := loop_eq self main_body inputs input_data_pointers input_list_lengths f args N u
      hbody hf hl hprep n (j + 1) (by omega)
    have hs := store_computed_values_eq self N u (rows_of f args j) (f (args j))
      (rows_of_mem f args j _ hf) (hf _) (by rw [rows_of_length]; omega) hl
    rw [rows_of_length, ← rows_of_succ] at hs
    have e : j + 1 + n = j + (n + 1) := by omega
    simp [loop, hprep, hbody, hs, ih, e, gen_loop_events]

theorem input_info_from_fits (types : TypeSystem τ α) (input_is_list : List Bool) :
    ∀ (params : List (Parameter τ)) (i : Nat) (mask : List Bool) (vs : List (Value α))
      (infos : List (InputInfo α)),
      input_info_from types input_is_list params i = some infos →
      input_is_list.drop i = mask → mask.length = params.length →
      well_typed mask vs = true →
      (∀ p ∈ params, (types.cpp_type_info p.type).isSome = true ∧
        (types.llvm_type_info p.type).isSome = true ∧
        (types.llvm_type_info (types.get_list_type p.type)).isSome = true) →
      Fits infos mask vs
  | [], _, [], [], infos, h, _, _, _, _ => by
    simp [input_info_from] at h
    subst h
    exact Fits.nil
  | [], _, [], _ :: _, _, _, _, _, ht, _ => by simp [well_typed] at ht
  | [], _, _ :: _, _, _, _, _, hl, _, _ => by simp at hl
  | _ :: _, _, [], _, _, _, _, hl, _, _ => by simp at hl
  | p :: params, i, b :: mask, vs, infos, h, hd, hl, ht, hx => by
    have hb := getElem?_of_drop_eq_cons hd
    simp only [input_info_from, hb] at h
    cases hrec : input_info_from types input_is_list params (i + 1) with
    | none => simp [hrec] at h
    | some infos1 =>
      simp only [hrec, Option.some.injEq] at h
      subst h
      have hp := hx p (by simp)
      have hl1 : mask.length = params.length := by simpa using hl
      have hx1 : ∀ q ∈ params, (types.cpp_type_info q.type).isSome = true ∧
          (types.llvm_type_info q.type).isSome = true ∧
          (types.llvm_type_info (types.get_list_type q.type)).isSome = true :=
        fun q hq => hx q (by simp [hq])
      cases b with
      | true =>
        cases vs with
        | nil => simp [well_typed] at ht
        | cons v vs =>
          cases v with
          | base a => simp [well_typed] at ht
          | list xs =>
            simp only [well_typed] at ht
            exact Fits.list _ xs rfl rfl rfl hp.1 hp.2.1 hp.2.2
              (input_info_from_fits types input_is_list params (i + 1) mask vs infos1 hrec
                (drop_succ_of_drop_eq_cons hd) hl1 ht hx1)
      | false =>
        cases vs with
        | nil => simp [well_typed] at ht
        | cons v vs =>
          cases v with
          | list xs => simp [well_typed] at ht
          | base a =>
            simp only [well_typed] at ht
            exact Fits.base _ a rfl hp.2.1
              (input_info_from_fits types input_is_list params (i + 1) mask vs infos1 hrec
                (drop_succ_of_drop_eq_cons hd) hl1 ht hx1)

/-- The compiled backend in closed form, for inputs that fit the input records. -/
theorem build_ir_eq (self : AutoVectorizationGen τ α ε) (inputs : List (Value α)) (u : α)
    (main_body : LLVMBuildIRBody α) (f : List α → List α) (B : Nat → α) (N : Nat)
    (hfits : Fits self.m_input_info self.m_input_is_list inputs)
    (hmain : self.m_main.llvm_build_ir_body = some main_body)
    (hbody : ∀ a, main_body.build_ir a = f a)
    (hf : ∀ a, self.m_output_info.length ≤ (f a).length)
    (hout : ∀ info ∈ self.m_output_info, info.base_cpp_type.isSome = true ∧
      info.base_llvm_type.isSome = true ∧
      info.get_new_list_fn = new_list_with_allocated_buffer)
    (hcount : self.m_input_is_list.count true ≤ self.m_empty_list_value_builders.length)
    (hB : ∀ k, k < self.m_empty_list_value_builders.length →
      ∃ b body, self.m_empty_list_value_builders[k]? = some b ∧
        b.llvm_build_ir_body = some body ∧ (body.build_ir [])[0]? = some (B k))
    (hN : CreateSIntMax (lengths_of inputs) = some N) :
    self.build_ir inputs u =
      some ((columns self.m_output_info.length
          (rows_of f (fun j => broadcast j (fun _ k => B k) inputs 0 0) N)).map Value.list,
        (List.range self.m_output_info.length).map (fun o => IREvent.new_list o N) ++
          gen_loop_events self.m_output_info.length
            (fun j => broadcast j (fun _ k => B k) inputs 0 0) inputs N 0 ++
          (list_inputs_from self.m_input_is_list 0).map IREvent.free) := by
  have h1 := gen_get_input_list_lengths_from_eq inputs hfits 0 (by simp)
  have h2 := get_input_data_pointers_from_eq inputs hfits 0 (by simp)
  have h3 := create_output_lists_from_eq N u self.m_output_info 0
    (fun info hi => ⟨(hout info hi).1, (hout info hi).2.2⟩)
  have hprep : ∀ j, self.prepare_main_function_inputs inputs (data_of inputs)
      (lengths_of inputs) j =
        some (broadcast j (fun _ k => B k) inputs 0 0, gen_prepare_events j inputs 0 0) := by
    intro j
    exact prepare_main_function_inputs_from_eq self inputs (data_of inputs) (lengths_of inputs)
      j B hB hfits 0 0 (by simp) (by simp) (by simp) (by simp) (by simpa using hcount)
  have h4 := loop_eq self main_body inputs (data_of inputs) (lengths_of inputs) f
    (fun j => broadcast j (fun _ k => B k) inputs 0 0) N u hbody hf
    (fun info hi => (hout info hi).2.1) hprep N 0 (by omega)
  have h5 := free_input_lists_from_eq hfits 0
  rw [buffers_nil] at h3
  simp only [Nat.zero_add] at h4
  have e0 : rows_of f (fun j => broadcast j (fun _ k => B k) inputs 0 0) 0 = [] := by
    simp [rows_of]
  rw [e0] at h4
  have hfull := buffers_full self.m_output_info.length u
    (rows_of f (fun j => broadcast j (fun _ k => B k) inputs 0 0) N)
  rw [rows_of_length] at hfull
  simp only [build_ir, get_input_list_lengths, h1, hN, get_input_data_pointers, h2,
    create_output_lists, h3, hmain, h4, free_input_lists, h5, hfull,
    ← List.range_eq_range']

end AutoVectorizationGen

/-! ## Facts about the reference functions -/

theorem well_typed_getElem? {α : Type} : ∀ (mask : List Bool) (vs : List (Value α)) (p : Nat),
    well_typed mask vs = true →
    (mask[p]? = some true → ∃ xs, vs[p]? = some (Value.list xs)) ∧
    (mask[p]? = some false → ∃ a, vs[p]? = some (Value.base a))
  | [], [], _, _ => by simp
  | [], _ :: _, _, h => by simp [well_typed] at h
  | true :: mask, [], _, h => by simp [well_typed] at h
  | false :: mask, [], _, h => by simp [well_typed] at h
  | true :: mask, Value.base a :: vs, _, h => by simp [well_typed] at h
  | false :: mask, Value.list xs :: vs, _, h => by simp [well_typed] at h
  | true :: mask, Value.list xs :: vs, 0, _ => by simp
  | true :: mask, Value.list xs :: vs, p + 1, h => by
    simp only [well_typed] at h
    simpa using well_typed_getElem? mask vs p h
  | false :: mask, Value.base a :: vs, 0, _ => by simp
  | false :: mask, Value.base a :: vs, p + 1, h => by
    simp only [well_typed] at h
    simpa using well_typed_getElem? mask vs p h

theorem broadcast_length {α : Type} (j : Nat) (D : Nat → Nat → α) :
    ∀ (vs : List (Value α)) (i k : Nat), (broadcast j D vs i k).length = vs.length
  | [], _, _ => rfl
  | Value.base a :: vs, i, k => by simp [broadcast, broadcast_length j D vs (i + 1) k]
  | Value.list xs :: vs, i, k => by simp [broadcast, broadcast_length j D vs (i + 1) (k + 1)]

theorem broadcast_getElem?_base {α : Type} (j : Nat) (D : Nat → Nat → α) :
    ∀ (vs : List (Value α)) (i k p : Nat) (a : α), vs[p]? = some (Value.base a) →
      (broadcast j D vs i k)[p]? = some a
  | [], _, _, _, _, h => by simp at h
  | Value.base b :: vs, i, k, 0, a, h => by
    simp at h; subst h; simp [broadcast]
  | Value.list xs :: vs, i, k, 0, a, h => by simp at h
  | Value.base b :: vs, i, k, p + 1, a, h => by
    simp only [List.getElem?_cons_succ] at h
    simpa [broadcast] using broadcast_getElem?_base j D vs (i + 1) k p a h
  | Value.list xs :: vs, i, k, p + 1, a, h => by
    simp only [List.getElem?_cons_succ] at h
    simpa [broadcast] using broadcast_getElem?_base j D vs (i + 1) (k + 1) p a h

theorem broadcast_getElem?_list {α : Type} (j : Nat) (D : Nat → Nat → α) :
    ∀ (vs : List (Value α)) (i k p : Nat) (xs : List α), vs[p]? = some (Value.list xs) →
      xs.length ≠ 0 → (broadcast j D vs i k)[p]? = xs[j % xs.length]?
  | [], _, _, _, _, h, _ => by simp at h
  | Value.base b :: vs, i, k, 0, xs, h, _ => by simp at h
  | Value.list ys :: vs, i, k, 0, xs, h, hx => by
    simp at h; subst h
    have hlt : j % ys.length < ys.length := Nat.mod_lt _ (Nat.pos_of_ne_zero hx)
    simp [broadcast, List.getD_eq_getElem _ _ hlt, List.getElem?_eq_getElem hlt]
  | Value.base b :: vs, i, k, p + 1, xs, h, hx => by
    simp only [List.getElem?_cons_succ] at h
    simpa [broadcast] using broadcast_getElem?_list j D vs (i + 1) k p xs h hx
  | Value.list ys :: vs, i, k, p + 1, xs, h, hx => by
    simp only [List.getElem?_cons_succ] at h
    simpa [broadcast] using broadcast_getElem?_list j D vs (i + 1) (k + 1) p xs h hx

/-- For an empty list the argument is the default of its position `i + p` and of its
position among the list inputs. -/
theorem broadcast_getElem?_empty {α : Type} (j : Nat) (D : Nat → Nat → α) :
    ∀ (vs : List (Value α)) (i k p : Nat), vs[p]? = some (Value.list []) →
      (broadcast j D vs i k)[p]? = some (D (i + p) (k + (lengths_of (vs.take p)).length))
  | [], _, _, _, h => by simp at h
  | Value.base b :: vs, i, k, 0, h => by simp at h
  | Value.list ys :: vs, i, k, 0, h => by
    simp at h; subst h
    simp [broadcast, lengths_of]
  | Value.base b :: vs, i, k, p + 1, h => by
    simp only [List.getElem?_cons_succ] at h
    have := broadcast_getElem?_empty j D vs (i + 1) k p h
    simp only [broadcast, List.getElem?_cons_succ, this, List.take_succ_cons, lengths_of]
    congr 2; omega
  | Value.list ys :: vs, i, k, p + 1, h => by
    simp only [List.getElem?_cons_succ] at h
    have := broadcast_getElem?_empty j D vs (i + 1) (k + 1) p h
    simp only [broadcast, List.getElem?_cons_succ, this, List.take_succ_cons, lengths_of,
      List.length_cons]
    congr 2 <;> omega

/-- Where no list is empty the defaults play no part. -/
theorem broadcast_congr {α : Type} (j : Nat) (D E : Nat → Nat → α) :
    ∀ (vs : List (Value α)) (i k : Nat),
      (∀ p, vs[p]? = some (Value.list []) → D (i + p) (k + (lengths_of (vs.take p)).length) =
        E (i + p) (k + (lengths_of (vs.take p)).length)) →
      broadcast j D vs i k = broadcast j E vs i k
  | [], _, _, _ => rfl
  | Value.base b :: vs, i, k, h => by
    have ih := broadcast_congr j D E vs (i + 1) k (by
      intro p hp
      have := h (p + 1) (by simpa using hp)
      simp only [List.take_succ_cons, lengths_of] at this
      have e : i + 1 + p = i + (p + 1) := by omega
      rw [e]; exact this)
    simp [broadcast, ih]
  | Value.list ys :: vs, i, k, h => by
    have ih := broadcast_congr j D E vs (i + 1) (k + 1) (by
      intro p hp
      have := h (p + 1) (by simpa using hp)
      simp only [List.take_succ_cons, lengths_of, List.length_cons] at this
      have e : i + 1 + p = i + (p + 1) := by omega
      have e2 : k + 1 + (lengths_of (List.take p vs)).length =
          k + ((lengths_of (List.take p vs)).length + 1) := by omega
      rw [e, e2]; exact this)
    have h0 : ys.getD (j % ys.length) (D i k) = ys.getD (j % ys.length) (E i k) := by
      cases ys with
      | nil =>
        have := h 0 (by simp)
        simpa [lengths_of] using this
      | cons y ys =>
        have hlt : j % (y :: ys).length < (y :: ys).length := Nat.mod_lt _ (by simp)
        rw [List.getD_eq_getElem _ _ hlt, List.getD_eq_getElem _ _ hlt]
    simp only [broadcast, ih, h0]

theorem lengths_of_take_length {α : Type} : ∀ (mask : List Bool) (vs : List (Value α)) (p : Nat),
    well_typed mask vs = true →
    (lengths_of (vs.take p)).length = (mask.take p).count true
  | [], [], _, _ => by simp [lengths_of]
  | [], _ :: _, _, h => by simp [well_typed] at h
  | true :: mask, [], _, h => by simp [well_typed] at h
  | false :: mask, [], _, h => by simp [well_typed] at h
  | true :: mask, Value.base a :: vs, _, h => by simp [well_typed] at h
  | false :: mask, Value.list xs :: vs, _, h => by simp [well_typed] at h
  | true :: mask, Value.list xs :: vs, 0, _ => by simp [lengths_of]
  | true :: mask, Value.list xs :: vs, p + 1, h => by
    simp only [well_typed] at h
    simp [lengths_of, lengths_of_take_length mask vs p h]
  | false :: mask, Value.base a :: vs, 0, _ => by simp [lengths_of]
  | false :: mask, Value.base a :: vs, p + 1, h => by
    simp only [well_typed] at h
    simp [lengths_of, lengths_of_take_length mask vs p h]

theorem column_map_some {α : Type} (rows : List (List α)) (k : Nat)
    (h : ∀ row ∈ rows, k < row.length) :
    (column rows k).map some = rows.map (fun row => row[k]?) := by
  induction rows with
  | nil => simp [column]
  | cons row rows ih =>
    have h1 : k < row.length := h row (by simp)
    have h2 := ih (fun r hr => h r (by simp [hr]))
    simp only [column] at h2 ⊢
    simp [List.filterMap_cons, List.getElem?_eq_getElem h1, h2]

/-- Element `j` of column `k` of the rows of `f` is output `k` of `f` on the arguments of
iteration `j`. -/
theorem column_rows_of_getElem? {α : Type} (f : List α → List α) (args : Nat → List α)
    (n k j : Nat) (hf : ∀ a, k < (f a).length) (hj : j < n) :
    (column (rows_of f args n) k)[j]? = (f (args j))[k]? := by
  have h := column_map_some (rows_of f args n) k (by
    intro r hr
    simp only [rows_of, List.mem_map] at hr
    obtain ⟨j, _, rfl⟩ := hr
    exact hf _)
  have h1 := congrArg (fun l => l[j]?) h
  simp only [List.getElem?_map, rows_of, List.getElem?_range hj, Option.map_some'] at h1
  rw [List.getElem?_eq_getElem (hf _)] at h1 ⊢
  cases hc : (column (List.map (fun j => f (args j)) (List.range n)) k)[j]? with
  | none => rw [hc] at h1; simp at h1
  | some y =>
    rw [hc] at h1
    simp only [Option.map_some', Option.some.injEq] at h1
    simp only [rows_of, hc, h1]

theorem column_rows_of_length {α : Type} (f : List α → List α) (args : Nat → List α)
    (n k : Nat) (hf : ∀ a, k < (f a).length) : (column (rows_of f args n) k).length = n := by
  rw [column_length, rows_of_length]
  intro r hr
  simp only [rows_of, List.mem_map] at hr
  obtain ⟨j, _, rfl⟩ := hr
  exact hf _


/-! ## The two maxima -/

theorem foldl_max_const (L : Nat) : ∀ (l : List Nat), (∀ x ∈ l, x = L) → l.foldl max L = L
  | [], _ => rfl
  | x :: l, h => by
    have hx : x = L := h x (by simp)
    subst hx
    simpa using foldl_max_const x l (fun y hy => h y (by simp [hy]))

theorem foldl_sint_max_const (L : Nat) :
    ∀ (l : List Nat), (∀ x ∈ l, x = L) → l.foldl CreateSIntMax2 L = L
  | [], _ => rfl
  | x :: l, h => by
    have hx : x = L := h x (by simp)
    subst hx
    simpa [CreateSIntMax2] using foldl_sint_max_const x l (fun y hy => h y (by simp [hy]))

theorem max_element_const (L : Nat) (l : List Nat) (hne : l ≠ []) (h : ∀ x ∈ l, x = L) :
    AutoVectorization.max_element l = some L := by
  cases l with
  | nil => exact absurd rfl hne
  | cons x l =>
    have hx : x = L := h x (by simp)
    subst hx
    simp [AutoVectorization.max_element, foldl_max_const x l (fun y hy => h y (by simp [hy]))]

theorem CreateSIntMax_const (L : Nat) (l : List Nat) (hne : l ≠ []) (h : ∀ x ∈ l, x = L) :
    CreateSIntMax l = some L := by
  cases l with
  | nil => exact absurd rfl hne
  | cons x l =>
    have hx : x = L := h x (by simp)
    subst hx
    simp [CreateSIntMax, foldl_sint_max_const x l (fun y hy => h y (by simp [hy]))]

theorem toInt32_of_lt {n : Nat} (h : n < 2 ^ 31) : toInt32 n = (n : Int) := by
  have h1 : n % 2 ^ 32 = n := Nat.mod_eq_of_lt (by omega)
  unfold toInt32
  rw [h1, if_pos h]

theorem CreateSIntMax2_of_lt {a b : Nat} (ha : a < 2 ^ 31) (hb : b < 2 ^ 31) :
    CreateSIntMax2 a b = max a b := by
  unfold CreateSIntMax2
  rw [toInt32_of_lt ha, toInt32_of_lt hb]
  by_cases h : b ≤ a
  · simp [h, max_eq_left h]
  · have h' : a ≤ b := by omega
    simp [h, max_eq_right h']

theorem foldl_sint_max_of_lt : ∀ (l : List Nat) (x : Nat), x < 2 ^ 31 → (∀ y ∈ l, y < 2 ^ 31) →
    l.foldl CreateSIntMax2 x = l.foldl max x
  | [], _, _, _ => rfl
  | y :: l, x, hx, h => by
    have hy : y < 2 ^ 31 := h y (by simp)
    have hm : max x y < 2 ^ 31 := max_lt hx hy
    simp only [List.foldl_cons, CreateSIntMax2_of_lt hx hy]
    exact foldl_sint_max_of_lt l (max x y) hm (fun z hz => h z (by simp [hz]))

/-- Below `2 ^ 31` the signed maximum of the compiled backend is the unsigned maximum of
the interpreted backend. -/
theorem CreateSIntMax_of_lt (l : List Nat) (h : ∀ y ∈ l, y < 2 ^ 31) :
    CreateSIntMax l = AutoVectorization.max_element l := by
  cases l with
  | nil => rfl
  | cons x l =>
    simp [CreateSIntMax, AutoVectorization.max_element,
      foldl_sint_max_of_lt l x (h x (by simp)) (fun z hz => h z (by simp [hz]))]

theorem foldl_max_spec : ∀ (l : List Nat) (x : Nat),
    (l.foldl max x = x ∨ l.foldl max x ∈ l) ∧ x ≤ l.foldl max x ∧ ∀ y ∈ l, y ≤ l.foldl max x
  | [], x => by simp
  | y :: l, x => by
    obtain ⟨h1, h2, h3⟩ := foldl_max_spec l (max x y)
    simp only [List.foldl_cons]
    refine ⟨?_, le_trans (le_max_left x y) h2, ?_⟩
    · rcases h1 with h1 | h1
      · rcases le_total x y with hxy | hxy
        · right; rw [h1, max_eq_right hxy]; simp
        · left; rw [h1, max_eq_left hxy]
      · right; simp [h1]
    · intro z hz
      simp only [List.mem_cons] at hz
      rcases hz with rfl | hz
      · exact le_trans (le_max_right x z) h2
      · exact h3 z hz

/-- The function `max_element` yields the greatest entry. -/
theorem max_element_spec (l : List Nat) (n : Nat) (h : AutoVectorization.max_element l = some n) :
    n ∈ l ∧ ∀ y ∈ l, y ≤ n := by
  cases l with
  | nil => simp [AutoVectorization.max_element] at h
  | cons x l =>
    simp only [AutoVectorization.max_element, Option.some.injEq] at h
    obtain ⟨h1, h2, h3⟩ := foldl_max_spec l x
    rw [h] at h1 h2 h3
    constructor
    · rcases h1 with h1 | h1
      · simp [h1]
      · simp [h1]
    · intro y hy
      simp only [List.mem_cons] at hy
      rcases hy with rfl | hy
      · exact h2
      · exact h3 y hy

theorem lengths_of_ne_nil {α : Type} (mask : List Bool) (vs : List (Value α))
    (ht : well_typed mask vs = true) (hm : mask.contains true = true) : lengths_of vs ≠ [] := by
  intro h
  have h1 := lengths_of_length mask vs ht
  rw [h] at h1
  have h2 : 0 < mask.count true := List.count_pos_iff.mpr (by simpa using hm)
  simp at h1
  omega

theorem mem_lengths_of {α : Type} : ∀ (vs : List (Value α)) (n : Nat),
    n ∈ lengths_of vs ↔ ∃ (i : Nat) (xs : List α), vs[i]? = some (Value.list xs) ∧ xs.length = n
  | [], n => by simp [lengths_of]
  | Value.base a :: vs, n => by
    rw [lengths_of, mem_lengths_of vs n]
    constructor
    · rintro ⟨i, xs, h1, h2⟩
      exact ⟨i + 1, xs, by simpa using h1, h2⟩
    · rintro ⟨i, xs, h1, h2⟩
      cases i with
      | zero => simp at h1
      | succ i => exact ⟨i, xs, by simpa using h1, h2⟩
  | Value.list ys :: vs, n => by
    rw [lengths_of, List.mem_cons, mem_lengths_of vs n]
    constructor
    · rintro (h | ⟨i, xs, h1, h2⟩)
      · exact ⟨0, ys, by simp, h.symm⟩
      · exact ⟨i + 1, xs, by simpa using h1, h2⟩
    · rintro ⟨i, xs, h1, h2⟩
      cases i with
      | zero =>
        left
        simp at h1
        subst h1
        exact h2.symm
      | succ i => right; exact ⟨i, xs, by simpa using h1, h2⟩


/-! ## Facts about the logs -/

theorem main_calls_append {α : Type} (l1 l2 : List (Event α)) :
    main_calls (l1 ++ l2) = main_calls l1 ++ main_calls l2 := by
  simp [main_calls, List.filterMap_append]

theorem ir_main_calls_append {α : Type} (l1 l2 : List (IREvent α)) :
    ir_main_calls (l1 ++ l2) = ir_main_calls l1 ++ ir_main_calls l2 := by
  simp [ir_main_calls, List.filterMap_append]

theorem main_calls_prepare_events {α : Type} (it : Nat) (stack : List StackFrame) :
    ∀ (vs : List (Value α)) (i : Nat), main_calls (prepare_events it stack vs i) = []
  | [], _ => rfl
  | Value.base a :: vs, i => by
    simpa [prepare_events] using main_calls_prepare_events it stack vs (i + 1)
  | Value.list xs :: vs, i => by
    have ih := main_calls_prepare_events it stack vs (i + 1)
    simp only [main_calls] at ih
    by_cases hx : xs.length = 0 <;> simp [prepare_events, main_calls, hx, ih]

theorem main_calls_loop_events {α : Type} (name : String) (base : List StackFrame)
    (args : Nat → List α) (inputs : List (Value α)) :
    ∀ (n j : Nat) (prev : Option Nat),
      main_calls (loop_events name base args inputs n j prev) = (List.range' j n).map args
  | 0, _, _ => rfl
  | n + 1, j, prev => by
    simp only [loop_events, main_calls_append, main_calls_prepare_events,
      main_calls_loop_events name base args inputs n (j + 1) (some j), List.range'_succ,
      List.map_cons, List.nil_append]
    simp [main_calls]

theorem ir_main_calls_prepare_events {α : Type} (it : Nat) :
    ∀ (vs : List (Value α)) (i k : Nat), ir_main_calls (gen_prepare_events it vs i k) = []
  | [], _, _ => rfl
  | Value.base a :: vs, i, k => by
    simpa [gen_prepare_events] using ir_main_calls_prepare_events it vs (i + 1) k
  | Value.list xs :: vs, i, k => by
    have ih := ir_main_calls_prepare_events it vs (i + 1) (k + 1)
    simp only [ir_main_calls] at ih
    by_cases hx : xs.length = 0 <;> simp [gen_prepare_events, ir_main_calls, hx, ih]

theorem ir_main_calls_loop_events {α : Type} (m : Nat) (args : Nat → List α)
    (inputs : List (Value α)) :
    ∀ (n j : Nat), ir_main_calls (gen_loop_events m args inputs n j) = (List.range' j n).map args
  | 0, _ => rfl
  | n + 1, j => by
    simp only [gen_loop_events, ir_main_calls_append, ir_main_calls_prepare_events,
      ir_main_calls_loop_events m args inputs n (j + 1), List.range'_succ,
      List.map_cons, List.nil_append]
    simp [ir_main_calls, List.filterMap_map, Function.comp_def]

/-- The get-element body is called for a non-empty list only, at `iteration mod length`,
with the stack as it stands. -/
theorem get_element_mem_prepare_events {α : Type} (it : Nat) (stack : List StackFrame)
    (i li : Nat) (st : List StackFrame) :
    ∀ (vs : List (Value α)) (i0 : Nat),
      Event.get_element i li st ∈ prepare_events it stack vs i0 →
      ∃ (p : Nat) (xs : List α), i = i0 + p ∧ vs[p]? = some (Value.list xs) ∧ xs.length ≠ 0 ∧
        li = it % xs.length ∧ st = stack
  | [], _, h => by simp [prepare_events] at h
  | Value.base a :: vs, i0, h => by
    simp only [prepare_events] at h
    obtain ⟨p, xs, h1, h2, h3⟩ := get_element_mem_prepare_events it stack i li st vs (i0 + 1) h
    exact ⟨p + 1, xs, by omega, by simpa using h2, h3⟩
  | Value.list ys :: vs, i0, h => by
    simp only [prepare_events, List.mem_cons] at h
    rcases h with h | h
    · by_cases hy : ys.length = 0
      · simp [hy] at h
      · simp only [hy, if_false, Event.get_element.injEq] at h
        exact ⟨0, ys, by omega, by simp, hy, h.2.1, h.2.2⟩
    · obtain ⟨p, xs, h1, h2, h3⟩ := get_element_mem_prepare_events it stack i li st vs (i0 + 1) h
      exact ⟨p + 1, xs, by omega, by simpa using h2, h3⟩

/-- In the loop of `call` the get-element body runs for a non-empty list only, and with the
iteration frame still holding what it held when the iteration began. -/
theorem get_element_mem_loop_events {α : Type} (name : String) (base : List StackFrame)
    (args : Nat → List α) (inputs : List (Value α)) (i li : Nat) (st : List StackFrame) :
    ∀ (n j : Nat) (prev : Option Nat),
      Event.get_element i li st ∈ loop_events name base args inputs n j prev →
      ∃ (it : Nat) (xs : List α), j ≤ it ∧ it < j + n ∧ inputs[i]? = some (Value.list xs) ∧
        xs.length ≠ 0 ∧ li = it % xs.length ∧
        st = frames name (if it = j then prev else some (it - 1)) base
  | 0, _, _, h => by simp [loop_events] at h
  | n + 1, j, prev, h => by
    simp only [loop_events, List.mem_append, List.mem_singleton] at h
    rcases h with (h | h) | h
    · obtain ⟨p, xs, h1, h2, h3, h4, h5⟩ :=
        get_element_mem_prepare_events j (frames name prev base) i li st inputs 0 h
      have hp : p = i := by omega
      subst hp
      exact ⟨j, xs, le_refl _, by omega, h2, h3, h4, by simp [h5]⟩
    · simp at h
    · obtain ⟨it, xs, h1, h2, h3, h4, h5, h6⟩ :=
        get_element_mem_loop_events name base args inputs i li st n (j + 1) (some j) h
      refine ⟨it, xs, by omega, by omega, h3, h4, h5, ?_⟩
      rw [h6]
      have hne : it ≠ j := by omega
      simp only [hne, if_false]
      by_cases he : it = j + 1
      · subst he; simp
      · simp [he]

theorem load_mem_gen_prepare_events {α : Type} (it i li : Nat) :
    ∀ (vs : List (Value α)) (i0 k : Nat),
      IREvent.load i li ∈ gen_prepare_events it vs i0 k →
      ∃ (p : Nat) (xs : List α), i = i0 + p ∧ vs[p]? = some (Value.list xs) ∧ xs.length ≠ 0 ∧
        li = it % xs.length
  | [], _, _, h => by simp [gen_prepare_events] at h
  | Value.base a :: vs, i0, k, h => by
    simp only [gen_prepare_events] at h
    obtain ⟨p, xs, h1, h2, h3⟩ := load_mem_gen_prepare_events it i li vs (i0 + 1) k h
    exact ⟨p + 1, xs, by omega, by simpa using h2, h3⟩
  | Value.list ys :: vs, i0, k, h => by
    simp only [gen_prepare_events, List.mem_append] at h
    rcases h with h | h
    · by_cases hy : ys.length = 0
      · simp [hy] at h
      · simp only [hy, if_false, List.mem_cons, IREvent.load.injEq, List.mem_singleton,
          List.not_mem_nil, or_false] at h
        rcases h with h | h
        · simp at h
        · exact ⟨0, ys, by omega, by simp, hy, h.2⟩
    · obtain ⟨p, xs, h1, h2, h3⟩ := load_mem_gen_prepare_events it i li vs (i0 + 1) (k + 1) h
      exact ⟨p + 1, xs, by omega, by simpa using h2, h3⟩

/-- The emitted loop loads an element of a non-empty list only, at `iteration mod length`. -/
theorem load_mem_gen_loop_events {α : Type} (m : Nat) (args : Nat → List α)
    (inputs : List (Value α)) (i li : Nat) :
    ∀ (n j : Nat), IREvent.load i li ∈ gen_loop_events m args inputs n j →
      ∃ (it : Nat) (xs : List α), j ≤ it ∧ it < j + n ∧ inputs[i]? = some (Value.list xs) ∧
        xs.length ≠ 0 ∧ li = it % xs.length
  | 0, _, h => by simp [gen_loop_events] at h
  | n + 1, j, h => by
    simp only [gen_loop_events, List.mem_append, List.mem_singleton, List.mem_map] at h
    rcases h with ((h | h) | h) | h
    · obtain ⟨p, xs, h1, h2, h3, h4⟩ := load_mem_gen_prepare_events j i li inputs 0 0 h
      have hp : p = i := by omega
      subst hp
      exact ⟨j, xs, le_refl _, by omega, h2, h3, h4⟩
    · simp at h
    · obtain ⟨o, _, ho⟩ := h
      simp at ho
    · obtain ⟨it, xs, h1, h2, h3⟩ := load_mem_gen_loop_events m args inputs i li n (j + 1) h
      exact ⟨it, xs, by omega, by omega, h3⟩


/-! ## Both backends in closed form, in a well-formed setting -/

section
variable {τ α ε : Type}

theorem WellFormed.nonempty {types : TypeSystem τ α} {main : SharedFunction τ α ε}
    {f : List α → List α} {mask : List Bool} {builders : List (SharedFunction τ α ε)}
    (hwf : WellFormed types main f mask builders) : Nonempty α := by
  have h2 : 0 < mask.count true := List.count_pos_iff.mpr (by simpa using hwf.mask_true)
  have h3 : 0 < builders.length := by rw [hwf.builder_count]; exact h2
  have hb := hwf.builders_ok (builders.get ⟨0, h3⟩) (List.get_mem _ _ _)
  obtain ⟨d, _⟩ := Option.isSome_iff_exists.mp hb
  exact ⟨d⟩

theorem WellFormed.init_default_isSome {types : TypeSystem τ α} {main : SharedFunction τ α ε}
    {f : List α → List α} {mask : List Bool} {builders : List (SharedFunction τ α ε)}
    (hwf : WellFormed types main f mask builders) (i : Nat) (hi : i < main.input_amount) :
    ∃ d, init_default types main.signature.inputs i = some d := by
  have hi1 : i < main.signature.inputs.length := hi
  have hp := hwf.input_types main.signature.inputs[i] (List.getElem_mem _)
  obtain ⟨c, hc⟩ := Option.isSome_iff_exists.mp hp.1
  exact ⟨c.construct_default, by simp [init_default, List.getElem?_eq_getElem hi1, hc]⟩

/-- The interpreted backend on inputs that fit the mask: the outputs are the columns of the
rows `f (args j)`, `j` below the unsigned maximum `N` of the lengths, where `args j` is the
broadcast of the inputs with the default construction `D i` of slot `i` for an empty list;
the stack is as before the call and the log grows by the two pushes, the loop and the two
pops. -/
theorem call_closed_form (types : TypeSystem τ α) (main : SharedFunction τ α ε)
    (f : List α → List α) (mask : List Bool) (builders : List (SharedFunction τ α ε))
    (hwf : WellFormed types main f mask builders) (fn_in : List (Value α))
    (htyped : well_typed mask fn_in = true) (ctx : ExecutionContext α) :
    ∃ (D : Nat → α) (N : Nat),
      AutoVectorization.max_element (lengths_of fn_in) = some N ∧
      (∀ i, i < main.input_amount → init_default types main.signature.inputs i = some (D i)) ∧
      (AutoVectorization.new main mask).call types fn_in ctx =
        (Result.ok ((columns main.output_amount
            (rows_of f (fun j => broadcast j (fun i _ => D i) fn_in 0 0) N)).map Value.list),
          { stack := ctx.stack
            log := ctx.log ++
              [Event.push (StackFrame.iteration none),
                Event.push (StackFrame.text main.name)] ++
              loop_events main.name ctx.stack
                (fun j => broadcast j (fun i _ => D i) fn_in 0 0) fn_in N 0 none ++
              [Event.pop, Event.pop] }) := by
  obtain ⟨a0⟩ := hwf.nonempty
  obtain ⟨body, hbody, hcall⟩ := hwf.tuple_call
  have hne := lengths_of_ne_nil mask fn_in htyped hwf.mask_true
  obtain ⟨N, hN⟩ : ∃ N, AutoVectorization.max_element (lengths_of fn_in) = some N := by
    cases h : lengths_of fn_in with
    | nil => exact absurd h hne
    | cons x l => exact ⟨_, rfl⟩
  have hD : ∀ i, i < main.input_amount → init_default types main.signature.inputs i =
      some ((init_default types main.signature.inputs i).getD a0) := by
    intro i hi
    obtain ⟨d, hd⟩ := hwf.init_default_isSome i hi
    simp [hd]
  refine ⟨fun i => (init_default types main.signature.inputs i).getD a0, N, hN, hD, ?_⟩
  exact AutoVectorization.call_eq types main mask fn_in ctx body f _ N
    (le_of_eq hwf.mask_length) htyped hbody hcall (fun a => le_of_eq (hwf.outputs a).symm)
    (fun i _ hi => hD i hi) hN

/-- The compiled backend on inputs that fit the mask: the outputs are the columns of the
rows `f (args j)`, `j` below the signed maximum `N` of the lengths, where `args j` is the
broadcast of the inputs with the value `B k` of builder `k` for an empty list; the log
holds the allocations, the loop and the frees of the list inputs. -/
theorem build_ir_closed_form (types : TypeSystem τ α) (main : SharedFunction τ α ε)
    (f : List α → List α) (mask : List Bool) (builders : List (SharedFunction τ α ε))
    (hwf : WellFormed types main f mask builders) (fn_in : List (Value α))
    (htyped : well_typed mask fn_in = true) (u : α) :
    ∃ (gen : AutoVectorizationGen τ α ε) (B : Nat → α) (N : Nat),
      AutoVectorizationGen.new types main mask builders = some gen ∧
      CreateSIntMax (lengths_of fn_in) = some N ∧
      (∀ k, k < builders.length → builders[k]?.bind default_value_of = some (B k)) ∧
      gen.build_ir fn_in u =
        some ((columns main.output_amount
            (rows_of f (fun j => broadcast j (fun _ k => B k) fn_in 0 0) N)).map Value.list,
          (List.range main.output_amount).map (fun o => IREvent.new_list o N) ++
            gen_loop_events main.output_amount
              (fun j => broadcast j (fun _ k => B k) fn_in 0 0) fn_in N 0 ++
            (list_inputs_from mask 0).map IREvent.free) := by
  obtain ⟨a0⟩ := hwf.nonempty
  obtain ⟨body, hbody, hcall⟩ := hwf.build_ir
  have hne := lengths_of_ne_nil mask fn_in htyped hwf.mask_true
  obtain ⟨N, hN⟩ : ∃ N, CreateSIntMax (lengths_of fn_in) = some N := by
    cases h : lengths_of fn_in with
    | nil => exact absurd h hne
    | cons x l => exact ⟨_, rfl⟩
  have hB : ∀ k, k < builders.length → builders[k]?.bind default_value_of =
      some ((builders[k]?.bind default_value_of).getD a0) := by
    intro k hk
    obtain ⟨d, hd⟩ := Option.isSome_iff_exists.mp
      (hwf.builders_ok builders[k] (List.getElem_mem _))
    simp [List.getElem?_eq_getElem hk, hd]
  cases hinfo : AutoVectorizationGen.input_info_from types mask main.signature.inputs 0 with
  | none =>
    exfalso
    have : ∀ (params : List (Parameter τ)) (i : Nat), i + params.length ≤ mask.length →
        AutoVectorizationGen.input_info_from (α := α) types mask params i ≠ none := by
      intro params
      induction params with
      | nil => intro i _; simp [AutoVectorizationGen.input_info_from]
      | cons p params ih =>
        intro i hi
        have hi1 : i < mask.length := by simp at hi; omega
        have := ih (i + 1) (by simp at hi; omega)
        cases hr : AutoVectorizationGen.input_info_from (α := α) types mask params (i + 1) with
        | none => exact absurd hr this
        | some infos =>
          simp [AutoVectorizationGen.input_info_from, List.getElem?_eq_getElem hi1, hr]
    exact this main.signature.inputs 0 (by
      have := hwf.mask_length
      simp only [Function.input_amount] at this
      omega) hinfo
  | some infos =>
    have hfits := AutoVectorizationGen.input_info_from_fits types mask main.signature.inputs 0
      mask fn_in infos hinfo (by simp) hwf.mask_length htyped hwf.input_types
    refine ⟨{ m_main := main, m_input_is_list := mask, m_empty_list_value_builders := builders,
              m_input_info := infos,
              m_output_info := AutoVectorizationGen.output_info types main.signature.outputs },
      fun k => (builders[k]?.bind default_value_of).getD a0, N, ?_, hN, hB, ?_⟩
    · have hm := hwf.mask_true
      simp only [AutoVectorizationGen.new, BLI_assert, hm, hinfo, if_true]
    · have h := AutoVectorizationGen.build_ir_eq
        ({ m_main := main, m_input_is_list := mask, m_empty_list_value_builders := builders,
           m_input_info := infos,
           m_output_info := AutoVectorizationGen.output_info types main.signature.outputs } :
          AutoVectorizationGen τ α ε)
        fn_in u body f (fun k => (builders[k]?.bind default_value_of).getD a0) N hfits hbody
        hcall
        (by
          intro a
          simp only [AutoVectorizationGen.output_info, List.length_map]
          exact le_of_eq (hwf.outputs a).symm)
        (by
          intro info hi
          simp only [AutoVectorizationGen.output_info, List.mem_map] at hi
          obtain ⟨p, hp, rfl⟩ := hi
          exact ⟨(hwf.output_types p hp).1, (hwf.output_types p hp).2, rfl⟩)
        (le_of_eq hwf.builder_count.symm)
        (by
          intro k hk
          have hk1 : k < builders.length := hk
          have hv := hB k hk1
          simp only [List.getElem?_eq_getElem hk1, Option.some_bind] at hv
          cases hb : (builders[k]).llvm_build_ir_body with
          | none => simp [default_value_of, hb] at hv
          | some b =>
            have hd : default_value_of builders[k] = (b.build_ir [])[0]? := by
              simp [default_value_of, hb]
            refine ⟨builders[k], b, List.getElem?_eq_getElem hk1, hb, ?_⟩
            simp only [List.getElem?_eq_getElem hk1, Option.some_bind]
            rw [← hd]
            exact hv)
        hN
      simpa [AutoVectorizationGen.output_info, Function.output_amount] using h

end


/-! ## A failing call of the body ends the loop -/

namespace AutoVectorization
variable {τ α ε : Type}

theorem copy_in_iteration_log (types : TypeSystem τ α) (self : AutoVectorization τ α ε)
    (iteration : Nat) (fn_in : List (Value α)) (main_in : List α)
    (index list_index list_length : Nat) (ctx : ExecutionContext α) :
    ∃ evs, (self.copy_in_iteration types iteration fn_in main_in index list_index list_length
        ctx).2.log = ctx.log ++ evs ∧ main_calls evs = [] := by
  unfold copy_in_iteration
  split
  · split
    · exact ⟨[Event.init_default index], rfl, rfl⟩
    · exact ⟨[], by simp, rfl⟩
  · dsimp only
    split
    · split
      · exact ⟨[Event.get_element index (iteration % list_length) ctx.stack], rfl, rfl⟩
      · exact ⟨[], by simp, rfl⟩
    · exact ⟨[], by simp, rfl⟩

theorem prepare_main_in_log (types : TypeSystem τ α) (self : AutoVectorization τ α ε)
    (iteration : Nat) (fn_in : List (Value α)) (input_lengths : List Nat) :
    ∀ (mask : List Bool) (i k : Nat) (main_in : List α) (ctx : ExecutionContext α),
      ∃ evs, (self.prepare_main_in types iteration fn_in input_lengths mask i k main_in
        ctx).2.log = ctx.log ++ evs ∧ main_calls evs = []
  | [], _, _, _, _ => ⟨[], by simp [prepare_main_in], rfl⟩
  | true :: mask, i, k, main_in, ctx => by
    unfold prepare_main_in
    split
    · exact ⟨[], by simp, rfl⟩
    · next list_length _ =>
      obtain ⟨evs1, h1, h2⟩ :=
        copy_in_iteration_log types self iteration fn_in main_in i k list_length ctx
      split
      · next main_in1 ctx1 heq =>
        obtain ⟨evs2, h3, h4⟩ := prepare_main_in_log types self iteration fn_in input_lengths
          mask (i + 1) (k + 1) main_in1 ctx1
        rw [heq] at h1
        simp only at h1
        exact ⟨evs1 ++ evs2, by rw [h3, h1, List.append_assoc],
          by rw [main_calls_append, h2, h4]; rfl⟩
      · next f ctx1 heq =>
        rw [heq] at h1
        exact ⟨evs1, h1, h2⟩
  | false :: mask, i, k, main_in, ctx => by
    unfold prepare_main_in
    split
    · next a _ =>
      exact prepare_main_in_log types self iteration fn_in input_lengths mask (i + 1) k
        (main_in ++ [a]) ctx
    · exact ⟨[], by simp, rfl⟩

theorem not_mem_of_main_calls_nil (evs : List (Event α)) (h : main_calls evs = [])
    (main_in : List α) (st : List StackFrame) : Event.main_call main_in st ∉ evs := by
  intro hmem
  have : main_in ∈ main_calls evs := by
    simp only [main_calls, List.mem_filterMap]
    exact ⟨_, hmem, rfl⟩
  rw [h] at this
  simp at this

/-- A call of the body that fails ends the loop: it is the last entry of the log, and
its failure is the outcome. -/
theorem iterations_failure (types : TypeSystem τ α) (self : AutoVectorization τ α ε)
    (body : TupleCallBody α ε) (fn_in : List (Value α)) (input_lengths : List Nat) :
    ∀ (n j : Nat) (fn_out : List (Value α)) (ctx : ExecutionContext α),
      ∃ added, (self.iterations types body fn_in input_lengths n j fn_out ctx).2.log =
          ctx.log ++ added ∧
        ∀ (main_in : List α) (st : List StackFrame) (e : ε),
          Event.main_call main_in st ∈ added → body.call main_in = Except.error e →
          (self.iterations types body fn_in input_lengths n j fn_out ctx).1 =
              Result.failed (Failure.main e) ∧
            added.getLast? = some (Event.main_call main_in st)
  | 0, _, _, _ => ⟨[], by simp [iterations], by simp⟩
  | n + 1, j, fn_out, ctx => by
    obtain ⟨evs, h1, h2⟩ := prepare_main_in_log types self j fn_in input_lengths
      self.m_input_is_list 0 0 [] ctx
    unfold iterations
    split
    · next f ctx1 heq =>
      rw [heq] at h1
      refine ⟨evs, h1, ?_⟩
      intro main_in st e hmem
      exact absurd hmem (not_mem_of_main_calls_nil evs h2 main_in st)
    · next main_in0 ctx1 heq =>
      rw [heq] at h1
      simp only at h1
      dsimp only
      split
      · next e0 hcall =>
        refine ⟨evs ++ [Event.main_call main_in0 (ctx1.set_iteration j).stack], ?_, ?_⟩
        · simp [ExecutionContext.record, ExecutionContext.set_iteration, h1]
        · intro main_in st e hmem he
          simp only [List.mem_append, List.mem_singleton] at hmem
          rcases hmem with hmem | hmem
          · exact absurd hmem (not_mem_of_main_calls_nil evs h2 main_in st)
          · simp only [Event.main_call.injEq] at hmem
            obtain ⟨hm, hs⟩ := hmem
            subst hm
            rw [hcall] at he
            simp only [Except.error.injEq] at he
            subst he
            simp [hs]
      · next main_out hcall =>
        split
        · refine ⟨evs ++ [Event.main_call main_in0 (ctx1.set_iteration j).stack], ?_, ?_⟩
          · simp [ExecutionContext.record, ExecutionContext.set_iteration, h1]
          · intro main_in st e hmem he
            simp only [List.mem_append, List.mem_singleton] at hmem
            rcases hmem with hmem | hmem
            · exact absurd hmem (not_mem_of_main_calls_nil evs h2 main_in st)
            · simp only [Event.main_call.injEq] at hmem
              rw [hmem.1, hcall] at he
              simp at he
        · next fn_out1 _ =>
          obtain ⟨added, h3, h4⟩ := iterations_failure types self body fn_in input_lengths n
            (j + 1) fn_out1
            ((ctx1.set_iteration j).record (Event.main_call main_in0 (ctx1.set_iteration j).stack))
          refine ⟨evs ++ [Event.main_call main_in0 (ctx1.set_iteration j).stack] ++ added, ?_,
            ?_⟩
          · rw [h3]
            simp [ExecutionContext.record, ExecutionContext.set_iteration, h1]
          · intro main_in st e hmem he
            simp only [List.mem_append, List.mem_singleton] at hmem
            rcases hmem with (hmem | hmem) | hmem
            · exact absurd hmem (not_mem_of_main_calls_nil evs h2 main_in st)
            · simp only [Event.main_call.injEq] at hmem
              rw [hmem.1, hcall] at he
              simp at he
            · obtain ⟨h5, h6⟩ := h4 main_in st e hmem he
              refine ⟨h5, ?_⟩
              have hne : added ≠ [] := List.ne_nil_of_mem hmem
              rw [List.getLast?_append_of_ne_nil _ hne]
              exact h6

end AutoVectorization

/-- A function of two numbers vectorized over the number types is a well-formed setting
whenever the mask has two entries, one of them true, and the builders are constants. -/
theorem binary_fn_well_formed (name : String) (g : Int → Int → Int) (mask : List Bool)
    (defaults : List Int) (h1 : mask.length = 2) (h2 : mask.contains true = true)
    (h3 : defaults.length = mask.count true) :
    WellFormed number_types (binary_fn name g)
      (fun args => [g (args.getD 0 0) (args.getD 1 0)]) mask (defaults.map constant_fn) where
  mask_length := h1
  mask_true := h2
  builder_count := by simpa using h3
  tuple_call := ⟨_, rfl, fun _ => rfl⟩
  build_ir := ⟨_, rfl, fun _ => rfl⟩
  outputs := fun _ => rfl
  input_types := fun _ _ => ⟨rfl, rfl, rfl⟩
  output_types := fun _ _ => ⟨rfl, rfl⟩
  builders_ok := by
    intro b hb
    simp only [List.mem_map] at hb
    obtain ⟨c, _, rfl⟩ := hb
    rfl


/-! ## The claims -/

section
variable {τ α ε : Type}

theorem lengths_of_all_eq (fn_in : List (Value α)) (L : Nat)
    (hL : ∀ (i : Nat) (xs : List α), fn_in[i]? = some (Value.list xs) → xs.length = L) :
    ∀ x ∈ lengths_of fn_in, x = L := by
  intro x hx
  obtain ⟨i, xs, h1, h2⟩ := (mem_lengths_of fn_in x).mp hx
  rw [← h2]
  exact hL i xs h1


theorem main_calls_call_log (log0 : List (Event α)) (a b : StackFrame) (name : String)
    (base : List StackFrame) (args : Nat → List α) (inputs : List (Value α)) (N : Nat) :
    main_calls (log0 ++ [Event.push a, Event.push b] ++
        loop_events name base args inputs N 0 none ++ [Event.pop, Event.pop]) =
      main_calls log0 ++ (List.range N).map args := by
  have h1 : main_calls [Event.push a, Event.push b] = ([] : List (List α)) := rfl
  have h2 : main_calls [Event.pop, Event.pop] = ([] : List (List α)) := rfl
  rw [main_calls_append, main_calls_append, main_calls_append, main_calls_loop_events, h1, h2,
    List.range_eq_range']
  simp

theorem ir_main_calls_build_log (m : Nat) (args : Nat → List α) (inputs : List (Value α))
    (N : Nat) (frees : List Nat) :
    ir_main_calls ((List.range m).map (fun o => IREvent.new_list o N) ++
        gen_loop_events m args inputs N 0 ++ frees.map IREvent.free) =
      (List.range N).map args := by
  have h1 : ir_main_calls ((List.range m).map (fun o => IREvent.new_list o N)) =
      ([] : List (List α)) := by
    simp [ir_main_calls, List.filterMap_map, Function.comp_def]
  have h2 : ir_main_calls (frees.map IREvent.free) = ([] : List (List α)) := by
    simp [ir_main_calls, List.filterMap_map, Function.comp_def]
  rw [ir_main_calls_append, ir_main_calls_append, ir_main_calls_loop_events, h1, h2,
    List.range_eq_range']
  simp

/-- C1: for inputs whose list-marked entries are lists of one length `L`, the interpreted
`call` and the instructions emitted by `build_ir` both yield, for each output `k` of the
original function, a list of length `L` whose element `j` is output `k` of the original
function on the arguments of iteration `j`: element `j` of input `i` where the mask is
true, input `i` itself where it is false. -/
theorem vectorized_call_elementwise (types : TypeSystem τ α) (main : SharedFunction τ α ε)
    (f : List α → List α) (mask : List Bool) (builders : List (SharedFunction τ α ε))
    (hwf : WellFormed types main f mask builders) (fn_in : List (Value α))
    (htyped : well_typed mask fn_in = true) (L : Nat)
    (hL : ∀ (i : Nat) (xs : List α), fn_in[i]? = some (Value.list xs) → xs.length = L)
    (ctx : ExecutionContext α) (u : α) :
    ∃ (gen : AutoVectorizationGen τ α ε) (outs : List (Value α)) (log : List (IREvent α)),
      AutoVectorizationGen.new types main mask builders = some gen ∧
      ((AutoVectorization.new main mask).call types fn_in ctx).1 = Result.ok outs ∧
      gen.build_ir fn_in u = some (outs, log) ∧
      outs.length = main.output_amount ∧
      ∀ k, k < main.output_amount →
        ∃ ys, outs[k]? = some (Value.list ys) ∧ ys.length = L ∧
          ∀ j, j < L →
            ∃ args, ys[j]? = (f args)[k]? ∧ args.length = mask.length ∧
              ∀ (i : Nat),
                (mask[i]? = some true →
                  ∃ xs, fn_in[i]? = some (Value.list xs) ∧ args[i]? = xs[j]?) ∧
                (mask[i]? = some false →
                  ∃ a, fn_in[i]? = some (Value.base a) ∧ args[i]? = some a) := by
  obtain ⟨D, N1, hN1, hD, hcall⟩ := call_closed_form types main f mask builders hwf fn_in htyped ctx
  obtain ⟨gen, B, N2, hgen, hN2, hB, hir⟩ :=
    build_ir_closed_form types main f mask builders hwf fn_in htyped u
  have hne := lengths_of_ne_nil mask fn_in htyped hwf.mask_true
  have hall := lengths_of_all_eq fn_in L hL
  rw [max_element_const L _ hne hall] at hN1
  rw [CreateSIntMax_const L _ hne hall] at hN2
  simp only [Option.some.injEq] at hN1 hN2
  subst hN1
  subst hN2
  have hrows : rows_of f (fun j => broadcast j (fun _ k => B k) fn_in 0 0) L =
      rows_of f (fun j => broadcast j (fun i _ => D i) fn_in 0 0) L := by
    simp only [rows_of]
    apply List.map_congr_left
    intro j hj
    have hjL : j < L := by simpa using hj
    congr 1
    apply broadcast_congr
    intro p hp
    have := hL p [] hp
    simp at this
    omega
  rw [hrows] at hir
  refine ⟨gen, _, _, hgen, by rw [hcall], hir, by simp [columns], ?_⟩
  intro k hk
  have hfk : ∀ a, k < (f a).length := fun a => by rw [hwf.outputs a]; exact hk
  refine ⟨column (rows_of f (fun j => broadcast j (fun i _ => D i) fn_in 0 0) L) k, ?_,
    column_rows_of_length f _ L k hfk, ?_⟩
  · simp [columns, List.getElem?_range hk]
  · intro j hj
    refine ⟨broadcast j (fun i _ => D i) fn_in 0 0, column_rows_of_getElem? f _ L k j hfk hj, ?_,
      ?_⟩
    · rw [broadcast_length, well_typed_length mask fn_in htyped]
    · intro i
      have ht := well_typed_getElem? mask fn_in i htyped
      constructor
      · intro hm
        obtain ⟨xs, hxs⟩ := ht.1 hm
        have hlen := hL i xs hxs
        refine ⟨xs, hxs, ?_⟩
        rw [broadcast_getElem?_list j _ fn_in 0 0 i xs hxs (by omega), hlen,
          Nat.mod_eq_of_lt hj]
      · intro hm
        obtain ⟨a, ha⟩ := ht.2 hm
        exact ⟨a, ha, broadcast_getElem?_base j _ fn_in 0 0 i a ha⟩

/-- C2: where a list input `i` has a non-zero length, both backends hand the original
function, at every iteration `j` below the maximum they computed, the element of that list
at index `j mod length`: the interpreted backend makes `N1` calls of the body, `N1` the
`max_element` of the lengths, the emitted loop runs the inlined body `N2` times, `N2` the
`CreateSIntMax` of the lengths, and call `j` has that element in slot `i`. -/
theorem cyclic_broadcast (types : TypeSystem τ α) (main : SharedFunction τ α ε)
    (f : List α → List α) (mask : List Bool) (builders : List (SharedFunction τ α ε))
    (hwf : WellFormed types main f mask builders) (fn_in : List (Value α))
    (htyped : well_typed mask fn_in = true) (i : Nat) (xs : List α)
    (hi : fn_in[i]? = some (Value.list xs)) (hx : xs.length ≠ 0)
    (ctx : ExecutionContext α) (u : α) :
    ∃ (gen : AutoVectorizationGen τ α ε) (outs1 outs2 : List (Value α))
      (ctx1 : ExecutionContext α) (log : List (IREvent α)) (N1 N2 : Nat)
      (calls : List (List α)),
      AutoVectorization.max_element (lengths_of fn_in) = some N1 ∧
      CreateSIntMax (lengths_of fn_in) = some N2 ∧
      AutoVectorizationGen.new types main mask builders = some gen ∧
      (AutoVectorization.new main mask).call types fn_in ctx = (Result.ok outs1, ctx1) ∧
      gen.build_ir fn_in u = some (outs2, log) ∧
      main_calls ctx1.log = main_calls ctx.log ++ calls ∧ calls.length = N1 ∧
      (∀ j, j < N1 → ∃ args, calls[j]? = some args ∧ args[i]? = xs[j % xs.length]?) ∧
      (ir_main_calls log).length = N2 ∧
      (∀ j, j < N2 →
        ∃ args, (ir_main_calls log)[j]? = some args ∧ args[i]? = xs[j % xs.length]?) := by
  obtain ⟨D, N1, hN1, hD, hcall⟩ := call_closed_form types main f mask builders hwf fn_in htyped ctx
  obtain ⟨gen, B, N2, hgen, hN2, hB, hir⟩ :=
    build_ir_closed_form types main f mask builders hwf fn_in htyped u
  refine ⟨gen, _, _, _, _, N1, N2,
    (List.range N1).map (fun j => broadcast j (fun i _ => D i) fn_in 0 0),
    hN1, hN2, hgen, hcall, hir, ?_, by simp, ?_, ?_, ?_⟩
  · exact main_calls_call_log _ _ _ _ _ _ _ _
  · intro j hj
    refine ⟨broadcast j (fun i _ => D i) fn_in 0 0, ?_,
      broadcast_getElem?_list j _ fn_in 0 0 i xs hi hx⟩
    simp [List.getElem?_range hj]
  · rw [ir_main_calls_build_log]
    simp
  · intro j hj
    refine ⟨broadcast j (fun _ k => B k) fn_in 0 0, ?_,
      broadcast_getElem?_list j _ fn_in 0 0 i xs hi hx⟩
    rw [ir_main_calls_build_log]
    simp [List.getElem?_range hj]

end


/-- Witness: `vectorized_call_elementwise` at the spec's scenario: `add(a, b)` with `a` marked as a
list, `a = [1, 2, 3]`, `b = 10` gives `[11, 12, 13]` in both backends. -/
theorem vectorized_call_elementwise_witness :
    WellFormed number_types add_fn add_values [true, false] [constant_fn 0] ∧
    well_typed [true, false] [Value.list [1, 2, 3], Value.base (10 : Int)] = true ∧
    ∃ gen log,
      AutoVectorizationGen.new number_types add_fn [true, false] [constant_fn 0] = some gen ∧
      gen.build_ir [Value.list [1, 2, 3], Value.base 10] 0 =
        some ([Value.list [11, 12, 13]], log) ∧
      ((AutoVectorization.new add_fn [true, false]).call number_types
        [Value.list [1, 2, 3], Value.base 10] ctx0).1 = Result.ok [Value.list [11, 12, 13]] := by
  have hwf : WellFormed number_types add_fn add_values [true, false] [constant_fn 0] :=
    binary_fn_well_formed "add" (fun a b => a + b) [true, false] [0] rfl rfl rfl
  refine ⟨hwf, by decide, ?_⟩
  obtain ⟨gen, outs, log, hgen, hcall, hir, -⟩ :=
    vectorized_call_elementwise number_types add_fn add_values [true, false] [constant_fn 0] hwf
      [Value.list [1, 2, 3], Value.base 10] (by decide) 3
      (by
        intro i xs h
        match i with
        | 0 => simp at h; subst h; rfl
        | 1 => simp at h
        | i + 2 => simp at h)
      ctx0 0
  have h : ((AutoVectorization.new add_fn [true, false]).call number_types
      [Value.list [1, 2, 3], Value.base 10] ctx0).1 = Result.ok [Value.list [11, 12, 13]] := by
    decide
  rw [h] at hcall
  have := Result.ok.inj hcall
  subst this
  exact ⟨gen, log, hgen, hir, h⟩

/-- Witness: `cyclic_broadcast` at the spec's scenario: with list inputs of lengths 2 and 5,
iteration 4 hands over the first list's element at index `4 mod 2 = 0`. -/
theorem cyclic_broadcast_witness :
    WellFormed number_types multiply_fn multiply_values [true, true]
      [constant_fn 0, constant_fn 0] ∧
    well_typed [true, true] [Value.list [10, 20], Value.list [1, 2, 3, 4, (5 : Int)]] = true ∧
    (main_calls ((AutoVectorization.new multiply_fn [true, true]).call number_types
        [Value.list [10, 20], Value.list [1, 2, 3, 4, 5]] ctx0).2.log)[4]? = some [10, 5] ∧
    ∃ gen log,
      AutoVectorizationGen.new number_types multiply_fn [true, true]
        [constant_fn 0, constant_fn 0] = some gen ∧
      (gen.build_ir [Value.list [10, 20], Value.list [1, 2, 3, 4, 5]] 0).map Prod.snd =
        some log ∧
      ∃ args, (ir_main_calls log)[4]? = some args ∧ args[0]? = some 10 := by
  have hwf : WellFormed number_types multiply_fn multiply_values [true, true]
      [constant_fn 0, constant_fn 0] :=
    binary_fn_well_formed "multiply" (fun a b => a * b) [true, true] [0, 0] rfl rfl rfl
  refine ⟨hwf, by decide, by decide, ?_⟩
  obtain ⟨gen, outs1, outs2, ctx1, log, N1, N2, calls, hN1, hN2, hgen, hcall, hir, -, -, -, -,
      h⟩ :=
    cyclic_broadcast number_types multiply_fn multiply_values [true, true]
      [constant_fn 0, constant_fn 0] hwf [Value.list [10, 20], Value.list [1, 2, 3, 4, 5]]
      (by decide) 0 [10, 20] (by simp) (by simp) ctx0 0
  have hN : N2 = 5 := by
    have : CreateSIntMax (lengths_of [Value.list [10, 20], Value.list [1, 2, 3, 4, (5 : Int)]])
        = some 5 := by decide
    rw [this] at hN2
    exact (Option.some.inj hN2).symm
  subst hN
  obtain ⟨args, ha, hb⟩ := h 4 (by decide)
  exact ⟨gen, log, hgen, by rw [hir]; rfl, args, ha, by simpa using hb⟩



section
variable {τ α ε : Type}

theorem count_take_lt : ∀ (mask : List Bool) (i : Nat), mask[i]? = some true →
    (mask.take i).count true < mask.count true
  | [], _, h => by simp at h
  | b :: mask, 0, h => by
    simp at h; subst h; simp
  | b :: mask, i + 1, h => by
    have ih := count_take_lt mask i (by simpa using h)
    cases b <;> simp [List.take_succ_cons, List.count_cons] <;> omega

theorem well_typed_list_mask : ∀ (mask : List Bool) (vs : List (Value α)) (i : Nat)
    (xs : List α), well_typed mask vs = true → vs[i]? = some (Value.list xs) →
    mask[i]? = some true
  | [], [], _, _, _, h => by simp at h
  | [], _ :: _, _, _, h, _ => by simp [well_typed] at h
  | true :: mask, [], _, _, h, _ => by simp [well_typed] at h
  | false :: mask, [], _, _, h, _ => by simp [well_typed] at h
  | true :: mask, Value.base a :: vs, _, _, h, _ => by simp [well_typed] at h
  | false :: mask, Value.list ys :: vs, _, _, h, _ => by simp [well_typed] at h
  | true :: mask, Value.list ys :: vs, 0, _, _, _ => by simp
  | true :: mask, Value.list ys :: vs, i + 1, xs, h, hv => by
    simp only [well_typed] at h
    simpa using well_typed_list_mask mask vs i xs h (by simpa using hv)
  | false :: mask, Value.base a :: vs, 0, _, _, hv => by simp at hv
  | false :: mask, Value.base a :: vs, i + 1, xs, h, hv => by
    simp only [well_typed] at h
    simpa using well_typed_list_mask mask vs i xs h (by simpa using hv)

/-- The index of a list input among the list inputs is below the number of builders. -/
theorem list_index_lt_builders {types : TypeSystem τ α} {main : SharedFunction τ α ε}
    {f : List α → List α} {mask : List Bool} {builders : List (SharedFunction τ α ε)}
    (hwf : WellFormed types main f mask builders) (fn_in : List (Value α))
    (htyped : well_typed mask fn_in = true) (i : Nat) (xs : List α)
    (hi : fn_in[i]? = some (Value.list xs)) :
    (mask.take i).count true < builders.length ∧ i < main.input_amount := by
  have hm := well_typed_list_mask mask fn_in i xs htyped hi
  constructor
  · rw [hwf.builder_count]
    exact count_take_lt mask i hm
  · rw [← hwf.mask_length]
    by_contra hcon
    rw [List.getElem?_eq_none (by omega)] at hm
    simp at hm

/-- C4, as amended: for a list input `i` of length 0 neither backend fails or reads an
element of the empty list, and at every iteration the value handed to the original
function for input `i` is, in the compiled backend, the value generated by the builder of
that input (builder `k`, `k` the number of true mask entries before `i`), and, in the
interpreted backend, the default construction of slot `i` (`Tuple::init_default`). -/
theorem empty_list_default (types : TypeSystem τ α) (main : SharedFunction τ α ε)
    (f : List α → List α) (mask : List Bool) (builders : List (SharedFunction τ α ε))
    (hwf : WellFormed types main f mask builders) (fn_in : List (Value α))
    (htyped : well_typed mask fn_in = true) (i : Nat)
    (hi : fn_in[i]? = some (Value.list [])) (ctx : ExecutionContext α) (u : α) :
    ∃ (gen : AutoVectorizationGen τ α ε) (outs1 outs2 : List (Value α))
      (ctx1 : ExecutionContext α) (log : List (IREvent α)) (N1 N2 : Nat)
      (added : List (Event α)) (slot_default builder_value : α),
      AutoVectorization.max_element (lengths_of fn_in) = some N1 ∧
      CreateSIntMax (lengths_of fn_in) = some N2 ∧
      AutoVectorizationGen.new types main mask builders = some gen ∧
      (AutoVectorization.new main mask).call types fn_in ctx = (Result.ok outs1, ctx1) ∧
      gen.build_ir fn_in u = some (outs2, log) ∧
      init_default types main.signature.inputs i = some slot_default ∧
      builders[(mask.take i).count true]?.bind default_value_of = some builder_value ∧
      ctx1.log = ctx.log ++ added ∧
      (main_calls added).length = N1 ∧
      (∀ args ∈ main_calls added, args[i]? = some slot_default) ∧
      (∀ li st, Event.get_element i li st ∉ added) ∧
      (ir_main_calls log).length = N2 ∧
      (∀ args ∈ ir_main_calls log, args[i]? = some builder_value) ∧
      (∀ li, IREvent.load i li ∉ log) := by
  obtain ⟨D, N1, hN1, hD, hcall⟩ := call_closed_form types main f mask builders hwf fn_in htyped ctx
  obtain ⟨gen, B, N2, hgen, hN2, hB, hir⟩ :=
    build_ir_closed_form types main f mask builders hwf fn_in htyped u
  obtain ⟨hk, hin⟩ := list_index_lt_builders hwf fn_in htyped i [] hi
  have hlk := lengths_of_take_length mask fn_in i htyped
  refine ⟨gen, _, _, _, _, N1, N2,
    [Event.push (StackFrame.iteration none), Event.push (StackFrame.text main.name)] ++
      loop_events main.name ctx.stack (fun j => broadcast j (fun i _ => D i) fn_in 0 0)
        fn_in N1 0 none ++ [Event.pop, Event.pop],
    D i, B ((mask.take i).count true), hN1, hN2, hgen, hcall, hir, hD i hin, hB _ hk, ?_, ?_,
    ?_, ?_, ?_, ?_, ?_⟩
  · simp
  · have := main_calls_call_log ([] : List (Event α)) (StackFrame.iteration none)
      (StackFrame.text main.name) main.name ctx.stack
      (fun j => broadcast j (fun i _ => D i) fn_in 0 0) fn_in N1
    simp only [List.nil_append] at this
    rw [this]
    simp [main_calls]
  · intro args ha
    have := main_calls_call_log ([] : List (Event α)) (StackFrame.iteration none)
      (StackFrame.text main.name) main.name ctx.stack
      (fun j => broadcast j (fun i _ => D i) fn_in 0 0) fn_in N1
    simp only [List.nil_append] at this
    rw [this] at ha
    simp only [main_calls, List.filterMap_nil, List.nil_append, List.mem_map] at ha
    obtain ⟨j, _, rfl⟩ := ha
    rw [broadcast_getElem?_empty j _ fn_in 0 0 i hi]
    simp
  · intro li st hmem
    simp only [List.mem_append, List.mem_cons, List.mem_singleton, List.not_mem_nil,
      or_false] at hmem
    rcases hmem with (hmem | hmem) | hmem
    · rcases hmem with hmem | hmem <;> simp at hmem
    · obtain ⟨it, xs, _, _, h3, h4, _⟩ :=
        get_element_mem_loop_events main.name ctx.stack _ fn_in i li st N1 0 none hmem
      rw [hi] at h3
      simp only [Option.some.injEq, Value.list.injEq] at h3
      subst h3
      simp at h4
    · rcases hmem with hmem | hmem <;> simp at hmem
  · rw [ir_main_calls_build_log]
    simp
  · intro args ha
    rw [ir_main_calls_build_log] at ha
    simp only [List.mem_map] at ha
    obtain ⟨j, _, rfl⟩ := ha
    rw [broadcast_getElem?_empty j _ fn_in 0 0 i hi, hlk]
    simp
  · intro li hmem
    simp only [List.mem_append, List.mem_map] at hmem
    rcases hmem with (hmem | hmem) | hmem
    · obtain ⟨o, _, ho⟩ := hmem
      simp at ho
    · obtain ⟨it, xs, _, _, h3, h4, _⟩ :=
        load_mem_gen_loop_events main.output_amount _ fn_in i li N2 0 hmem
      rw [hi] at h3
      simp only [Option.some.injEq, Value.list.injEq] at h3
      subst h3
      simp at h4
    · obtain ⟨o, _, ho⟩ := hmem
      simp at ho

end



theorem long_list_length : long_list.length = 2 ^ 31 := List.length_replicate _ _

theorem long_list_head : long_list[0]? = some 0 := by
  unfold long_list
  rw [List.getElem?_replicate, if_pos (by decide)]

theorem lengths_of_long_and_short : lengths_of long_and_short = [2 ^ 31, 1] := by
  simp only [long_and_short, lengths_of, long_list_length, List.length_singleton]

theorem well_formed_add_two_lists :
    WellFormed number_types add_fn add_values [true, true] [constant_fn 0, constant_fn 0] :=
  binary_fn_well_formed "add" (fun a b => a + b) [true, true] [0, 0] rfl rfl rfl

/-- The two backends on list inputs of lengths `2 ^ 31` and `1`: the unsigned maximum is
`2 ^ 31` and the interpreted backend yields an output list of that length; the signed
maximum is `1` and the compiled backend yields an output list of one element. -/
theorem long_and_short_runs :
    AutoVectorization.max_element (lengths_of long_and_short) = some (2 ^ 31) ∧
    CreateSIntMax (lengths_of long_and_short) = some 1 ∧
    (∃ gen log,
      AutoVectorizationGen.new number_types add_fn [true, true]
        [constant_fn 0, constant_fn 0] = some gen ∧
      gen.build_ir long_and_short 0 = some ([Value.list [5]], log)) ∧
    (∃ ys ctx1,
      (AutoVectorization.new add_fn [true, true]).call number_types long_and_short ctx0 =
        (Result.ok [Value.list ys], ctx1) ∧ ys.length = 2 ^ 31) := by
  have htyped : well_typed [true, true] long_and_short = true := rfl
  have hmax : AutoVectorization.max_element (lengths_of long_and_short) = some (2 ^ 31) := by
    rw [lengths_of_long_and_short]; decide
  have hsmax : CreateSIntMax (lengths_of long_and_short) = some 1 := by
    rw [lengths_of_long_and_short]; decide
  refine ⟨hmax, hsmax, ?_, ?_⟩
  · obtain ⟨gen, B, N, hgen, hN, _, hir⟩ :=
      build_ir_closed_form number_types add_fn add_values [true, true]
        [constant_fn 0, constant_fn 0] well_formed_add_two_lists long_and_short htyped 0
    rw [hsmax] at hN
    have hN1 : N = 1 := (Option.some.inj hN).symm
    subst hN1
    have hrow : rows_of add_values (fun j => broadcast j (fun _ k => B k) long_and_short 0 0) 1 =
        [[5]] := by
      have hr1 : List.range 1 = [0] := rfl
      simp only [rows_of, hr1, broadcast, long_and_short, add_values, List.map_cons,
        List.map_nil, long_list_length, Nat.zero_mod, List.getD_eq_getElem?_getD, long_list_head,
        List.length_singleton]
      simp
    have hm : Function.output_amount add_fn = 1 := rfl
    rw [hrow, hm] at hir
    have hcols : List.map Value.list (columns 1 [[(5 : Int)]]) = [Value.list [5]] := by decide
    rw [hcols] at hir
    exact ⟨gen, _, hgen, hir⟩
  · obtain ⟨D, N, hN, _, hcall⟩ :=
      call_closed_form number_types add_fn add_values [true, true]
        [constant_fn 0, constant_fn 0] well_formed_add_two_lists long_and_short htyped ctx0
    rw [hmax] at hN
    have hN1 : N = 2 ^ 31 := (Option.some.inj hN).symm
    subst hN1
    have hm : Function.output_amount add_fn = 1 := rfl
    rw [hm] at hcall
    have hcols : ∀ rows : List (List Int),
        List.map Value.list (columns 1 rows) = [Value.list (column rows 0)] := by
      intro rows
      have hr1 : List.range 1 = [0] := rfl
      simp only [columns, hr1, List.map_cons, List.map_nil]
    rw [hcols] at hcall
    exact ⟨_, _, hcall, column_rows_of_length _ _ _ 0 (fun a => by simp [add_values])⟩


section
variable {τ α ε : Type}

/-- Every output list has the length of the maximum its backend computed: the unsigned
`max_element` in the interpreted backend, the signed `CreateSIntMax` in the compiled one;
where every list input is shorter than `2 ^ 31` the two maxima are the same number, the
greatest of the lengths. -/
theorem output_lengths (types : TypeSystem τ α) (main : SharedFunction τ α ε)
    (f : List α → List α) (mask : List Bool) (builders : List (SharedFunction τ α ε))
    (hwf : WellFormed types main f mask builders) (fn_in : List (Value α))
    (htyped : well_typed mask fn_in = true) (ctx : ExecutionContext α) (u : α) :
    ∃ (gen : AutoVectorizationGen τ α ε) (outs1 outs2 : List (Value α))
      (ctx1 : ExecutionContext α) (log : List (IREvent α)) (N1 N2 : Nat),
      AutoVectorization.max_element (lengths_of fn_in) = some N1 ∧
      CreateSIntMax (lengths_of fn_in) = some N2 ∧
      N1 ∈ lengths_of fn_in ∧ (∀ n ∈ lengths_of fn_in, n ≤ N1) ∧
      ((∀ n ∈ lengths_of fn_in, n < 2 ^ 31) → N2 = N1) ∧
      AutoVectorizationGen.new types main mask builders = some gen ∧
      (AutoVectorization.new main mask).call types fn_in ctx = (Result.ok outs1, ctx1) ∧
      gen.build_ir fn_in u = some (outs2, log) ∧
      outs1.length = main.output_amount ∧ outs2.length = main.output_amount ∧
      (∀ k, k < main.output_amount → ∃ ys, outs1[k]? = some (Value.list ys) ∧ ys.length = N1) ∧
      (∀ k, k < main.output_amount → ∃ ys, outs2[k]? = some (Value.list ys) ∧ ys.length = N2) := by
  obtain ⟨D, N1, hN1, hD, hcall⟩ := call_closed_form types main f mask builders hwf fn_in htyped ctx
  obtain ⟨gen, B, N2, hgen, hN2, hB, hir⟩ :=
    build_ir_closed_form types main f mask builders hwf fn_in htyped u
  obtain ⟨hmem, hle⟩ := max_element_spec _ _ hN1
  refine ⟨gen, _, _, _, _, N1, N2, hN1, hN2, hmem, hle, ?_, hgen, hcall, hir, by simp [columns],
    by simp [columns], ?_, ?_⟩
  · intro hlt
    rw [CreateSIntMax_of_lt _ hlt, hN1] at hN2
    exact (Option.some.inj hN2).symm
  · intro k hk
    have hfk : ∀ a, k < (f a).length := fun a => by rw [hwf.outputs a]; exact hk
    exact ⟨column (rows_of f (fun j => broadcast j (fun i _ => D i) fn_in 0 0) N1) k,
      by simp [columns, List.getElem?_range hk], column_rows_of_length f _ N1 k hfk⟩
  · intro k hk
    have hfk : ∀ a, k < (f a).length := fun a => by rw [hwf.outputs a]; exact hk
    exact ⟨column (rows_of f (fun j => broadcast j (fun _ k => B k) fn_in 0 0) N2) k,
      by simp [columns, List.getElem?_range hk], column_rows_of_length f _ N2 k hfk⟩

/-- Where every list input is shorter than `2 ^ 31` and, for every empty list input, the
builder generates the value of the slot's default construction, the two backends yield the
same outputs. -/
theorem backends_agree (types : TypeSystem τ α) (main : SharedFunction τ α ε)
    (f : List α → List α) (mask : List Bool) (builders : List (SharedFunction τ α ε))
    (hwf : WellFormed types main f mask builders) (fn_in : List (Value α))
    (htyped : well_typed mask fn_in = true)
    (hshort : ∀ n ∈ lengths_of fn_in, n < 2 ^ 31)
    (hdefault : ∀ (i : Nat), fn_in[i]? = some (Value.list []) →
      builders[(mask.take i).count true]?.bind default_value_of =
        init_default types main.signature.inputs i)
    (ctx : ExecutionContext α) (u : α) :
    ∃ (gen : AutoVectorizationGen τ α ε) (outs : List (Value α)) (ctx1 : ExecutionContext α)
      (log : List (IREvent α)),
      AutoVectorizationGen.new types main mask builders = some gen ∧
      (AutoVectorization.new main mask).call types fn_in ctx = (Result.ok outs, ctx1) ∧
      gen.build_ir fn_in u = some (outs, log) := by
  obtain ⟨D, N1, hN1, hD, hcall⟩ := call_closed_form types main f mask builders hwf fn_in htyped ctx
  obtain ⟨gen, B, N2, hgen, hN2, hB, hir⟩ :=
    build_ir_closed_form types main f mask builders hwf fn_in htyped u
  rw [CreateSIntMax_of_lt _ hshort, hN1] at hN2
  have hN : N2 = N1 := (Option.some.inj hN2).symm
  subst hN
  have hargs : ∀ j, broadcast j (fun _ k => B k) fn_in 0 0 =
      broadcast j (fun i _ => D i) fn_in 0 0 := by
    intro j
    apply broadcast_congr
    intro p hp
    obtain ⟨hk, hin⟩ := list_index_lt_builders hwf fn_in htyped p [] hp
    have h1 := hB _ hk
    have h2 := hD p hin
    have h3 := hdefault p hp
    rw [h1, h2] at h3
    rw [lengths_of_take_length mask fn_in p htyped]
    simpa using Option.some.inj h3
  have hrows : rows_of f (fun j => broadcast j (fun _ k => B k) fn_in 0 0) N2 =
      rows_of f (fun j => broadcast j (fun i _ => D i) fn_in 0 0) N2 := by
    simp only [rows_of, hargs]
  rw [hrows] at hir
  exact ⟨gen, _, _, _, hgen, hcall, hir⟩

end

/-- C3 (failing input): with two list inputs of lengths `2 ^ 31` and `1` the maximum of the
list-input lengths is `2 ^ 31`, yet the output list of the compiled backend has length `1`,
the value of `CreateSIntMax`. -/
theorem compiled_output_length_is_signed_maximum :
    AutoVectorization.max_element (lengths_of long_and_short) = some (2 ^ 31) ∧
    ∃ gen ys log,
      AutoVectorizationGen.new number_types add_fn [true, true]
        [constant_fn 0, constant_fn 0] = some gen ∧
      gen.build_ir long_and_short 0 = some ([Value.list ys], log) ∧ ys.length = 1 := by
  obtain ⟨h1, _, ⟨gen, log, hgen, hir⟩, _⟩ := long_and_short_runs
  exact ⟨h1, gen, [5], log, hgen, hir, rfl⟩

/-- C8 (failing input): with two non-empty list inputs of lengths `2 ^ 31` and `1` the
outputs of the interpreted backend and of the compiled backend differ: a list of `2 ^ 31`
elements against a list of one element. -/
theorem backends_differ_on_long_list :
    (∀ v ∈ long_and_short, v ≠ Value.list []) ∧
    ∃ gen outs1 outs2 ctx1 log,
      AutoVectorizationGen.new number_types add_fn [true, true]
        [constant_fn 0, constant_fn 0] = some gen ∧
      (AutoVectorization.new add_fn [true, true]).call number_types long_and_short ctx0 =
        (Result.ok outs1, ctx1) ∧
      gen.build_ir long_and_short 0 = some (outs2, log) ∧ outs1 ≠ outs2 := by
  obtain ⟨_, _, ⟨gen, log, hgen, hir⟩, ⟨ys, ctx1, hcall, hlen⟩⟩ := long_and_short_runs
  constructor
  · intro v hv hnil
    subst hnil
    simp only [long_and_short, List.mem_cons, Value.list.injEq, List.mem_singleton,
      List.not_mem_nil, or_false] at hv
    rcases hv with hv | hv
    · have := congrArg List.length hv
      rw [long_list_length] at this
      simp at this
    · simp at hv
  · refine ⟨gen, _, _, ctx1, log, hgen, hcall, hir, ?_⟩
    intro heq
    simp only [List.cons.injEq, Value.list.injEq, and_true] at heq
    rw [heq] at hlen
    simp at hlen



/-! ## Construction -/

section
variable {τ α ε : Type}

theorem derive_signature (fn : SharedFunction τ α ε) :
    (derive_TupleCallBody_from_LLVMBuildIRBody fn).signature = fn.signature ∧
      (derive_TupleCallBody_from_LLVMBuildIRBody fn).name = fn.name ∧
      (derive_TupleCallBody_from_LLVMBuildIRBody fn).llvm_build_ir_body =
        fn.llvm_build_ir_body := by
  unfold derive_TupleCallBody_from_LLVMBuildIRBody
  split <;> simp [*]

theorem input_info_from_isSome (types : TypeSystem τ α) (mask : List Bool) :
    ∀ (params : List (Parameter τ)) (i : Nat), i + params.length ≤ mask.length →
      ∃ infos, AutoVectorizationGen.input_info_from (α := α) types mask params i = some infos
  | [], _, _ => ⟨[], rfl⟩
  | p :: params, i, hi => by
    have hi1 : i < mask.length := by simp at hi; omega
    obtain ⟨infos, h⟩ := input_info_from_isSome types mask params (i + 1) (by simp at hi; omega)
    simp [AutoVectorizationGen.input_info_from, List.getElem?_eq_getElem hi1, h]

/-- The inputs of the new signature: the list type and the suffixed name where the mask
is true, the original parameter where it is false. -/
theorem vectorized_inputs_from_spec (types : TypeSystem τ α) (mask : List Bool) :
    ∀ (params : List (Parameter τ)) (i : Nat), i + params.length ≤ mask.length →
      ∃ inputs, vectorized_inputs_from types mask params i = some inputs ∧
        inputs.length = params.length ∧
        ∀ (q : Nat) (p : Parameter τ), params[q]? = some p →
          (mask[i + q]? = some true →
            inputs[q]? = some { name := p.name ++ " (List)", type := types.get_list_type p.type }) ∧
          (mask[i + q]? = some false → inputs[q]? = some p)
  | [], _, _ => ⟨[], rfl, rfl, by simp⟩
  | p0 :: params, i, hi => by
    have hi1 : i < mask.length := by simp at hi; omega
    obtain ⟨inputs, h, hlen, hspec⟩ :=
      vectorized_inputs_from_spec types mask params (i + 1) (by simp at hi; omega)
    have hstep : ∀ (x : Parameter τ) (q : Nat) (p : Parameter τ),
        (mask[i]? = some true →
          x = { name := p0.name ++ " (List)", type := types.get_list_type p0.type }) →
        (mask[i]? = some false → x = p0) →
        (p0 :: params)[q]? = some p →
        (mask[i + q]? = some true → (x :: inputs)[q]? =
          some { name := p.name ++ " (List)", type := types.get_list_type p.type }) ∧
        (mask[i + q]? = some false → (x :: inputs)[q]? = some p) := by
      intro x q p hx1 hx2 hq
      cases q with
      | zero =>
        simp only [List.getElem?_cons_zero, Option.some.injEq] at hq
        subst hq
        exact ⟨fun hm => by simp [hx1 hm], fun hm => by simp [hx2 hm]⟩
      | succ q =>
        simp only [List.getElem?_cons_succ] at hq ⊢
        have := hspec q p hq
        have e : i + (q + 1) = i + 1 + q := by omega
        rw [e]
        exact this
    cases hb : mask[i] with
    | true =>
      refine ⟨{ name := p0.name ++ " (List)", type := types.get_list_type p0.type } :: inputs,
        by simp [vectorized_inputs_from, List.getElem?_eq_getElem hi1, hb, h], by simp [hlen],
        ?_⟩
      intro q p hq
      exact hstep _ q p (fun _ => rfl)
        (fun hm => by simp [List.getElem?_eq_getElem hi1, hb] at hm) hq
    | false =>
      refine ⟨p0 :: inputs,
        by simp [vectorized_inputs_from, List.getElem?_eq_getElem hi1, hb, h], by simp [hlen],
        ?_⟩
      intro q p hq
      exact hstep _ q p (fun hm => by simp [List.getElem?_eq_getElem hi1, hb] at hm)
        (fun _ => rfl) hq

/-- Under its preconditions `to_vectorized_function` returns the original function, with a
derived tuple-call body when it had none, and a new function that carries the
`AutoVectorizationGen` body and no tuple-call body. -/
theorem to_vectorized_function_some (types : TypeSystem τ α) (original_fn : SharedFunction τ α ε)
    (mask : List Bool) (builders : List (SharedFunction τ α ε))
    (h1 : mask.length = original_fn.input_amount) (h2 : mask.contains true = true)
    (h3 : builders.length = mask.count true)
    (h4 : original_fn.tuple_call_body.isSome = true ∨
      original_fn.llvm_build_ir_body.isSome = true) :
    ∃ inputs gen,
      vectorized_inputs_from types mask original_fn.signature.inputs 0 = some inputs ∧
      AutoVectorizationGen.new types
        (if original_fn.tuple_call_body.isNone then
          derive_TupleCallBody_from_LLVMBuildIRBody original_fn else original_fn)
        mask builders = some gen ∧
      to_vectorized_function types original_fn mask builders =
        some (if original_fn.tuple_call_body.isNone then
            derive_TupleCallBody_from_LLVMBuildIRBody original_fn else original_fn,
          { name := original_fn.name ++ " (Vectorized)"
            signature :=
              { inputs := inputs
                outputs := vectorized_outputs types original_fn.signature.outputs }
            tuple_call_body := none
            llvm_build_ir_body := some gen }) := by
  have hlen : 0 + original_fn.signature.inputs.length ≤ mask.length := by
    simp only [Function.input_amount] at h1
    omega
  obtain ⟨inputs, hin, -, -⟩ :=
    vectorized_inputs_from_spec types mask original_fn.signature.inputs 0 hlen
  obtain ⟨infos, hinfo⟩ := input_info_from_isSome (α := α) types mask
    original_fn.signature.inputs 0 hlen
  obtain ⟨hs, hn, -⟩ := derive_signature original_fn
  have hnew : ∀ main : SharedFunction τ α ε, main.signature = original_fn.signature →
      ∃ gen, AutoVectorizationGen.new types main mask builders = some gen := by
    intro main hm
    simp only [AutoVectorizationGen.new, BLI_assert, h2, if_true, hm, hinfo, Option.some.injEq,
      exists_eq']
  by_cases ht : original_fn.tuple_call_body.isNone = true
  · have hl : original_fn.llvm_build_ir_body.isSome = true := by
      rcases h4 with h4 | h4
      · rw [Option.isNone_iff_eq_none] at ht
        simp [ht] at h4
      · exact h4
    obtain ⟨gen, hgen⟩ := hnew (derive_TupleCallBody_from_LLVMBuildIRBody original_fn) hs
    refine ⟨inputs, gen, hin, ?_, ?_⟩
    · simp only [ht, if_true, hgen]
    · simp only [to_vectorized_function, BLI_assert, h1, h2, h3, ht, hl, decide_True, if_true,
        hs, hin, hn, hgen]
  · obtain ⟨gen, hgen⟩ := hnew original_fn rfl
    have ht1 : original_fn.tuple_call_body.isNone = false := Bool.eq_false_iff.mpr ht
    refine ⟨inputs, gen, hin, ?_, ?_⟩
    · simp only [ht1, Bool.false_eq_true, if_false, hgen]
    · simp only [to_vectorized_function, BLI_assert, h1, h2, h3, ht1, Bool.false_eq_true,
        decide_True, if_true, if_false, hin, hgen]

/-- C5: the function returned by `to_vectorized_function` has as many inputs and outputs
as the original function, in the same order; input `i` has the list type of the original
input's type and its name suffixed with " (List)" where the mask is true, and is the
original input where the mask is false; every output has the list type of the original
output's type and its name suffixed with " (List)". -/
theorem vectorized_signature (types : TypeSystem τ α) (original_fn : SharedFunction τ α ε)
    (mask : List Bool) (builders : List (SharedFunction τ α ε))
    (h1 : mask.length = original_fn.input_amount) (h2 : mask.contains true = true)
    (h3 : builders.length = mask.count true)
    (h4 : original_fn.tuple_call_body.isSome = true ∨
      original_fn.llvm_build_ir_body.isSome = true) :
    ∃ original_fn1 fn,
      to_vectorized_function types original_fn mask builders = some (original_fn1, fn) ∧
      fn.input_amount = original_fn.input_amount ∧
      fn.output_amount = original_fn.output_amount ∧
      (∀ (i : Nat) (p : Parameter τ), original_fn.signature.inputs[i]? = some p →
        (mask[i]? = some true → fn.signature.inputs[i]? =
          some { name := p.name ++ " (List)", type := types.get_list_type p.type }) ∧
        (mask[i]? = some false → fn.signature.inputs[i]? = some p)) ∧
      (∀ (k : Nat) (p : Parameter τ), original_fn.signature.outputs[k]? = some p →
        fn.signature.outputs[k]? =
          some { name := p.name ++ " (List)", type := types.get_list_type p.type }) := by
  obtain ⟨inputs, gen, hin, -, hfn⟩ :=
    to_vectorized_function_some types original_fn mask builders h1 h2 h3 h4
  have hlen : 0 + original_fn.signature.inputs.length ≤ mask.length := by
    simp only [Function.input_amount] at h1
    omega
  obtain ⟨inputs1, hin1, hl, hspec⟩ :=
    vectorized_inputs_from_spec types mask original_fn.signature.inputs 0 hlen
  rw [hin] at hin1
  have hi := Option.some.inj hin1
  subst hi
  refine ⟨_, _, hfn, hl, by simp [Function.output_amount, vectorized_outputs], ?_, ?_⟩
  · intro i p hp
    simpa using hspec i p hp
  · intro k p hp
    simp [vectorized_outputs, hp]

/-- C6: `to_vectorized_function` returns no function when the mask's length differs from
the input count, when the mask has no true entry, when the number of builders differs
from the number of true mask entries, or when the original function has neither a
tuple-call body nor a code-generation body. -/
theorem to_vectorized_function_fails (types : TypeSystem τ α)
    (original_fn : SharedFunction τ α ε) (mask : List Bool)
    (builders : List (SharedFunction τ α ε))
    (h : mask.length ≠ original_fn.input_amount ∨ mask.contains true = false ∨
      builders.length ≠ mask.count true ∨
      (original_fn.tuple_call_body.isNone = true ∧
        original_fn.llvm_build_ir_body.isNone = true)) :
    to_vectorized_function types original_fn mask builders = none := by
  have hassert : ∀ (c : Bool) (x : Unit), BLI_assert c = some x → c = true := by
    intro c x hc
    cases c
    · simp [BLI_assert] at hc
    · rfl
  unfold to_vectorized_function
  dsimp only
  split
  · next _ _ _ e1 e2 e3 =>
    have f1 := of_decide_eq_true (hassert _ _ e1)
    have f2 := hassert _ _ e2
    have f3 := of_decide_eq_true (hassert _ _ e3)
    rcases h with h | h | h | ⟨ht, hl⟩
    · exact absurd f1 h
    · rw [f2] at h
      exact Bool.noConfusion h
    · exact absurd f3 h
    · have hl1 : original_fn.llvm_build_ir_body.isSome = false := by
        rw [Option.isNone_iff_eq_none] at hl
        simp [hl]
      simp [ht, hl1, BLI_assert]
  · rfl

/-- C7, as amended: the function returned by `to_vectorized_function` carries the compiled
vectorization body, the `AutoVectorizationGen` constructed from the original function, the
mask and the builders, and no tuple-call body: the interpreted vectorization body is not
attached. -/
theorem vectorized_function_bodies (types : TypeSystem τ α) (original_fn : SharedFunction τ α ε)
    (mask : List Bool) (builders : List (SharedFunction τ α ε))
    (h1 : mask.length = original_fn.input_amount) (h2 : mask.contains true = true)
    (h3 : builders.length = mask.count true)
    (h4 : original_fn.tuple_call_body.isSome = true ∨
      original_fn.llvm_build_ir_body.isSome = true) :
    ∃ original_fn1 fn gen,
      to_vectorized_function types original_fn mask builders = some (original_fn1, fn) ∧
      AutoVectorizationGen.new types original_fn1 mask builders = some gen ∧
      fn.llvm_build_ir_body = some gen ∧ fn.tuple_call_body.isNone = true := by
  obtain ⟨inputs, gen, -, hgen, hfn⟩ :=
    to_vectorized_function_some types original_fn mask builders h1 h2 h3 h4
  exact ⟨_, _, gen, hfn, hgen, rfl, rfl⟩

end



/-- Counterexample to C4 as stated: with builders generating 7 and 8 and an empty first list
input, the interpreted backend hands the original function 0, the default construction of
the slot, at both iterations, not the 7 of that input's builder, which the compiled backend
hands over. -/
theorem interpreted_backend_ignores_builder :
    default_value_of (constant_fn 7) = some 7 ∧
    main_calls ((AutoVectorization.new add_fn [true, true]).call number_types
      [Value.list [], Value.list [10, 20]] ctx0).2.log = [[0, 10], [0, 20]] ∧
    (((AutoVectorizationGen.new number_types add_fn [true, true]
      [constant_fn 7, constant_fn 8]).bind
        (fun gen => gen.build_ir [Value.list [], Value.list [10, 20]] 0)).map
          (fun r => ir_main_calls r.2)) = some [[7, 10], [7, 20]] := by
  decide

/-- Witness: `empty_list_default` at an empty first list and a second list of length 2, with
builders generating 7 and 8: the compiled backend hands over 7, the interpreted one 0. -/
theorem empty_list_default_witness :
    WellFormed number_types add_fn add_values [true, true] [constant_fn 7, constant_fn 8] ∧
    well_typed [true, true] [Value.list [], Value.list [10, (20 : Int)]] = true ∧
    ∃ gen log added,
      AutoVectorizationGen.new number_types add_fn [true, true]
        [constant_fn 7, constant_fn 8] = some gen ∧
      (gen.build_ir [Value.list [], Value.list [10, 20]] 0).map Prod.snd = some log ∧
      ((AutoVectorization.new add_fn [true, true]).call number_types
        [Value.list [], Value.list [10, 20]] ctx0).2.log = ctx0.log ++ added ∧
      (main_calls added).length = 2 ∧
      (∀ args ∈ main_calls added, args[0]? = some 0) ∧
      (∀ args ∈ ir_main_calls log, args[0]? = some 7) ∧
      (∀ li st, Event.get_element 0 li st ∉ added) ∧ (∀ li, IREvent.load 0 li ∉ log) := by
  have hwf : WellFormed number_types add_fn add_values [true, true]
      [constant_fn 7, constant_fn 8] :=
    binary_fn_well_formed "add" (fun a b => a + b) [true, true] [7, 8] rfl rfl rfl
  refine ⟨hwf, by decide, ?_⟩
  obtain ⟨gen, outs1, outs2, ctx1, log, N1, N2, added, d, b, hN1, -, hgen, hcall, hir, hd, hb,
      hlog, hlen, hargs, hget, -, hirargs, hload⟩ :=
    empty_list_default number_types add_fn add_values [true, true]
      [constant_fn 7, constant_fn 8] hwf [Value.list [], Value.list [10, 20]] (by decide) 0
      (by simp) ctx0 0
  have hd0 : d = 0 := by
    have : init_default number_types add_fn.signature.inputs 0 = some 0 := by decide
    rw [this] at hd
    exact (Option.some.inj hd).symm
  have hb7 : b = 7 := by
    have : ([constant_fn 7, constant_fn 8][(List.take 0 [true, true]).count true]?).bind
        default_value_of = some 7 := by decide
    rw [this] at hb
    exact (Option.some.inj hb).symm
  have hN : N1 = 2 := by
    have : AutoVectorization.max_element
        (lengths_of [Value.list [], Value.list [10, (20 : Int)]]) = some 2 := by decide
    rw [this] at hN1
    exact (Option.some.inj hN1).symm
  subst hd0 hb7 hN
  exact ⟨gen, log, added, hgen, by rw [hir]; rfl, by rw [hcall]; exact hlog, hlen, hargs,
    hirargs, hget, hload⟩

/-- Witness: `vectorized_signature` at `add` with its first input marked as a list. -/
theorem vectorized_signature_witness :
    ([true, false].length = add_fn.input_amount ∧ [true, false].contains true = true ∧
      [constant_fn 0].length = [true, false].count true ∧
      (add_fn.tuple_call_body.isSome = true ∨ add_fn.llvm_build_ir_body.isSome = true)) ∧
    ∃ original_fn1 fn,
      to_vectorized_function number_types add_fn [true, false] [constant_fn 0] =
        some (original_fn1, fn) ∧
      fn.input_amount = 2 ∧ fn.output_amount = 1 ∧
      fn.signature.inputs[0]? = some { name := "a (List)", type := "number List" } ∧
      fn.signature.inputs[1]? = some { name := "b", type := "number" } ∧
      fn.signature.outputs[0]? = some { name := "result (List)", type := "number List" } := by
  refine ⟨⟨rfl, rfl, rfl, Or.inl rfl⟩, ?_⟩
  obtain ⟨original_fn1, fn, hfn, hin, hout, hinputs, houtputs⟩ :=
    vectorized_signature number_types add_fn [true, false] [constant_fn 0] rfl rfl rfl
      (Or.inl rfl)
  exact ⟨original_fn1, fn, hfn, hin, hout,
    (hinputs 0 { name := "a", type := "number" } rfl).1 rfl,
    (hinputs 1 { name := "b", type := "number" } rfl).2 rfl,
    houtputs 0 { name := "result", type := "number" } rfl⟩

/-- Witness: `to_vectorized_function_fails` at one input for each of the four violations. -/
theorem to_vectorized_function_fails_witness :
    to_vectorized_function number_types add_fn [true] [constant_fn 0] = none ∧
    to_vectorized_function number_types add_fn [false, false] [] = none ∧
    to_vectorized_function number_types add_fn [true, false] [] = none ∧
    to_vectorized_function number_types bodiless_fn [true] [constant_fn 0] = none :=
  ⟨to_vectorized_function_fails number_types add_fn [true] [constant_fn 0] (Or.inl (by decide)),
    to_vectorized_function_fails number_types add_fn [false, false] [] (Or.inr (Or.inl rfl)),
    to_vectorized_function_fails number_types add_fn [true, false] []
      (Or.inr (Or.inr (Or.inl (by decide)))),
    to_vectorized_function_fails number_types bodiless_fn [true] [constant_fn 0]
      (Or.inr (Or.inr (Or.inr ⟨rfl, rfl⟩)))⟩

/-- Counterexample to C7 as stated: the function `to_vectorized_function` returns for `add` with its
first input marked as a list has a code-generation body and no tuple-call body. -/
theorem vectorized_add_has_no_tuple_call_body :
    (to_vectorized_function number_types add_fn [true, false] [constant_fn 0]).map
      (fun r => (r.2.tuple_call_body.isSome, r.2.llvm_build_ir_body.isSome)) =
        some (false, true) := by
  decide

/-- Witness: `vectorized_function_bodies` at `add` with its first input marked as a list. -/
theorem vectorized_function_bodies_witness :
    ([true, false].length = add_fn.input_amount ∧ [true, false].contains true = true ∧
      [constant_fn 0].length = [true, false].count true ∧
      (add_fn.tuple_call_body.isSome = true ∨ add_fn.llvm_build_ir_body.isSome = true)) ∧
    ∃ original_fn1 fn gen,
      to_vectorized_function number_types add_fn [true, false] [constant_fn 0] =
        some (original_fn1, fn) ∧
      AutoVectorizationGen.new number_types original_fn1 [true, false] [constant_fn 0] =
        some gen ∧
      fn.llvm_build_ir_body = some gen ∧ fn.tuple_call_body.isNone = true :=
  ⟨⟨rfl, rfl, rfl, Or.inl rfl⟩,
    vectorized_function_bodies number_types add_fn [true, false] [constant_fn 0] rfl rfl rfl
      (Or.inl rfl)⟩

/-- C9 (failing input): the body fails at iteration 1, on the element `2`. The failure
reaches the caller. The log holds the two pushes, the two iterations and no pop: its last
entry is the failed call of the body, which ran with the name frame and the iteration
frame holding 1 on the caller's stack. After the call the stack is not the caller's: the
two entries are still on top of it, and the frames they point to, locals of `call`, are
gone. -/
theorem failed_call_leaves_two_frames :
    ((AutoVectorization.new failing_fn [true]).call number_types [Value.list [1, 2, 3]]
      ctx_caller).1 = Result.failed (Failure.main "failed") ∧
    ((AutoVectorization.new failing_fn [true]).call number_types [Value.list [1, 2, 3]]
      ctx_caller).2.log =
        [Event.push (StackFrame.iteration none), Event.push (StackFrame.text "checked"),
          Event.get_element 0 0
            [StackFrame.text "checked", StackFrame.iteration none, StackFrame.text "caller"],
          Event.main_call [1]
            [StackFrame.text "checked", StackFrame.iteration (some 0),
              StackFrame.text "caller"],
          Event.get_element 0 1
            [StackFrame.text "checked", StackFrame.iteration (some 0),
              StackFrame.text "caller"],
          Event.main_call [2]
            [StackFrame.text "checked", StackFrame.iteration (some 1),
              StackFrame.text "caller"]] ∧
    ((AutoVectorization.new failing_fn [true]).call number_types [Value.list [1, 2, 3]]
      ctx_caller).2.stack =
        [StackFrame.dangling, StackFrame.dangling, StackFrame.text "caller"] ∧
    ((AutoVectorization.new failing_fn [true]).call number_types [Value.list [1, 2, 3]]
      ctx_caller).2.stack ≠ ctx_caller.stack := by
  decide

namespace AutoVectorization

/-- Whenever a call of the body of the original function made by `AutoVectorization::call`
fails, the failure reaches the caller as it is and the pops are not reached: the call of
the body that failed is the last entry of the log and ran on the stack before the call
with the iteration frame, holding the iteration of the failure, and the function-name
frame on top of it; the log holds the two pushes and no pop, and the stack after the call
still has the two entries on top of the caller's, whose frames are gone. -/
theorem call_failure_leaves_frames (types : TypeSystem τ α)
    (self : AutoVectorization τ α ε) (fn_in : List (Value α)) (ctx : ExecutionContext α)
    (body : TupleCallBody α ε) (main_in : List α) (st : List StackFrame) (e : ε)
    (hbody : self.m_main_body = some body)
    (hmem : Event.main_call main_in st ∈ (self.call types fn_in ctx).2.log.drop ctx.log.length)
    (hfail : body.call main_in = Except.error e) :
    (self.call types fn_in ctx).1 = Result.failed (Failure.main e) ∧
      (self.call types fn_in ctx).2.log.getLast? = some (Event.main_call main_in st) ∧
      ∃ iteration, st = frames self.m_main.name (some iteration) ctx.stack ∧
        (self.call types fn_in ctx).2.stack =
          StackFrame.dangling :: StackFrame.dangling :: ctx.stack ∧
        stack_ops (self.call types fn_in ctx).2.log =
          stack_ops ctx.log ++
            [Event.push (StackFrame.iteration none),
              Event.push (StackFrame.text self.m_main.name)] := by
  have hres : (self.call types fn_in ctx).1 = Result.failed (Failure.main e) ∧
      (self.call types fn_in ctx).2.log.getLast? = some (Event.main_call main_in st) := by
    rcases call_cases types self fn_in ctx with hc | ⟨body0, lens, n, out0, hb, _, _, _, hc⟩
    · rw [hc] at hmem
      simp at hmem
    · rw [hbody] at hb
      cases hb
      obtain ⟨added, h3, h4⟩ := iterations_failure types self body fn_in lens n 0 out0
        ((ctx.push (StackFrame.iteration none)).push (StackFrame.text self.m_main.name))
      rcases hc with ⟨f, hf, hc⟩ | ⟨out1, hok, hc⟩
      · rw [hc] at hmem ⊢
        simp only [ExecutionContext.destroy_locals] at hmem ⊢
        rw [h3] at hmem ⊢
        simp only [ExecutionContext.push, List.append_assoc, List.drop_left,
          List.mem_append, List.mem_cons, List.mem_singleton, List.not_mem_nil, or_false,
          false_or, List.cons_append, List.nil_append, reduceCtorEq] at hmem
        obtain ⟨h5, h6⟩ := h4 main_in st e hmem hfail
        rw [hf] at h5
        refine ⟨h5, ?_⟩
        rw [List.getLast?_append_of_ne_nil _ (List.ne_nil_of_mem hmem)]
        exact h6
      · rw [hc] at hmem
        simp only [ExecutionContext.pop] at hmem
        rw [h3] at hmem
        simp only [ExecutionContext.push, List.append_assoc, List.drop_left,
          List.mem_append, List.mem_cons, List.mem_singleton, List.not_mem_nil, or_false,
          false_or, List.cons_append, List.nil_append, reduceCtorEq] at hmem
        obtain ⟨h5, _⟩ := h4 main_in st e hmem hfail
        rw [h5] at hok
        simp at hok
  obtain ⟨body1, it, main_in1, _, _, hlast, hst, hops⟩ :=
    call_failed_inv types self fn_in ctx e hres.1
  refine ⟨hres.1, hres.2, it, ?_, hst, hops⟩
  rw [hres.2] at hlast
  simp only [Option.some.injEq, Event.main_call.injEq] at hlast
  exact hlast.2

end AutoVectorization

/-- Witness: `call_failure_leaves_frames` at a body that fails on the second element of the
list. -/
theorem call_failure_leaves_frames_witness :
    ((AutoVectorization.new failing_fn [true]).m_main_body = some failing_fn_body ∧
      Event.main_call [2]
          [StackFrame.text "checked", StackFrame.iteration (some 1), StackFrame.text "caller"] ∈
        ((AutoVectorization.new failing_fn [true]).call number_types [Value.list [1, 2, 3]]
          ctx_caller).2.log.drop ctx_caller.log.length ∧
      failing_fn_body.call [2] = Except.error "failed") ∧
    ((AutoVectorization.new failing_fn [true]).call number_types [Value.list [1, 2, 3]]
        ctx_caller).1 = Result.failed (Failure.main "failed") ∧
      ((AutoVectorization.new failing_fn [true]).call number_types [Value.list [1, 2, 3]]
        ctx_caller).2.log.getLast? =
          some (Event.main_call [2]
            [StackFrame.text "checked", StackFrame.iteration (some 1),
              StackFrame.text "caller"]) ∧
      ∃ iteration,
        [StackFrame.text "checked", StackFrame.iteration (some 1), StackFrame.text "caller"] =
          frames (AutoVectorization.new failing_fn [true]).m_main.name (some iteration)
            ctx_caller.stack ∧
        ((AutoVectorization.new failing_fn [true]).call number_types [Value.list [1, 2, 3]]
          ctx_caller).2.stack =
            StackFrame.dangling :: StackFrame.dangling :: ctx_caller.stack ∧
        stack_ops ((AutoVectorization.new failing_fn [true]).call number_types
          [Value.list [1, 2, 3]] ctx_caller).2.log =
            stack_ops ctx_caller.log ++
              [Event.push (StackFrame.iteration none),
                Event.push
                  (StackFrame.text (AutoVectorization.new failing_fn [true]).m_main.name)] :=
  ⟨⟨rfl, by decide, rfl⟩,
    AutoVectorization.call_failure_leaves_frames number_types
      (AutoVectorization.new failing_fn [true]) [Value.list [1, 2, 3]] ctx_caller
      failing_fn_body [2]
      [StackFrame.text "checked", StackFrame.iteration (some 1), StackFrame.text "caller"]
      "failed" rfl (by decide) rfl⟩

/-- Witness: `call_normal_completion_restores_stack` at an empty list input: the maximum length is
0, the loop does not run, and the two frames are pushed and popped all the same. -/
theorem call_normal_completion_restores_stack_witness :
    ((AutoVectorization.new add_fn [true, false]).call number_types
      [Value.list [], Value.base 10] ctx_caller).1 = Result.ok [Value.list []] ∧
    ((AutoVectorization.new add_fn [true, false]).call number_types
      [Value.list [], Value.base 10] ctx_caller).2.stack = ctx_caller.stack ∧
    stack_ops ((AutoVectorization.new add_fn [true, false]).call number_types
      [Value.list [], Value.base 10] ctx_caller).2.log =
        stack_ops ctx_caller.log ++
          [Event.push (StackFrame.iteration none),
            Event.push (StackFrame.text (AutoVectorization.new add_fn [true, false]).m_main.name),
            Event.pop, Event.pop] :=
  ⟨by decide,
    AutoVectorization.call_normal_completion_restores_stack number_types
      (AutoVectorization.new add_fn [true, false]) [Value.list [], Value.base 10] ctx_caller
      [Value.list []] (by decide)⟩


/-! ## The claims, continued -/

/-! ### The stack at the calls of the body -/

theorem main_call_stacks_append {α : Type} (l1 l2 : List (Event α)) :
    main_call_stacks (l1 ++ l2) = main_call_stacks l1 ++ main_call_stacks l2 := by
  simp [main_call_stacks, List.filterMap_append]

theorem main_call_stacks_of_main_calls_nil {α : Type} :
    ∀ (evs : List (Event α)), main_calls evs = [] → main_call_stacks evs = []
  | [], _ => rfl
  | e :: evs, h => by
    cases e with
    | main_call main_in stack => simp [main_calls, List.filterMap_cons] at h
    | push frame =>
      exact main_call_stacks_of_main_calls_nil evs
        (by simpa [main_calls, List.filterMap_cons] using h)
    | pop =>
      exact main_call_stacks_of_main_calls_nil evs
        (by simpa [main_calls, List.filterMap_cons] using h)
    | init_default index =>
      exact main_call_stacks_of_main_calls_nil evs
        (by simpa [main_calls, List.filterMap_cons] using h)
    | get_element index load_index stack =>
      exact main_call_stacks_of_main_calls_nil evs
        (by simpa [main_calls, List.filterMap_cons] using h)

namespace AutoVectorization
variable {τ α ε : Type}

/-- The calls of the body made by the loop of `call` see, one after the other, the
iteration frame holding the iterations `j`, `j + 1`, ... under the function-name frame. -/
theorem iterations_main_call_stacks (types : TypeSystem τ α) (self : AutoVectorization τ α ε)
    (body : TupleCallBody α ε) (fn_in : List (Value α)) (input_lengths : List Nat)
    (base : List StackFrame) :
    ∀ (n j : Nat) (fn_out : List (Value α)) (ctx : ExecutionContext α) (prev : Option Nat),
      ctx.stack = frames self.m_main.name prev base →
      ∃ m added, m ≤ n ∧
        (self.iterations types body fn_in input_lengths n j fn_out ctx).2.log =
          ctx.log ++ added ∧
        main_call_stacks added =
          (List.range' j m).map (fun it => frames self.m_main.name (some it) base) ∧
        ∀ out, (self.iterations types body fn_in input_lengths n j fn_out ctx).1 =
          Result.ok out → m = n
  | 0, _, _, _, _, _ => ⟨0, [], le_refl _, by simp [iterations], rfl, fun _ _ => rfl⟩
  | n + 1, j, fn_out, ctx, prev, h => by
    obtain ⟨evs, h1, h2⟩ := prepare_main_in_log types self j fn_in input_lengths
      self.m_input_is_list 0 0 [] ctx
    have hq := prepare_main_in_quiet types self j fn_in input_lengths self.m_input_is_list 0 0
      [] ctx
    have h2s := main_call_stacks_of_main_calls_nil evs h2
    unfold iterations
    split
    · next f ctx1 heq =>
      rw [heq] at h1
      exact ⟨0, evs, Nat.zero_le _, h1, by simpa using h2s, by intro out ho; simp at ho⟩
    · next main_in0 ctx1 heq =>
      rw [heq] at h1 hq
      simp only at h1 hq
      have hs : (ctx1.set_iteration j).stack = frames self.m_main.name (some j) base := by
        simp [ExecutionContext.set_iteration, hq.1, h, frames]
      have hone : main_call_stacks (evs ++ [Event.main_call main_in0 (ctx1.set_iteration j).stack])
          = [frames self.m_main.name (some j) base] := by
        rw [main_call_stacks_append, h2s, hs]
        rfl
      dsimp only
      split
      · next e0 hcall =>
        refine ⟨1, evs ++ [Event.main_call main_in0 (ctx1.set_iteration j).stack],
          by omega, ?_, ?_, ?_⟩
        · simp [ExecutionContext.record, ExecutionContext.set_iteration, h1]
        · rw [hone]; rfl
        · intro out ho; simp at ho
      · next main_out hcall =>
        split
        · refine ⟨1, evs ++ [Event.main_call main_in0 (ctx1.set_iteration j).stack],
            by omega, ?_, ?_, ?_⟩
          · simp [ExecutionContext.record, ExecutionContext.set_iteration, h1]
          · rw [hone]; rfl
          · intro out ho; simp at ho
        · next fn_out1 _ =>
          obtain ⟨m, added, hm, h3, h4, h5⟩ := iterations_main_call_stacks types self body fn_in
            input_lengths base n (j + 1) fn_out1
            ((ctx1.set_iteration j).record (Event.main_call main_in0 (ctx1.set_iteration j).stack))
            (some j) (by simp [ExecutionContext.record, hs])
          refine ⟨m + 1, evs ++ [Event.main_call main_in0 (ctx1.set_iteration j).stack] ++ added,
            by omega, ?_, ?_, ?_⟩
          · rw [h3]
            simp [ExecutionContext.record, ExecutionContext.set_iteration, h1]
          · rw [main_call_stacks_append, hone, h4, List.range'_succ]
            rfl
          · intro out ho
            rw [h5 out ho]

/-- C11: whenever `AutoVectorization::call` invokes the body of the original function, the
top frame of the stack is the name frame holding the original function's name, the frame
beneath it is the iteration frame holding exactly the iteration of that invocation, and the
frames beneath are the caller's stack: the stacks recorded at the invocations are those of
the iterations `0`, ..., `m - 1` in this order, where `m` is at most the maximum length and
is the maximum length when the call completes. -/
theorem main_call_sees_accurate_stack (types : TypeSystem τ α)
    (self : AutoVectorization τ α ε) (fn_in : List (Value α)) (ctx : ExecutionContext α)
    (input_lengths : List Nat) (max_length : Nat)
    (hlengths : self.get_input_list_lengths fn_in = some input_lengths)
    (hmax : max_element input_lengths = some max_length) :
    ∃ m, m ≤ max_length ∧
      main_call_stacks ((self.call types fn_in ctx).2.log.drop ctx.log.length) =
        (List.range m).map (fun j =>
          StackFrame.text self.m_main.name :: StackFrame.iteration (some j) :: ctx.stack) ∧
      ∀ fn_out, (self.call types fn_in ctx).1 = Result.ok fn_out → m = max_length := by
  rcases call_cases types self fn_in ctx with hc | ⟨body, lens, N, out0, hb, hl, hN, _, hc⟩
  · refine ⟨0, Nat.zero_le _, ?_, ?_⟩
    · rw [hc]; simp [main_call_stacks]
    · intro fn_out ho
      rw [hc] at ho
      simp at ho
  · rw [hlengths] at hl
    cases hl
    rw [hmax] at hN
    cases hN
    obtain ⟨m, added, hm, h3, h4, h5⟩ := iterations_main_call_stacks types self body fn_in
      input_lengths ctx.stack max_length 0 out0
      ((ctx.push (StackFrame.iteration none)).push (StackFrame.text self.m_main.name)) none
      (by simp [ExecutionContext.push, frames])
    refine ⟨m, hm, ?_, ?_⟩
    · rcases hc with ⟨f, hf, hc⟩ | ⟨out1, hok, hc⟩
      · rw [hc]
        simp only [ExecutionContext.destroy_locals]
        rw [h3]
        simp only [ExecutionContext.push, List.append_assoc, List.drop_left]
        simp only [main_call_stacks_append, h4, List.range_eq_range']
        simp [main_call_stacks, frames]
      · rw [hc]
        simp only [ExecutionContext.pop]
        rw [h3]
        simp only [ExecutionContext.push, List.append_assoc, List.drop_left]
        simp only [main_call_stacks_append, h4, List.range_eq_range']
        simp [main_call_stacks, frames]
    · intro fn_out ho
      rcases hc with ⟨f, hf, hc⟩ | ⟨out1, hok, hc⟩
      · rw [hc] at ho
        simp at ho
      · exact h5 out1 hok

end AutoVectorization

/-- Witness: `main_call_sees_accurate_stack` at `add` with `a = [1, 2, 3]`, `b = 10`: three
invocations, for the iterations 0, 1 and 2. -/
theorem main_call_sees_accurate_stack_witness :
    ((AutoVectorization.new add_fn [true, false]).get_input_list_lengths
        [Value.list [1, 2, 3], Value.base 10] = some [3] ∧
      AutoVectorization.max_element [3] = some 3) ∧
    main_call_stacks (((AutoVectorization.new add_fn [true, false]).call number_types
        [Value.list [1, 2, 3], Value.base 10] ctx_caller).2.log.drop ctx_caller.log.length) =
      [[StackFrame.text "add", StackFrame.iteration (some 0), StackFrame.text "caller"],
        [StackFrame.text "add", StackFrame.iteration (some 1), StackFrame.text "caller"],
        [StackFrame.text "add", StackFrame.iteration (some 2), StackFrame.text "caller"]] ∧
    ∃ m, m ≤ 3 ∧
      main_call_stacks (((AutoVectorization.new add_fn [true, false]).call number_types
          [Value.list [1, 2, 3], Value.base 10] ctx_caller).2.log.drop ctx_caller.log.length) =
        (List.range m).map (fun j =>
          StackFrame.text (AutoVectorization.new add_fn [true, false]).m_main.name ::
            StackFrame.iteration (some j) :: ctx_caller.stack) ∧
      ∀ fn_out, ((AutoVectorization.new add_fn [true, false]).call number_types
          [Value.list [1, 2, 3], Value.base 10] ctx_caller).1 = Result.ok fn_out → m = 3 :=
  ⟨⟨by decide, by decide⟩, by decide,
    AutoVectorization.main_call_sees_accurate_stack number_types
      (AutoVectorization.new add_fn [true, false]) [Value.list [1, 2, 3], Value.base 10]
      ctx_caller [3] 3 (by decide) (by decide)⟩

/-! ### Missing extensions -/

section
variable {τ α ε : Type}

/-- The constructor stores, for every input, what the extension lookups return. -/
theorem input_info_from_extensions (types : TypeSystem τ α) (mask : List Bool) :
    ∀ (params : List (Parameter τ)) (i : Nat) (infos : List (InputInfo α)),
      AutoVectorizationGen.input_info_from types mask params i = some infos →
      infos.map (fun info => info.base_cpp_type) =
          params.map (fun p => types.cpp_type_info p.type) ∧
        infos.map (fun info => info.base_llvm_type) =
          params.map (fun p => types.llvm_type_info p.type) ∧
        infos.map (fun info => info.list_llvm_type) =
          params.map (fun p => types.llvm_type_info (types.get_list_type p.type)) ∧
        ∀ q, q < params.length → (infos[q]?).map (fun info => info.is_list) = mask[i + q]?
  | [], _, infos, h => by
    simp only [AutoVectorizationGen.input_info_from, Option.some.injEq] at h
    subst h
    simp
  | p :: params, i, infos, h => by
    unfold AutoVectorizationGen.input_info_from at h
    split at h
    · simp at h
    · next is_list hm =>
      split at h
      · simp at h
      · next infos1 hrest =>
        simp only [Option.some.injEq] at h
        subst h
        obtain ⟨h1, h2, h3, h4⟩ := input_info_from_extensions types mask params (i + 1) infos1 hrest
        refine ⟨by simp [h1], by simp [h2], by simp [h3], ?_⟩
        intro q hq
        cases q with
        | zero => simp [hm]
        | succ q =>
          have := h4 q (by simpa using hq)
          simp only [List.getElem?_cons_succ]
          rw [this]
          congr 1
          omega

theorem get_input_data_pointers_from_none (inputs : List (Value α)) :
    ∀ (infos : List (InputInfo α)) (i : Nat),
      (∃ info ∈ infos, info.is_list = true ∧ info.base_cpp_type = none) →
      AutoVectorizationGen.get_input_data_pointers_from inputs infos i = none
  | [], _, h => by simp at h
  | info :: infos, i, h => by
    unfold AutoVectorizationGen.get_input_data_pointers_from
    by_cases hl : info.is_list = true
    · rw [if_pos hl]
      cases hc : info.base_cpp_type with
      | none => simp
      | some c =>
        have hrest : ∃ info1 ∈ infos, info1.is_list = true ∧ info1.base_cpp_type = none := by
          obtain ⟨x, hx, h1, h2⟩ := h
          simp only [List.mem_cons] at hx
          rcases hx with rfl | hx
          · rw [hc] at h2; simp at h2
          · exact ⟨x, hx, h1, h2⟩
        have ih := get_input_data_pointers_from_none inputs infos (i + 1) hrest
        cases hv : inputs[i]? with
        | none => simp
        | some v =>
          cases hd : info.get_data_ptr_fn v with
          | none => simp [hd]
          | some d => simp [hd, ih]
    · rw [if_neg hl]
      have hrest : ∃ info1 ∈ infos, info1.is_list = true ∧ info1.base_cpp_type = none := by
        obtain ⟨x, hx, h1, h2⟩ := h
        simp only [List.mem_cons] at hx
        rcases hx with rfl | hx
        · exact absurd h1 hl
        · exact ⟨x, hx, h1, h2⟩
      exact get_input_data_pointers_from_none inputs infos (i + 1) hrest

theorem create_output_lists_from_none (length : Nat) (u : α) :
    ∀ (infos : List (OutputInfo α)) (i : Nat),
      (∃ info ∈ infos, info.base_cpp_type = none) →
      AutoVectorizationGen.create_output_lists_from length u infos i = none
  | [], _, h => by simp at h
  | info :: infos, i, h => by
    unfold AutoVectorizationGen.create_output_lists_from
    cases hc : info.base_cpp_type with
    | none => simp
    | some c =>
      have hrest : ∃ info1 ∈ infos, info1.base_cpp_type = none := by
        obtain ⟨x, hx, h2⟩ := h
        simp only [List.mem_cons] at hx
        rcases hx with rfl | hx
        · rw [hc] at h2; simp at h2
        · exact ⟨x, hx, h2⟩
      simp [create_output_lists_from_none length u infos (i + 1) hrest]

theorem free_input_lists_from_none :
    ∀ (infos : List (InputInfo α)) (i : Nat),
      (∃ info ∈ infos, info.is_list = true ∧ info.list_llvm_type = none) →
      AutoVectorizationGen.free_input_lists_from infos i = none
  | [], _, h => by simp at h
  | info :: infos, i, h => by
    unfold AutoVectorizationGen.free_input_lists_from
    by_cases hl : info.is_list = true
    · rw [if_pos hl]
      cases hc : info.list_llvm_type with
      | none => simp
      | some c =>
        have hrest : ∃ info1 ∈ infos, info1.is_list = true ∧ info1.list_llvm_type = none := by
          obtain ⟨x, hx, h1, h2⟩ := h
          simp only [List.mem_cons] at hx
          rcases hx with rfl | hx
          · rw [hc] at h2; simp at h2
          · exact ⟨x, hx, h1, h2⟩
        simp [free_input_lists_from_none infos (i + 1) hrest]
    · rw [if_neg hl]
      have hrest : ∃ info1 ∈ infos, info1.is_list = true ∧ info1.list_llvm_type = none := by
        obtain ⟨x, hx, h1, h2⟩ := h
        simp only [List.mem_cons] at hx
        rcases hx with rfl | hx
        · exact absurd h1 hl
        · exact ⟨x, hx, h1, h2⟩
      exact free_input_lists_from_none infos (i + 1) hrest

/-- The emitted instructions cannot be built when they dereference a null extension. -/
theorem build_ir_none_of_null (self : AutoVectorizationGen τ α ε) (inputs : List (Value α))
    (u : α)
    (h : (∃ info ∈ self.m_input_info, info.is_list = true ∧ info.base_cpp_type = none) ∨
      (∃ info ∈ self.m_output_info, info.base_cpp_type = none) ∨
      (∃ info ∈ self.m_input_info, info.is_list = true ∧ info.list_llvm_type = none)) :
    self.build_ir inputs u = none := by
  unfold AutoVectorizationGen.build_ir
  split
  · rfl
  · split
    · rfl
    · next max_length _ =>
      rcases h with h | h | h
      · have := get_input_data_pointers_from_none inputs self.m_input_info 0 h
        simp [AutoVectorizationGen.get_input_data_pointers, this]
      · have := create_output_lists_from_none max_length u self.m_output_info 0 h
        simp only [AutoVectorizationGen.create_output_lists, this]
        split <;> simp_all
      · have := free_input_lists_from_none self.m_input_info 0 h
        simp only [AutoVectorizationGen.free_input_lists, this]
        split
        · split
          · rfl
          · split <;> rfl
        · rfl

end

section
variable {τ α ε : Type}

/-- C12, as amended: a missing extension does not stop the construction. Under the
preconditions of `to_vectorized_function` the vectorized function is constructed whatever
extensions the types have, and its `AutoVectorizationGen` body holds for every input and
output exactly what the extension lookups returned, null included. A null extension comes
to light only when `build_ir` dereferences it: the native extension of the base type of a
list-marked input or of an output, the compiled extension of the list type of a
list-marked input. -/
theorem construction_stores_missing_extension (types : TypeSystem τ α)
    (original_fn : SharedFunction τ α ε) (mask : List Bool)
    (builders : List (SharedFunction τ α ε))
    (h1 : mask.length = original_fn.input_amount) (h2 : mask.contains true = true)
    (h3 : builders.length = mask.count true)
    (h4 : original_fn.tuple_call_body.isSome = true ∨
      original_fn.llvm_build_ir_body.isSome = true) :
    ∃ original_fn1 fn gen,
      to_vectorized_function types original_fn mask builders = some (original_fn1, fn) ∧
      fn.llvm_build_ir_body = some gen ∧
      gen.m_input_info.map (fun info => info.base_cpp_type) =
        original_fn.signature.inputs.map (fun p => types.cpp_type_info p.type) ∧
      gen.m_input_info.map (fun info => info.base_llvm_type) =
        original_fn.signature.inputs.map (fun p => types.llvm_type_info p.type) ∧
      gen.m_input_info.map (fun info => info.list_llvm_type) =
        original_fn.signature.inputs.map
          (fun p => types.llvm_type_info (types.get_list_type p.type)) ∧
      gen.m_output_info.map (fun info => info.base_cpp_type) =
        original_fn.signature.outputs.map (fun p => types.cpp_type_info p.type) ∧
      gen.m_output_info.map (fun info => info.base_llvm_type) =
        original_fn.signature.outputs.map (fun p => types.llvm_type_info p.type) ∧
      ∀ (inputs : List (Value α)) (u : α),
        ((∃ (i : Nat) (p : Parameter τ),
            original_fn.signature.inputs[i]? = some p ∧ mask[i]? = some true ∧
            (types.cpp_type_info p.type = none ∨
              types.llvm_type_info (types.get_list_type p.type) = none)) ∨
          (∃ p ∈ original_fn.signature.outputs, types.cpp_type_info p.type = none)) →
        gen.build_ir inputs u = none := by
  obtain ⟨inputs, gen, -, hgen, hfn⟩ :=
    to_vectorized_function_some types original_fn mask builders h1 h2 h3 h4
  have hsig : (if original_fn.tuple_call_body.isNone then
      derive_TupleCallBody_from_LLVMBuildIRBody original_fn else original_fn).signature =
        original_fn.signature := by
    split
    · exact (derive_signature original_fn).1
    · rfl
  simp only [AutoVectorizationGen.new, BLI_assert, h2, if_true, hsig] at hgen
  cases hinfos : AutoVectorizationGen.input_info_from (α := α) types mask
      original_fn.signature.inputs 0 with
  | none => rw [hinfos] at hgen; simp at hgen
  | some infos =>
      rw [hinfos] at hgen
      simp only [Option.some.injEq] at hgen
      obtain ⟨e1, e2, e3, e4⟩ :=
        input_info_from_extensions types mask original_fn.signature.inputs 0 infos hinfos
      have hlen : infos.length = original_fn.signature.inputs.length := by
        have := congrArg List.length e1
        simpa using this
      refine ⟨_, _, gen, hfn, rfl, ?_, ?_, ?_, ?_, ?_, ?_⟩
      · rw [← hgen]; exact e1
      · rw [← hgen]; exact e2
      · rw [← hgen]; exact e3
      · rw [← hgen]; simp [AutoVectorizationGen.output_info]
      · rw [← hgen]; simp [AutoVectorizationGen.output_info]
      · intro ins u h
        apply build_ir_none_of_null
        rw [← hgen]
        rcases h with ⟨i, p, hp, hm, hnone⟩ | ⟨p, hp, hnone⟩
        · have hi : i < original_fn.signature.inputs.length := by
            rcases Nat.lt_or_ge i original_fn.signature.inputs.length with h | h
            · exact h
            · rw [List.getElem?_eq_none h] at hp; simp at hp
          have hil : i < infos.length := by omega
          have his := e4 i hi
          rw [List.getElem?_eq_getElem hil, Nat.zero_add, hm] at his
          simp only [Option.map_some', Option.some.injEq] at his
          have hc : (infos.get ⟨i, hil⟩).base_cpp_type = types.cpp_type_info p.type := by
            have := congrArg (fun l => l[i]?) e1
            simp only [List.getElem?_map, List.getElem?_eq_getElem hil, hp,
              Option.map_some', Option.some.injEq] at this
            exact this
          have hl : (infos.get ⟨i, hil⟩).list_llvm_type =
              types.llvm_type_info (types.get_list_type p.type) := by
            have := congrArg (fun l => l[i]?) e3
            simp only [List.getElem?_map, List.getElem?_eq_getElem hil, hp,
              Option.map_some', Option.some.injEq] at this
            exact this
          rcases hnone with hnone | hnone
          · left
            exact ⟨infos.get ⟨i, hil⟩, List.get_mem _ _ _, his, by rw [hc, hnone]⟩
          · right; right
            exact ⟨infos.get ⟨i, hil⟩, List.get_mem _ _ _, his, by rw [hl, hnone]⟩
        · right; left
          simp only [AutoVectorizationGen.output_info, List.mem_map]
          exact ⟨_, ⟨p, hp, rfl⟩, hnone⟩

end

/-- Counterexample to C12 as stated: the base type `number` of the list-marked input of
`add` has no native extension, and the construction succeeds all the same; the body it
attaches holds the null extension for both inputs and for the output. -/
theorem construction_keeps_null_extension :
    (bare_types.cpp_type_info "number").isSome = false ∧
    (to_vectorized_function bare_types add_fn [true, false] [constant_fn 0]).isSome = true ∧
    ((to_vectorized_function bare_types add_fn [true, false] [constant_fn 0]).bind
        (fun r => r.2.llvm_build_ir_body)).map
      (fun gen => (gen.m_input_info.map (fun info => info.base_cpp_type.isSome),
        gen.m_output_info.map (fun info => info.base_cpp_type.isSome))) =
      some ([false, false], [false]) := by
  decide

/-- Witness: `construction_stores_missing_extension` at `add` over types without the native
extension: the function is constructed, and `build_ir` fails on the spec's inputs. -/
theorem construction_stores_missing_extension_witness :
    ([true, false].length = add_fn.input_amount ∧ [true, false].contains true = true ∧
      [constant_fn 0].length = [true, false].count true ∧
      (add_fn.tuple_call_body.isSome = true ∨ add_fn.llvm_build_ir_body.isSome = true)) ∧
    ∃ original_fn1 fn gen,
      to_vectorized_function bare_types add_fn [true, false] [constant_fn 0] =
        some (original_fn1, fn) ∧
      fn.llvm_build_ir_body = some gen ∧
      gen.m_input_info.map (fun info => info.base_cpp_type.isSome) = [false, false] ∧
      gen.build_ir [Value.list [1, 2, 3], Value.base 10] 0 = none := by
  refine ⟨⟨rfl, rfl, rfl, Or.inl rfl⟩, ?_⟩
  obtain ⟨original_fn1, fn, gen, h1, h2, h3, -, -, -, -, h4⟩ :=
    construction_stores_missing_extension bare_types add_fn [true, false] [constant_fn 0]
      rfl rfl rfl (Or.inl rfl)
  refine ⟨original_fn1, fn, gen, h1, h2, ?_, ?_⟩
  · have := congrArg (List.map Option.isSome) h3
    simpa [List.map_map, Function.comp_def] using this
  · exact h4 _ 0 (Or.inl ⟨0, { name := "a", type := "number" }, rfl, rfl, Or.inl rfl⟩)

/-! ### The tuple-call body of the original function -/

section
variable {τ α ε : Type}

/-- A function is returned only when the three assertions hold and the original function
has a body. -/
theorem to_vectorized_function_preconditions (types : TypeSystem τ α)
    (original_fn : SharedFunction τ α ε) (mask : List Bool)
    (builders : List (SharedFunction τ α ε))
    (r : SharedFunction τ α ε × VectorizedFunction τ α ε)
    (h : to_vectorized_function types original_fn mask builders = some r) :
    mask.length = original_fn.input_amount ∧ mask.contains true = true ∧
      builders.length = mask.count true ∧
      (original_fn.tuple_call_body.isSome = true ∨
        original_fn.llvm_build_ir_body.isSome = true) := by
  have hassert : ∀ (c : Bool) (x : Unit), BLI_assert c = some x → c = true := by
    intro c x hc
    cases c
    · simp [BLI_assert] at hc
    · rfl
  unfold to_vectorized_function at h
  dsimp only at h
  split at h
  · next _ _ _ e1 e2 e3 =>
    refine ⟨of_decide_eq_true (hassert _ _ e1), hassert _ _ e2,
      of_decide_eq_true (hassert _ _ e3), ?_⟩
    cases ht : original_fn.tuple_call_body with
    | some t => left; rfl
    | none =>
      cases hl : original_fn.llvm_build_ir_body with
      | some l => right; rfl
      | none => simp [ht, hl, BLI_assert] at h
  · simp at h

/-- C13: after a successful `to_vectorized_function` the original function has a tuple-call
body. When it had only a code-generation body, it is the original function with the
tuple-call body derived from that code-generation body added, name, signature and
code-generation body unchanged; when it had a tuple-call body already, it is left exactly
as it was. -/
theorem original_function_gets_tuple_call_body (types : TypeSystem τ α)
    (original_fn : SharedFunction τ α ε) (mask : List Bool)
    (builders : List (SharedFunction τ α ε)) (original_fn1 : SharedFunction τ α ε)
    (fn : VectorizedFunction τ α ε)
    (h : to_vectorized_function types original_fn mask builders = some (original_fn1, fn)) :
    original_fn1.tuple_call_body.isSome = true ∧
      (original_fn.tuple_call_body.isSome = true → original_fn1 = original_fn) ∧
      (original_fn.tuple_call_body = none →
        ∃ body, original_fn.llvm_build_ir_body = some body ∧
          original_fn1 = derive_TupleCallBody_from_LLVMBuildIRBody original_fn ∧
          original_fn1.tuple_call_body =
            some { call := fun args => Except.ok (body.build_ir args) } ∧
          original_fn1.llvm_build_ir_body = some body ∧
          original_fn1.name = original_fn.name ∧
          original_fn1.signature = original_fn.signature) := by
  obtain ⟨h1, h2, h3, h4⟩ :=
    to_vectorized_function_preconditions types original_fn mask builders _ h
  obtain ⟨inputs, gen, -, -, hfn⟩ :=
    to_vectorized_function_some types original_fn mask builders h1 h2 h3 h4
  rw [hfn] at h
  simp only [Option.some.injEq, Prod.mk.injEq] at h
  have h5 := h.1
  cases ht : original_fn.tuple_call_body with
  | some t =>
    rw [ht] at h5
    simp only [Option.isNone_some, Bool.false_eq_true, if_false] at h5
    subst h5
    exact ⟨by rw [ht]; rfl, fun _ => rfl, fun hn => by simp at hn⟩
  | none =>
    rw [ht] at h5
    simp only [Option.isNone_none, if_true] at h5
    have hl : ∃ body, original_fn.llvm_build_ir_body = some body := by
      rcases h4 with h4 | h4
      · rw [ht] at h4; simp at h4
      · exact Option.isSome_iff_exists.mp h4
    obtain ⟨body, hl⟩ := hl
    have hd : derive_TupleCallBody_from_LLVMBuildIRBody original_fn =
        { original_fn with
          tuple_call_body := some { call := fun args => Except.ok (body.build_ir args) } } := by
      simp [derive_TupleCallBody_from_LLVMBuildIRBody, hl]
    refine ⟨?_, fun hs => by simp at hs, fun _ => ⟨body, hl, h5.symm, ?_, ?_, ?_, ?_⟩⟩
    · rw [← h5, hd]; rfl
    · rw [← h5, hd]
    · rw [← h5, hd]; exact hl
    · rw [← h5, hd]
    · rw [← h5, hd]

end


/-- Witness: `original_function_gets_tuple_call_body` at a function that has a code-generation
body only: after the construction it has a tuple-call body, which computes what the
generated instructions compute. -/
theorem original_function_gets_tuple_call_body_witness :
    ∃ original_fn1 fn,
      to_vectorized_function number_types compiled_only_fn [true] [constant_fn 0] =
        some (original_fn1, fn) ∧
      original_fn1.tuple_call_body.isSome = true ∧
      original_fn1 = derive_TupleCallBody_from_LLVMBuildIRBody compiled_only_fn ∧
      (original_fn1.tuple_call_body.map (fun body => body.call [5])) =
        some (Except.ok [-5]) := by
  obtain ⟨inputs, gen, -, -, hfn⟩ :=
    to_vectorized_function_some number_types compiled_only_fn [true] [constant_fn 0] rfl rfl rfl
      (Or.inr rfl)
  obtain ⟨h1, -, h3⟩ :=
    original_function_gets_tuple_call_body number_types compiled_only_fn [true] [constant_fn 0]
      _ _ hfn
  obtain ⟨body, hb, h4, h5, -⟩ := h3 rfl
  refine ⟨_, _, hfn, h1, h4, ?_⟩
  rw [h5]
  have : body = { build_ir := fun args => [-(args.getD 0 0)] } := by
    have : compiled_only_fn.llvm_build_ir_body =
        some { build_ir := fun args => [-(args.getD 0 0)] } := rfl
    rw [this] at hb
    exact (Option.some.inj hb).symm
  subst this
  rfl

/-! ### Alignment of the per-list-input sequences -/

theorem list_input_index_zero (mask : List Bool) : list_input_index mask 0 = 0 := by
  simp [list_input_index]

theorem list_input_index_cons_succ (b : Bool) (mask : List Bool) (q : Nat) :
    list_input_index (b :: mask) (q + 1) =
      (if b = true then 1 else 0) + list_input_index mask q := by
  cases b <;> simp [list_input_index, List.take_succ_cons, List.count_cons, Nat.add_comm]

/-- Entry `k` of `m_list_inputs` is the position of the list input number `k`. -/
theorem list_inputs_from_getElem? : ∀ (mask : List Bool) (i0 q : Nat), mask[q]? = some true →
    (list_inputs_from mask i0)[list_input_index mask q]? = some (i0 + q)
  | [], _, _, h => by simp at h
  | true :: mask, i0, 0, _ => by simp [list_inputs_from, list_input_index]
  | false :: mask, i0, 0, h => by simp at h
  | true :: mask, i0, q + 1, h => by
    have ih := list_inputs_from_getElem? mask (i0 + 1) q (by simpa using h)
    rw [list_input_index_cons_succ]
    simp only [list_inputs_from, if_true, Nat.add_comm 1, List.getElem?_cons_succ, ih]
    congr 1
    omega
  | false :: mask, i0, q + 1, h => by
    have ih := list_inputs_from_getElem? mask (i0 + 1) q (by simpa using h)
    rw [list_input_index_cons_succ]
    simp only [list_inputs_from, Bool.false_eq_true, if_false, Nat.zero_add, ih]
    congr 1
    omega

theorem list_input_index_lt : ∀ (mask : List Bool) (q : Nat), mask[q]? = some true →
    list_input_index mask q < mask.count true
  | [], _, h => by simp at h
  | true :: mask, 0, _ => by simp [list_input_index]
  | false :: mask, 0, h => by simp at h
  | true :: mask, q + 1, h => by
    have ih := list_input_index_lt mask q (by simpa using h)
    rw [list_input_index_cons_succ]
    simp only [if_true, List.count_cons_self]
    omega
  | false :: mask, q + 1, h => by
    have ih := list_input_index_lt mask q (by simpa using h)
    rw [list_input_index_cons_succ]
    simpa using ih

namespace AutoVectorization
variable {τ α ε : Type}

/-- Entry `p` of the lengths read by `get_input_list_lengths` is what the length body
number `k0 + p` yields on the input at position `m_list_inputs[p]`. -/
theorem get_input_list_lengths_from_pairs (self : AutoVectorization τ α ε)
    (fn_in : List (Value α)) :
    ∀ (idxs : List Nat) (k0 : Nat) (lens : List Nat),
      self.get_input_list_lengths_from fn_in idxs k0 = some lens →
      lens.length = idxs.length ∧
        ∀ (p idx : Nat), idxs[p]? = some idx →
          ∃ body v, self.m_get_length_bodies[k0 + p]? = some body ∧ fn_in[idx]? = some v ∧
            body v = lens[p]?
  | [], _, lens, h => by
    simp only [get_input_list_lengths_from, Option.some.injEq] at h
    subst h
    simp
  | idx0 :: idxs, k0, lens, h => by
    unfold get_input_list_lengths_from at h
    split at h
    · simp at h
    · next length hlen =>
      split at h
      · simp at h
      · next lengths hrest =>
        simp only [Option.some.injEq] at h
        subst h
        obtain ⟨ih1, ih2⟩ :=
          get_input_list_lengths_from_pairs self fn_in idxs (k0 + 1) lengths hrest
        refine ⟨by simp [ih1], ?_⟩
        intro p idx hp
        cases p with
        | zero =>
          simp only [List.getElem?_cons_zero, Option.some.injEq] at hp
          subst hp
          unfold get_input_list_length at hlen
          split at hlen
          · next body v hb hv => exact ⟨body, v, by simpa using hb, hv, by simpa using hlen⟩
          · simp at hlen
        | succ p =>
          obtain ⟨body, v, hb, hv, hbv⟩ := ih2 p idx (by simpa using hp)
          refine ⟨body, v, ?_, hv, by simpa using hbv⟩
          rw [← hb]
          congr 1
          omega

/-- The loop over the inputs in `call` hands `copy_in_iteration`, for the list input at
position `i0 + q`, entry `k0 + list_input_index mask q` of the lengths and of the
get-element bodies. -/
theorem prepare_main_in_pairs (types : TypeSystem τ α) (self : AutoVectorization τ α ε)
    (iteration : Nat) (fn_in : List (Value α)) (input_lengths : List Nat) :
    ∀ (mask : List Bool) (i0 k0 : Nat) (main_in0 : List α) (ctx : ExecutionContext α)
      (main_in : List α) (ctx1 : ExecutionContext α),
      self.prepare_main_in types iteration fn_in input_lengths mask i0 k0 main_in0 ctx =
        (Result.ok main_in, ctx1) →
      ∀ q, mask[q]? = some true →
        ∃ L, input_lengths[k0 + list_input_index mask q]? = some L ∧
          (L = 0 → main_in[main_in0.length + q]? =
            init_default types self.m_main.signature.inputs (i0 + q)) ∧
          (L ≠ 0 → ∃ get_element list fallback,
            self.m_get_element_bodies[k0 + list_input_index mask q]? = some get_element ∧
            fn_in[i0 + q]? = some list ∧
            init_default types self.m_main.signature.inputs (i0 + q) = some fallback ∧
            main_in[main_in0.length + q]? = get_element list (iteration % L) fallback)
  | [], _, _, _, _, _, _, _, q, hq => by simp at hq
  | true :: mask, i0, k0, main_in0, ctx, main_in, ctx1, h, q, hq => by
    unfold prepare_main_in at h
    split at h
    · simp at h
    · next L hL =>
      split at h
      · next main_in1 ctx2 hcopy =>
        have hlen1 : ∃ a, main_in1 = main_in0 ++ [a] ∧
            ((L = 0 → some a = init_default types self.m_main.signature.inputs i0) ∧
            (L ≠ 0 → ∃ get_element list fallback,
              self.m_get_element_bodies[k0]? = some get_element ∧
              fn_in[i0]? = some list ∧
              init_default types self.m_main.signature.inputs i0 = some fallback ∧
              some a = get_element list (iteration % L) fallback)) := by
          unfold copy_in_iteration at hcopy
          split at hcopy
          · next hz =>
            split at hcopy
            · next a ha =>
              simp only [Prod.mk.injEq, Result.ok.injEq] at hcopy
              exact ⟨a, hcopy.1.symm, fun _ => ha.symm, fun hn => absurd hz hn⟩
            · simp at hcopy
          · next hz =>
            dsimp only at hcopy
            split at hcopy
            · next get_element list fallback hg hl hf =>
              split at hcopy
              · next a ha =>
                simp only [Prod.mk.injEq, Result.ok.injEq] at hcopy
                exact ⟨a, hcopy.1.symm, fun h0 => absurd h0 hz,
                  fun _ => ⟨get_element, list, fallback, hg, hl, hf, ha.symm⟩⟩
              · simp at hcopy
            · simp at hcopy
        obtain ⟨a, hm1, hz, hnz⟩ := hlen1
        -- the prefix written so far is kept
        have hkeep : ∀ (mask : List Bool) (i0 k0 : Nat) (m0 : List α) (c : ExecutionContext α)
            (m : List α) (c1 : ExecutionContext α),
            self.prepare_main_in types iteration fn_in input_lengths mask i0 k0 m0 c =
              (Result.ok m, c1) → ∀ p, p < m0.length → m[p]? = m0[p]? := by
          intro mask
          induction mask with
          | nil =>
            intro i0 k0 m0 c m c1 h p hp
            simp only [prepare_main_in, Prod.mk.injEq, Result.ok.injEq] at h
            rw [h.1]
          | cons b mask ih =>
            intro i0 k0 m0 c m c1 h p hp
            cases b with
            | true =>
              unfold prepare_main_in at h
              split at h
              · simp at h
              · next L _ =>
                split at h
                · next m1 c2 hcopy =>
                  have hm1 : ∃ a, m1 = m0 ++ [a] := by
                    unfold copy_in_iteration at hcopy
                    split at hcopy
                    · split at hcopy
                      · next a _ =>
                        simp only [Prod.mk.injEq, Result.ok.injEq] at hcopy
                        exact ⟨a, hcopy.1.symm⟩
                      · simp at hcopy
                    · dsimp only at hcopy
                      split at hcopy
                      · split at hcopy
                        · next a _ =>
                          simp only [Prod.mk.injEq, Result.ok.injEq] at hcopy
                          exact ⟨a, hcopy.1.symm⟩
                        · simp at hcopy
                      · simp at hcopy
                  obtain ⟨a, hm1⟩ := hm1
                  subst hm1
                  rw [ih _ _ _ _ _ _ h p (by simp; omega)]
                  rw [List.getElem?_append_left hp]
                · simp at h
            | false =>
              unfold prepare_main_in at h
              split at h
              · next a _ =>
                rw [ih _ _ _ _ _ _ h p (by simp; omega)]
                rw [List.getElem?_append_left hp]
              · simp at h
        subst hm1
        cases q with
        | zero =>
          have hslot : main_in[main_in0.length]? = some a := by
            rw [hkeep _ _ _ _ _ _ _ h main_in0.length (by simp)]
            simp
          refine ⟨L, by simpa [list_input_index] using hL, ?_, ?_⟩
          · intro h0
            rw [Nat.add_zero, Nat.add_zero, hslot]
            exact hz h0
          · intro hn
            obtain ⟨g, l, f, hg, hl, hf, ha⟩ := hnz hn
            exact ⟨g, l, f, by simpa [list_input_index] using hg, by simpa using hl,
              by simpa using hf, by rw [Nat.add_zero, hslot]; exact ha⟩
        | succ q =>
          obtain ⟨L1, h1, h2, h3⟩ := prepare_main_in_pairs types self iteration fn_in input_lengths
            mask (i0 + 1) (k0 + 1) (main_in0 ++ [a]) ctx2 main_in ctx1 h q (by simpa using hq)
          have e1 : k0 + list_input_index (true :: mask) (q + 1) =
              k0 + 1 + list_input_index mask q := by
            rw [list_input_index_cons_succ]; simp; omega
          have e2 : i0 + (q + 1) = i0 + 1 + q := by omega
          have e3 : main_in0.length + (q + 1) = (main_in0 ++ [a]).length + q := by
            simp; omega
          rw [e1, e2, e3]
          exact ⟨L1, h1, h2, h3⟩
      · simp at h
  | false :: mask, i0, k0, main_in0, ctx, main_in, ctx1, h, q, hq => by
    unfold prepare_main_in at h
    split at h
    · next a _ =>
      cases q with
      | zero => simp at hq
      | succ q =>
        obtain ⟨L1, h1, h2, h3⟩ := prepare_main_in_pairs types self iteration fn_in input_lengths
          mask (i0 + 1) k0 (main_in0 ++ [a]) ctx main_in ctx1 h q (by simpa using hq)
        have e1 : k0 + list_input_index (false :: mask) (q + 1) =
            k0 + list_input_index mask q := by
          rw [list_input_index_cons_succ]; simp
        have e2 : i0 + (q + 1) = i0 + 1 + q := by omega
        have e3 : main_in0.length + (q + 1) = (main_in0 ++ [a]).length + q := by
          simp; omega
        rw [e1, e2, e3]
        exact ⟨L1, h1, h2, h3⟩
    · simp at h

end AutoVectorization

namespace AutoVectorizationGen
variable {τ α ε : Type}

/-- Entry `list_input_index` of the lengths computed by the emitted instructions is the
length of the input at that position. -/
theorem gen_get_input_list_lengths_from_pairs (inputs : List (Value α)) :
    ∀ (infos : List (InputInfo α)) (i0 : Nat) (lens : List Nat),
      get_input_list_lengths_from inputs infos i0 = some lens →
      lens.length = (infos.map (fun info => info.is_list)).count true ∧
        ∀ (q : Nat) (info : InputInfo α), infos[q]? = some info → info.is_list = true →
          ∃ v, inputs[i0 + q]? = some v ∧
            info.get_length_fn v =
              lens[list_input_index (infos.map (fun info => info.is_list)) q]?
  | [], _, lens, h => by
    simp only [get_input_list_lengths_from, Option.some.injEq] at h
    subst h
    simp
  | info0 :: infos, i0, lens, h => by
    unfold get_input_list_lengths_from at h
    split at h
    · next hl =>
      split at h
      · simp at h
      · next v hv =>
        split at h
        · simp at h
        · next length hlen =>
          split at h
          · simp at h
          · next lengths hrest =>
            simp only [Option.some.injEq] at h
            subst h
            obtain ⟨ih1, ih2⟩ := gen_get_input_list_lengths_from_pairs inputs infos (i0 + 1) lengths
              hrest
            refine ⟨by simp [hl, ih1], ?_⟩
            intro q info hq hi
            cases q with
            | zero =>
              simp only [List.getElem?_cons_zero, Option.some.injEq] at hq
              subst hq
              exact ⟨v, by simpa using hv, by simpa [list_input_index] using hlen⟩
            | succ q =>
              obtain ⟨w, hw, hlw⟩ := ih2 q info (by simpa using hq) hi
              refine ⟨w, ?_, ?_⟩
              · rw [← hw]; congr 1; omega
              · rw [List.map_cons, list_input_index_cons_succ, hl, if_pos rfl, Nat.add_comm 1,
                  List.getElem?_cons_succ]
                exact hlw
    · next hl =>
      have hl0 : info0.is_list = false := by simpa using hl
      obtain ⟨ih1, ih2⟩ := gen_get_input_list_lengths_from_pairs inputs infos (i0 + 1) lens h
      refine ⟨by simp [hl0, ih1], ?_⟩
      intro q info hq hi
      cases q with
      | zero =>
        simp only [List.getElem?_cons_zero, Option.some.injEq] at hq
        subst hq
        rw [hl0] at hi
        exact Bool.noConfusion hi
      | succ q =>
        obtain ⟨w, hw, hlw⟩ := ih2 q info (by simpa using hq) hi
        refine ⟨w, ?_, ?_⟩
        · rw [← hw]; congr 1; omega
        · rw [List.map_cons, list_input_index_cons_succ, hl0]
          simpa using hlw

/-- Entry `list_input_index` of the data pointers computed by the emitted instructions is
the data pointer of the input at that position. -/
theorem get_input_data_pointers_from_pairs (inputs : List (Value α)) :
    ∀ (infos : List (InputInfo α)) (i0 : Nat) (ptrs : List (List α)),
      get_input_data_pointers_from inputs infos i0 = some ptrs →
      ptrs.length = (infos.map (fun info => info.is_list)).count true ∧
        ∀ (q : Nat) (info : InputInfo α), infos[q]? = some info → info.is_list = true →
          ∃ v, inputs[i0 + q]? = some v ∧
            info.get_data_ptr_fn v =
              ptrs[list_input_index (infos.map (fun info => info.is_list)) q]?
  | [], _, ptrs, h => by
    simp only [get_input_data_pointers_from, Option.some.injEq] at h
    subst h
    simp
  | info0 :: infos, i0, ptrs, h => by
    unfold get_input_data_pointers_from at h
    split at h
    · next hl =>
      split at h
      · next c v hc hv =>
        split at h
        · simp at h
        · next data_ptr hd =>
          split at h
          · simp at h
          · next data_pointers hrest =>
            simp only [Option.some.injEq] at h
            subst h
            obtain ⟨ih1, ih2⟩ := get_input_data_pointers_from_pairs inputs infos (i0 + 1)
              data_pointers hrest
            refine ⟨by simp [hl, ih1], ?_⟩
            intro q info hq hi
            cases q with
            | zero =>
              simp only [List.getElem?_cons_zero, Option.some.injEq] at hq
              subst hq
              exact ⟨v, by simpa using hv, by simpa [list_input_index] using hd⟩
            | succ q =>
              obtain ⟨w, hw, hlw⟩ := ih2 q info (by simpa using hq) hi
              refine ⟨w, ?_, ?_⟩
              · rw [← hw]; congr 1; omega
              · rw [List.map_cons, list_input_index_cons_succ, hl, if_pos rfl, Nat.add_comm 1,
                  List.getElem?_cons_succ]
                exact hlw
      · simp at h
    · next hl =>
      have hl0 : info0.is_list = false := by simpa using hl
      obtain ⟨ih1, ih2⟩ := get_input_data_pointers_from_pairs inputs infos (i0 + 1) ptrs h
      refine ⟨by simp [hl0, ih1], ?_⟩
      intro q info hq hi
      cases q with
      | zero =>
        simp only [List.getElem?_cons_zero, Option.some.injEq] at hq
        subst hq
        rw [hl0] at hi
        exact Bool.noConfusion hi
      | succ q =>
        obtain ⟨w, hw, hlw⟩ := ih2 q info (by simpa using hq) hi
        refine ⟨w, ?_, ?_⟩
        · rw [← hw]; congr 1; omega
        · rw [List.map_cons, list_input_index_cons_succ, hl0]
          simpa using hlw

theorem list_input_index_take_succ (mask : List Bool) (i : Nat) (b : Bool)
    (h : mask[i]? = some b) :
    list_input_index mask (i + 1) = list_input_index mask i + (if b = true then 1 else 0) := by
  unfold list_input_index
  rw [List.take_succ, h]
  cases b <;> simp

/-- The emitted instructions that assemble the inputs of one iteration use, for the list
input at position `i0 + q`, entry `list_input_index` of the lengths, of the data pointers
and of the default-value builders. -/
theorem prepare_main_function_inputs_from_pairs (self : AutoVectorizationGen τ α ε)
    (inputs : List (Value α)) (input_data_pointers : List (List α))
    (input_list_lengths : List Nat) (iteration : Nat) :
    ∀ (infos : List (InputInfo α)) (i0 k0 : Nat) (main_inputs : List α)
      (log : List (IREvent α)),
      k0 = list_input_index self.m_input_is_list i0 →
      self.prepare_main_function_inputs_from inputs input_data_pointers input_list_lengths
        iteration infos i0 k0 = some (main_inputs, log) →
      ∀ q, q < infos.length → self.m_input_is_list[i0 + q]? = some true →
        ∃ L default_builder data_ptr default_value,
          input_list_lengths[list_input_index self.m_input_is_list (i0 + q)]? = some L ∧
          self.m_empty_list_value_builders[list_input_index self.m_input_is_list (i0 + q)]? =
            some default_builder ∧
          input_data_pointers[list_input_index self.m_input_is_list (i0 + q)]? =
            some data_ptr ∧
          default_value_of default_builder = some default_value ∧
          main_inputs[q]? = if L = 0 then some default_value else data_ptr[iteration % L]?
  | [], _, _, _, _, _, _, q, hq, _ => by simp at hq
  | info :: rest, i0, k0, main_inputs, log, hk, h, q, hq, hm => by
    unfold prepare_main_function_inputs_from at h
    split at h
    · next t hllvm hmask =>
      split at h
      · next L default_builder data_ptr hL hb hp =>
        split at h
        · simp at h
        · next default_builder_body hbody =>
          split at h
          · simp at h
          · next default_value hdv =>
            dsimp only at h
            split at h
            · simp at h
            · next value log0 hphi =>
              split at h
              · simp at h
              · next main_inputs1 log1 hrest =>
                simp only [Option.some.injEq, Prod.mk.injEq] at h
                obtain ⟨hmi, -⟩ := h
                subst hmi
                have hk1 : k0 + 1 = list_input_index self.m_input_is_list (i0 + 1) := by
                  rw [list_input_index_take_succ _ _ _ hmask, hk]; simp
                cases q with
                | zero =>
                  rw [Nat.add_zero, ← hk]
                  refine ⟨L, default_builder, data_ptr, default_value, hL, hb, hp, ?_, ?_⟩
                  · simp [default_value_of, hbody, hdv]
                  · by_cases hz : L = 0
                    · simp only [hz, if_true, Option.some.injEq, Prod.mk.injEq] at hphi ⊢
                      simp [hphi.1]
                    · simp only [hz, if_false] at hphi ⊢
                      split at hphi
                      · simp at hphi
                      · next loaded hload =>
                        simp only [Option.some.injEq, Prod.mk.injEq] at hphi
                        simp [← hphi.1, hload]
                | succ q =>
                  have e : i0 + (q + 1) = i0 + 1 + q := by omega
                  rw [e] at hm ⊢
                  obtain ⟨L1, b1, p1, d1, g1, g2, g3, g4, g5⟩ :=
                    prepare_main_function_inputs_from_pairs self inputs input_data_pointers
                      input_list_lengths iteration rest (i0 + 1) (k0 + 1) main_inputs1 log1 hk1
                      hrest q (by simpa using hq) hm
                  exact ⟨L1, b1, p1, d1, g1, g2, g3, g4, by simpa using g5⟩
      · simp at h
    · next t hllvm hmask =>
      split at h
      · next source_value hsrc =>
        split at h
        · simp at h
        · next main_inputs1 log1 hrest =>
          simp only [Option.some.injEq, Prod.mk.injEq] at h
          obtain ⟨hmi, -⟩ := h
          subst hmi
          have hk1 : k0 = list_input_index self.m_input_is_list (i0 + 1) := by
            rw [list_input_index_take_succ _ _ _ hmask, hk]; simp
          cases q with
          | zero =>
            rw [Nat.add_zero, hmask] at hm
            simp at hm
          | succ q =>
            have e : i0 + (q + 1) = i0 + 1 + q := by omega
            rw [e] at hm ⊢
            obtain ⟨L1, b1, p1, d1, g1, g2, g3, g4, g5⟩ :=
              prepare_main_function_inputs_from_pairs self inputs input_data_pointers
                input_list_lengths iteration rest (i0 + 1) k0 main_inputs1 log1 hk1
                hrest q (by simpa using hq) hm
            exact ⟨L1, b1, p1, d1, g1, g2, g3, g4, by simpa using g5⟩
      · simp at h
    · simp at h

end AutoVectorizationGen

section
variable {τ α ε : Type}

/-- The members of a constructed `AutoVectorizationGen`: the mask, the builders, and one
input record per input whose list mark is the mask entry. -/
theorem new_members (types : TypeSystem τ α) (main : SharedFunction τ α ε) (mask : List Bool)
    (builders : List (SharedFunction τ α ε)) (gen : AutoVectorizationGen τ α ε)
    (h1 : mask.length = main.input_amount)
    (hgen : AutoVectorizationGen.new types main mask builders = some gen) :
    gen.m_input_is_list = mask ∧ gen.m_empty_list_value_builders = builders ∧
      gen.m_input_info.length = mask.length ∧
      gen.m_input_info.map (fun info => info.is_list) = mask ∧
      (∀ info ∈ gen.m_input_info, info.get_length_fn = list_length ∧
        info.get_data_ptr_fn = list_data_ptr) := by
  unfold AutoVectorizationGen.new at hgen
  cases hb : BLI_assert (mask.contains true) with
  | none => rw [hb] at hgen; simp at hgen
  | some x =>
    rw [hb] at hgen
    simp only at hgen
    cases hinfos : AutoVectorizationGen.input_info_from (α := α) types mask
        main.signature.inputs 0 with
    | none => rw [hinfos] at hgen; simp at hgen
    | some infos =>
      rw [hinfos] at hgen
      simp only [Option.some.injEq] at hgen
      obtain ⟨e1, -, -, e4⟩ :=
        input_info_from_extensions types mask main.signature.inputs 0 infos hinfos
      have hlen : infos.length = mask.length := by
        have := congrArg List.length e1
        simp only [List.length_map] at this
        rw [this, h1]
        rfl
      have hfn : ∀ (params : List (Parameter τ)) (i : Nat) (infos : List (InputInfo α)),
          AutoVectorizationGen.input_info_from types mask params i = some infos →
          ∀ info ∈ infos, info.get_length_fn = list_length ∧
            info.get_data_ptr_fn = list_data_ptr := by
        intro params
        induction params with
        | nil =>
          intro i infos h info hinfo
          simp only [AutoVectorizationGen.input_info_from, Option.some.injEq] at h
          subst h
          simp at hinfo
        | cons p params ih =>
          intro i infos h info hinfo
          unfold AutoVectorizationGen.input_info_from at h
          split at h
          · simp at h
          · split at h
            · simp at h
            · next infos1 hrest =>
              simp only [Option.some.injEq] at h
              subst h
              simp only [List.mem_cons] at hinfo
              rcases hinfo with rfl | hinfo
              · exact ⟨rfl, rfl⟩
              · exact ih _ _ hrest info hinfo
      subst hgen
      refine ⟨rfl, rfl, hlen, ?_, hfn _ _ _ hinfos⟩
      apply List.ext_getElem?
      intro q
      by_cases hq : q < mask.length
      · have := e4 q (by
          have := congrArg List.length e1
          simp only [List.length_map] at this
          omega)
        simpa using this
      · rw [List.getElem?_eq_none (by simpa using (by omega : infos.length ≤ q)),
          List.getElem?_eq_none (by omega)]

/-- C14: for every mask and every input position `i` at which the mask is true, both
backends pair input `i` with entry `k` of the per-list-input sequences, `k` being the
number of true mask entries before `i`: the interpreted backend with entry `k` of
`m_list_inputs`, of the length bodies, of the lengths and of the get-element bodies, the
compiled backend with entry `k` of the lengths, of the data pointers and of the builders
of default values. Under the construction preconditions `k` is a valid index into each of
these sequences, all of which have as many entries as the mask has true ones. -/
theorem list_index_alignment (types : TypeSystem τ α) (main : SharedFunction τ α ε)
    (mask : List Bool) (builders : List (SharedFunction τ α ε))
    (gen : AutoVectorizationGen τ α ε)
    (h1 : mask.length = main.input_amount) (h3 : builders.length = mask.count true)
    (hgen : AutoVectorizationGen.new types main mask builders = some gen)
    (i : Nat) (hi : mask[i]? = some true) :
    list_input_index mask i < mask.count true ∧
    (AutoVectorization.new main mask).m_list_inputs[list_input_index mask i]? = some i ∧
    (AutoVectorization.new main mask).m_list_inputs.length = mask.count true ∧
    (AutoVectorization.new main mask).m_get_length_bodies.length = mask.count true ∧
    (AutoVectorization.new main mask).m_get_element_bodies.length = mask.count true ∧
    gen.m_empty_list_value_builders.length = mask.count true ∧
    (∀ (fn_in : List (Value α)) (lens : List Nat),
      (AutoVectorization.new main mask).get_input_list_lengths fn_in = some lens →
      lens.length = mask.count true ∧
        ∃ body v,
          (AutoVectorization.new main mask).m_get_length_bodies[list_input_index mask i]? =
            some body ∧
          fn_in[i]? = some v ∧ body v = lens[list_input_index mask i]?) ∧
    (∀ (iteration : Nat) (fn_in : List (Value α)) (lens : List Nat) (ctx : ExecutionContext α)
      (main_in : List α) (ctx1 : ExecutionContext α),
      (AutoVectorization.new main mask).prepare_main_in types iteration fn_in lens
        (AutoVectorization.new main mask).m_input_is_list 0 0 [] ctx =
          (Result.ok main_in, ctx1) →
      ∃ L, lens[list_input_index mask i]? = some L ∧
        (L = 0 → main_in[i]? = init_default types main.signature.inputs i) ∧
        (L ≠ 0 → ∃ get_element list fallback,
          (AutoVectorization.new main mask).m_get_element_bodies[list_input_index mask i]? =
            some get_element ∧
          fn_in[i]? = some list ∧
          init_default types main.signature.inputs i = some fallback ∧
          main_in[i]? = get_element list (iteration % L) fallback)) ∧
    (∀ (inputs : List (Value α)) (lens : List Nat),
      gen.get_input_list_lengths inputs = some lens →
      lens.length = mask.count true ∧
        ∃ v, inputs[i]? = some v ∧ list_length v = lens[list_input_index mask i]?) ∧
    (∀ (inputs : List (Value α)) (ptrs : List (List α)),
      gen.get_input_data_pointers inputs = some ptrs →
      ptrs.length = mask.count true ∧
        ∃ v, inputs[i]? = some v ∧ list_data_ptr v = ptrs[list_input_index mask i]?) ∧
    (∀ (inputs : List (Value α)) (ptrs : List (List α)) (lens : List Nat) (iteration : Nat)
      (main_inputs : List α) (log : List (IREvent α)),
      gen.prepare_main_function_inputs inputs ptrs lens iteration = some (main_inputs, log) →
      ∃ L default_builder data_ptr default_value,
        lens[list_input_index mask i]? = some L ∧
        builders[list_input_index mask i]? = some default_builder ∧
        ptrs[list_input_index mask i]? = some data_ptr ∧
        default_value_of default_builder = some default_value ∧
        main_inputs[i]? = if L = 0 then some default_value else data_ptr[iteration % L]?) := by
  obtain ⟨g1, g2, g3, g4, g5⟩ := new_members types main mask builders gen h1 hgen
  have hilt : i < mask.length := by
    rcases Nat.lt_or_ge i mask.length with h | h
    · exact h
    · rw [List.getElem?_eq_none h] at hi; simp at hi
  have hinfo : ∃ info, gen.m_input_info[i]? = some info ∧ info.is_list = true := by
    have hlt : i < gen.m_input_info.length := by omega
    refine ⟨gen.m_input_info.get ⟨i, hlt⟩, List.getElem?_eq_getElem hlt, ?_⟩
    have := congrArg (fun l => l[i]?) g4
    simp only [List.getElem?_map, List.getElem?_eq_getElem hlt, Option.map_some', hi,
      Option.some.injEq] at this
    exact this
  obtain ⟨info, hinfo1, hinfo2⟩ := hinfo
  have hmem : info ∈ gen.m_input_info := by
    rw [List.getElem?_eq_some] at hinfo1
    obtain ⟨hlt, hget⟩ := hinfo1
    rw [← hget]
    exact List.getElem_mem _
  have hidx := list_inputs_from_getElem? mask 0 i hi
  rw [Nat.zero_add] at hidx
  refine ⟨list_input_index_lt mask i hi, hidx, ?_, ?_, ?_, ?_, ?_, ?_, ?_, ?_, ?_⟩
  · simp [AutoVectorization.new, list_inputs_from_length]
  · simp [AutoVectorization.new, list_inputs_from_length]
  · simp [AutoVectorization.new, list_inputs_from_length]
  · rw [g2, h3]
  · intro fn_in lens hl
    obtain ⟨e1, e2⟩ := AutoVectorization.get_input_list_lengths_from_pairs _ fn_in _ 0 lens hl
    refine ⟨?_, ?_⟩
    · rw [e1]; simp [AutoVectorization.new, list_inputs_from_length]
    · obtain ⟨body, v, hb, hv, hbv⟩ := e2 (list_input_index mask i) i hidx
      exact ⟨body, v, by simpa using hb, hv, hbv⟩
  · intro iteration fn_in lens ctx main_in ctx1 hp
    obtain ⟨L, e1, e2, e3⟩ := AutoVectorization.prepare_main_in_pairs types _ iteration fn_in lens
      mask 0 0 [] ctx main_in ctx1 hp i hi
    simp only [Nat.zero_add, List.length_nil] at e1 e2 e3
    exact ⟨L, e1, e2, e3⟩
  · intro inputs lens hl
    obtain ⟨e1, e2⟩ :=
      AutoVectorizationGen.gen_get_input_list_lengths_from_pairs inputs _ 0 lens hl
    rw [g4] at e1 e2
    refine ⟨e1, ?_⟩
    obtain ⟨v, hv, hlv⟩ := e2 i info hinfo1 hinfo2
    rw [(g5 info hmem).1] at hlv
    exact ⟨v, by simpa using hv, hlv⟩
  · intro inputs ptrs hl
    obtain ⟨e1, e2⟩ :=
      AutoVectorizationGen.get_input_data_pointers_from_pairs inputs _ 0 ptrs hl
    rw [g4] at e1 e2
    refine ⟨e1, ?_⟩
    obtain ⟨v, hv, hlv⟩ := e2 i info hinfo1 hinfo2
    rw [(g5 info hmem).2] at hlv
    exact ⟨v, by simpa using hv, hlv⟩
  · intro inputs ptrs lens iteration main_inputs log hp
    obtain ⟨L, b, p, d, e1, e2, e3, e4, e5⟩ :=
      AutoVectorizationGen.prepare_main_function_inputs_from_pairs gen inputs ptrs lens
        iteration gen.m_input_info 0 0 main_inputs log (by rw [list_input_index_zero]) hp i
        (by omega) (by rw [Nat.zero_add, g1]; exact hi)
    rw [Nat.zero_add, g1] at e1 e2 e3
    rw [g2] at e2
    exact ⟨L, b, p, d, e1, e2, e3, e4, e5⟩

end

/-- Witness: `list_index_alignment` at `add` with the second input marked as a list: input 1 is
paired with entry 0 of the sequences, which have one entry. -/
theorem list_index_alignment_witness :
    ([false, true].length = add_fn.input_amount ∧
      [constant_fn 7].length = [false, true].count true ∧
      [false, true][1]? = some true) ∧
    ∃ gen, AutoVectorizationGen.new number_types add_fn [false, true] [constant_fn 7] =
        some gen ∧
      list_input_index [false, true] 1 = 0 ∧
      list_input_index [false, true] 1 < [false, true].count true ∧
      (AutoVectorization.new add_fn [false, true]).m_list_inputs[0]? = some 1 ∧
      gen.m_empty_list_value_builders.length = 1 := by
  refine ⟨⟨rfl, rfl, rfl⟩, ?_⟩
  obtain ⟨-, gen, -, hgen, -⟩ :=
    to_vectorized_function_some number_types add_fn [false, true] [constant_fn 7] rfl rfl rfl
      (Or.inl rfl)
  have hgen1 : AutoVectorizationGen.new number_types add_fn [false, true] [constant_fn 7] =
      some gen := hgen
  obtain ⟨h1, h2, -, -, -, h3, -⟩ :=
    list_index_alignment number_types add_fn [false, true] [constant_fn 7] gen rfl rfl hgen1 1
      rfl
  exact ⟨gen, hgen1, rfl, h1, h2, h3⟩

/-! ### Element reads -/

section
variable {τ α ε : Type}

/-- C15: in both backends an element of a list input is read only when that list's length
`L` is not zero, and the index read is `j mod L` for an iteration `j` below the maximum
length, which is below `L`. For the interpreted backend the reads are the calls of the
get-element body the call logs, for the compiled backend the loads the emitted loop runs. -/
theorem element_reads_in_bounds (types : TypeSystem τ α) (main : SharedFunction τ α ε)
    (f : List α → List α) (mask : List Bool) (builders : List (SharedFunction τ α ε))
    (hwf : WellFormed types main f mask builders) (fn_in : List (Value α))
    (htyped : well_typed mask fn_in = true) (ctx : ExecutionContext α) (u : α) :
    ∃ (gen : AutoVectorizationGen τ α ε) (outs1 outs2 : List (Value α))
      (ctx1 : ExecutionContext α) (log : List (IREvent α)) (N1 N2 : Nat),
      AutoVectorization.max_element (lengths_of fn_in) = some N1 ∧
      CreateSIntMax (lengths_of fn_in) = some N2 ∧
      AutoVectorizationGen.new types main mask builders = some gen ∧
      (AutoVectorization.new main mask).call types fn_in ctx = (Result.ok outs1, ctx1) ∧
      gen.build_ir fn_in u = some (outs2, log) ∧
      (∀ (index load_index : Nat) (stack : List StackFrame),
        Event.get_element index load_index stack ∈ ctx1.log.drop ctx.log.length →
        ∃ (j : Nat) (xs : List α), j < N1 ∧ fn_in[index]? = some (Value.list xs) ∧
          xs.length ≠ 0 ∧ load_index = j % xs.length ∧ load_index < xs.length) ∧
      (∀ (index load_index : Nat), IREvent.load index load_index ∈ log →
        ∃ (j : Nat) (xs : List α), j < N2 ∧ fn_in[index]? = some (Value.list xs) ∧
          xs.length ≠ 0 ∧ load_index = j % xs.length ∧ load_index < xs.length) := by
  obtain ⟨D, N1, hN1, hD, hcall⟩ := call_closed_form types main f mask builders hwf fn_in htyped ctx
  obtain ⟨gen, B, N2, hgen, hN2, hB, hir⟩ :=
    build_ir_closed_form types main f mask builders hwf fn_in htyped u
  refine ⟨gen, _, _, _, _, N1, N2, hN1, hN2, hgen, hcall, hir, ?_, ?_⟩
  · intro index load_index stack hmem
    simp only [List.append_assoc, List.drop_left, List.mem_append, List.mem_cons,
      List.mem_singleton, List.not_mem_nil, or_false, reduceCtorEq, false_or] at hmem
    obtain ⟨j, xs, -, h2, h3, h4, h5, -⟩ :=
      get_element_mem_loop_events main.name ctx.stack _ fn_in index load_index stack N1 0 none
        hmem
    refine ⟨j, xs, by omega, h3, h4, h5, ?_⟩
    rw [h5]
    exact Nat.mod_lt _ (Nat.pos_of_ne_zero h4)
  · intro index load_index hmem
    simp only [List.mem_append, List.mem_map, reduceCtorEq, and_false, exists_false, false_or,
      or_false] at hmem
    obtain ⟨j, xs, -, h2, h3, h4, h5⟩ :=
      load_mem_gen_loop_events main.output_amount _ fn_in index load_index N2 0 hmem
    refine ⟨j, xs, by omega, h3, h4, h5, ?_⟩
    rw [h5]
    exact Nat.mod_lt _ (Nat.pos_of_ne_zero h4)

end

/-- Witness: `element_reads_in_bounds` at the spec's scenario of two lists of lengths 2 and 5:
the reads of the first list are at the indices 0 and 1 only. -/
theorem element_reads_in_bounds_witness :
    WellFormed number_types multiply_fn multiply_values [true, true]
      [constant_fn 0, constant_fn 0] ∧
    well_typed [true, true] [Value.list [10, 20], Value.list [1, 2, 3, 4, (5 : Int)]] = true ∧
    (∀ (load_index : Nat) (stack : List StackFrame),
      Event.get_element 0 load_index stack ∈
        ((AutoVectorization.new multiply_fn [true, true]).call number_types
          [Value.list [10, 20], Value.list [1, 2, 3, 4, 5]] ctx0).2.log.drop ctx0.log.length →
      load_index < 2) := by
  have hwf : WellFormed number_types multiply_fn multiply_values [true, true]
      [constant_fn 0, constant_fn 0] :=
    binary_fn_well_formed "multiply" (fun a b => a * b) [true, true] [0, 0] rfl rfl rfl
  refine ⟨hwf, by decide, ?_⟩
  obtain ⟨gen, outs1, outs2, ctx1, log, N1, N2, -, -, -, hcall, -, h, -⟩ :=
    element_reads_in_bounds number_types multiply_fn multiply_values [true, true]
      [constant_fn 0, constant_fn 0] hwf [Value.list [10, 20], Value.list [1, 2, 3, 4, 5]]
      (by decide) ctx0 0
  intro load_index stack hmem
  rw [hcall] at hmem
  obtain ⟨j, xs, -, hxs, -, -, hlt⟩ := h 0 load_index stack hmem
  simp only [List.getElem?_cons_zero, Option.some.injEq, Value.list.injEq] at hxs
  subst hxs
  exact hlt

/-! ### The default-value builder in the emitted loop -/

/-- C16 at `add` with `a = [1, 2, 3]` marked as a list and `b = 10`: the instructions of
the builder of the default value of `a` are emitted with `builder` (line 206), ahead of
the conditional, and run at each of the three iterations although the list is not empty;
each time the load of the other branch follows. -/
theorem default_builder_runs_for_nonempty_list :
    (lengths_of [Value.list [1, 2, 3], Value.base (10 : Int)] = [3]) ∧
    ((AutoVectorizationGen.new number_types add_fn [true, false] [constant_fn 0]).bind
        (fun gen => gen.build_ir [Value.list [1, 2, 3], Value.base 10] 0)).map Prod.snd =
      some [IREvent.new_list 0 3,
        IREvent.default_builder 0, IREvent.load 0 0, IREvent.main_call [1, 10],
        IREvent.store 0 0,
        IREvent.default_builder 0, IREvent.load 0 1, IREvent.main_call [2, 10],
        IREvent.store 0 1,
        IREvent.default_builder 0, IREvent.load 0 2, IREvent.main_call [3, 10],
        IREvent.store 0 2,
        IREvent.free 0] := by
  decide

/-! ### The maximum of the lengths -/

/-- C17 (failing input): the lengths `2 ^ 31` and `1` are 32-bit values; read as a signed
integer the first is `-2 ^ 31`, so the signed maximum the compiled backend computes is `1`,
while the maximum of the lengths, which the interpreted backend computes, is `2 ^ 31`. -/
theorem signed_maximum_is_not_the_maximum :
    lengths_of long_and_short = [2 ^ 31, 1] ∧
    (2 ^ 31 < 2 ^ 32 ∧ 1 < 2 ^ 32) ∧
    toInt32 (2 ^ 31) = -(2 ^ 31) ∧
    CreateSIntMax [2 ^ 31, 1] = some 1 ∧
    AutoVectorization.max_element [2 ^ 31, 1] = some (2 ^ 31) ∧
    CreateSIntMax (lengths_of long_and_short) ≠
      AutoVectorization.max_element (lengths_of long_and_short) := by
  refine ⟨lengths_of_long_and_short, by decide, by decide, by decide, by decide, ?_⟩
  rw [lengths_of_long_and_short]
  decide

/-! ### Empty lists in the interpreted backend -/

theorem init_default_count_append {α : Type} (i : Nat) (l1 l2 : List (Event α)) :
    init_default_count i (l1 ++ l2) = init_default_count i l1 + init_default_count i l2 := by
  simp [init_default_count, List.countP_append]

theorem init_default_count_prepare_events_lt {α : Type} (it : Nat) (stack : List StackFrame)
    (i : Nat) : ∀ (vs : List (Value α)) (i0 : Nat), i < i0 →
      init_default_count i (prepare_events it stack vs i0) = 0
  | [], _, _ => rfl
  | Value.base a :: vs, i0, h => by
    simpa [prepare_events] using
      init_default_count_prepare_events_lt it stack i vs (i0 + 1) (by omega)
  | Value.list xs :: vs, i0, h => by
    have ih := init_default_count_prepare_events_lt it stack i vs (i0 + 1) (by omega)
    have hne : (i0 == i) = false := by
      simp only [beq_eq_false_iff_ne, ne_eq]
      omega
    simp only [init_default_count] at ih
    by_cases hx : xs.length = 0
    · simp [prepare_events, init_default_count, hx, List.countP_cons, hne, ih]
    · simp [prepare_events, init_default_count, hx, List.countP_cons, ih]

/-- Assembling the inputs of one iteration default-initialises the slot of an empty list
once. -/
theorem init_default_count_prepare_events {α : Type} (it : Nat) (stack : List StackFrame) :
    ∀ (vs : List (Value α)) (i0 p : Nat), vs[p]? = some (Value.list []) →
      init_default_count (i0 + p) (prepare_events it stack vs i0) = 1
  | [], _, _, h => by simp at h
  | Value.base a :: vs, i0, 0, h => by simp at h
  | Value.base a :: vs, i0, p + 1, h => by
    have ih := init_default_count_prepare_events it stack vs (i0 + 1) p (by simpa using h)
    have e : i0 + (p + 1) = i0 + 1 + p := by omega
    rw [e]
    simpa [prepare_events] using ih
  | Value.list xs :: vs, i0, 0, h => by
    simp only [List.getElem?_cons_zero, Option.some.injEq, Value.list.injEq] at h
    subst h
    have hz := init_default_count_prepare_events_lt it stack i0 vs (i0 + 1) (by omega)
    simp only [init_default_count] at hz
    simp [prepare_events, init_default_count, List.countP_cons, hz]
  | Value.list xs :: vs, i0, p + 1, h => by
    have ih := init_default_count_prepare_events it stack vs (i0 + 1) p (by simpa using h)
    have e : i0 + (p + 1) = i0 + 1 + p := by omega
    rw [e]
    have hne : (i0 == i0 + 1 + p) = false := by
      simp only [beq_eq_false_iff_ne, ne_eq]
      omega
    simp only [init_default_count] at ih
    by_cases hx : xs.length = 0
    · simp [prepare_events, init_default_count, hx, List.countP_cons, hne, ih]
    · simp [prepare_events, init_default_count, hx, List.countP_cons, ih]

/-- The loop of `call` default-initialises the slot of an empty list once per iteration. -/
theorem init_default_count_loop_events {α : Type} (name : String) (base : List StackFrame)
    (args : Nat → List α) (inputs : List (Value α)) (i : Nat)
    (hi : inputs[i]? = some (Value.list [])) :
    ∀ (n j : Nat) (prev : Option Nat),
      init_default_count i (loop_events name base args inputs n j prev) = n
  | 0, _, _ => rfl
  | n + 1, j, prev => by
    have h1 := init_default_count_prepare_events j (frames name prev base) inputs 0 i hi
    rw [Nat.zero_add] at h1
    have h2 : init_default_count i [Event.main_call (args j) (frames name (some j) base)] = 0 :=
      rfl
    rw [loop_events, init_default_count_append, init_default_count_append, h1, h2,
      init_default_count_loop_events name base args inputs i hi n (j + 1) (some j)]
    omega

section
variable {τ α ε : Type}

/-- C18: in the interpreted backend a list input `i` of length 0 is filled at every
iteration by default-initialising slot `i` of the original function's input tuple: the
call completes, slot `i` is default-initialised once for each of the `N` iterations, no
element of the list is read and every call of the body receives the default construction
of the slot. The builders are not consulted: whatever builders the vectorized function is
constructed with, the interpreted call over the original function as the construction
leaves it gives this same result. -/
theorem interpreted_empty_list_init_default (types : TypeSystem τ α)
    (main : SharedFunction τ α ε) (mask : List Bool) (body : TupleCallBody α ε)
    (f : List α → List α) (fn_in : List (Value α)) (ctx : ExecutionContext α) (i : Nat)
    (hmask : mask.length = main.input_amount) (htrue : mask.contains true = true)
    (hbody : main.tuple_call_body = some body) (hcall : ∀ a, body.call a = Except.ok (f a))
    (hf : ∀ a, (f a).length = main.output_amount)
    (htypes : ∀ p ∈ main.signature.inputs, (types.cpp_type_info p.type).isSome = true)
    (htyped : well_typed mask fn_in = true) (hi : fn_in[i]? = some (Value.list [])) :
    ∃ (N : Nat) (outs : List (Value α)) (ctx1 : ExecutionContext α) (added : List (Event α))
      (slot_default : α),
      AutoVectorization.max_element (lengths_of fn_in) = some N ∧
      init_default types main.signature.inputs i = some slot_default ∧
      (AutoVectorization.new main mask).call types fn_in ctx = (Result.ok outs, ctx1) ∧
      ctx1.log = ctx.log ++ added ∧
      init_default_count i added = N ∧
      (∀ li st, Event.get_element i li st ∉ added) ∧
      (main_calls added).length = N ∧
      (∀ args ∈ main_calls added, args[i]? = some slot_default) ∧
      ∀ (builders : List (SharedFunction τ α ε)) (original_fn1 : SharedFunction τ α ε)
        (fn : VectorizedFunction τ α ε),
        to_vectorized_function types main mask builders = some (original_fn1, fn) →
        (AutoVectorization.new original_fn1 mask).call types fn_in ctx =
          (Result.ok outs, ctx1) := by
  have hilt : i < main.signature.inputs.length := by
    have h1 : i < fn_in.length := by
      rcases Nat.lt_or_ge i fn_in.length with h | h
      · exact h
      · rw [List.getElem?_eq_none h] at hi; simp at hi
    rw [well_typed_length mask fn_in htyped, hmask] at h1
    exact h1
  have hdef : ∀ q, q < main.signature.inputs.length →
      ∃ d, init_default types main.signature.inputs q = some d := by
    intro q hq
    have hp := htypes main.signature.inputs[q] (List.getElem_mem _)
    obtain ⟨c, hc⟩ := Option.isSome_iff_exists.mp hp
    exact ⟨c.construct_default, by simp [init_default, List.getElem?_eq_getElem hq, hc]⟩
  obtain ⟨a0, ha0⟩ := hdef i hilt
  have hne := lengths_of_ne_nil mask fn_in htyped htrue
  obtain ⟨N, hN⟩ : ∃ N, AutoVectorization.max_element (lengths_of fn_in) = some N := by
    cases h : lengths_of fn_in with
    | nil => exact absurd h hne
    | cons x l => exact ⟨_, rfl⟩
  have hD : ∀ q, q < main.signature.inputs.length →
      init_default types main.signature.inputs q =
        some ((init_default types main.signature.inputs q).getD a0) := by
    intro q hq
    obtain ⟨d, hd⟩ := hdef q hq
    simp [hd]
  have hrun := AutoVectorization.call_eq types main mask fn_in ctx body f
    (fun q _ => (init_default types main.signature.inputs q).getD a0) N
    (le_of_eq hmask) htyped hbody hcall (fun a => le_of_eq (hf a).symm)
    (fun q _ hq => hD q hq) hN
  refine ⟨N, _, _,
    [Event.push (StackFrame.iteration none), Event.push (StackFrame.text main.name)] ++
      loop_events main.name ctx.stack
        (fun j => broadcast j (fun q _ => (init_default types main.signature.inputs q).getD a0)
          fn_in 0 0) fn_in N 0 none ++ [Event.pop, Event.pop],
    a0, hN, ha0, hrun, by simp, ?_, ?_, ?_, ?_, ?_⟩
  · rw [init_default_count_append, init_default_count_append,
      init_default_count_loop_events main.name ctx.stack _ fn_in i hi]
    simp [init_default_count]
  · intro li st hmem
    simp only [List.append_assoc, List.mem_append, List.mem_cons, List.mem_singleton,
      List.not_mem_nil, or_false, reduceCtorEq, false_or] at hmem
    obtain ⟨it, xs, -, -, h3, h4, -⟩ :=
      get_element_mem_loop_events main.name ctx.stack _ fn_in i li st N 0 none hmem
    rw [hi] at h3
    simp only [Option.some.injEq, Value.list.injEq] at h3
    subst h3
    simp at h4
  · have := main_calls_call_log ([] : List (Event α)) (StackFrame.iteration none)
      (StackFrame.text main.name) main.name ctx.stack
      (fun j => broadcast j (fun q _ => (init_default types main.signature.inputs q).getD a0)
        fn_in 0 0) fn_in N
    simp only [List.nil_append] at this
    rw [this]
    simp [main_calls]
  · intro args ha
    have := main_calls_call_log ([] : List (Event α)) (StackFrame.iteration none)
      (StackFrame.text main.name) main.name ctx.stack
      (fun j => broadcast j (fun q _ => (init_default types main.signature.inputs q).getD a0)
        fn_in 0 0) fn_in N
    simp only [List.nil_append] at this
    rw [this] at ha
    simp only [main_calls, List.filterMap_nil, List.nil_append, List.mem_map,
      List.mem_range] at ha
    obtain ⟨j, -, hj⟩ := ha
    rw [← hj, broadcast_getElem?_empty j _ fn_in 0 0 i hi, Nat.zero_add, ha0]
    simp
  · intro builders original_fn1 fn hto
    have h4 : main.tuple_call_body.isSome = true ∨ main.llvm_build_ir_body.isSome = true :=
      Or.inl (by rw [hbody]; rfl)
    obtain ⟨h1, h2, h3, -⟩ :=
      to_vectorized_function_preconditions types main mask builders _ hto
    obtain ⟨inputs, gen, -, -, hfn⟩ :=
      to_vectorized_function_some types main mask builders h1 h2 h3 h4
    rw [hfn] at hto
    simp only [hbody, Option.isNone_some, Bool.false_eq_true, if_false, Option.some.injEq,
      Prod.mk.injEq] at hto
    rw [← hto.1]
    exact hrun

end

/-- Witness: `interpreted_empty_list_init_default` at `add` with both inputs marked as lists,
`a = []` and `b = [10, 20]`: the body is called with the default construction `0` for `a`
at both iterations, although the builder of `a` is the constant `7`. -/
theorem interpreted_empty_list_init_default_witness :
    ([true, true].length = add_fn.input_amount ∧ [true, true].contains true = true ∧
      well_typed [true, true] [Value.list [], Value.list [(10 : Int), 20]] = true) ∧
    ((AutoVectorization.new add_fn [true, true]).call number_types
      [Value.list [], Value.list [10, 20]] ctx0).1 = Result.ok [Value.list [10, 20]] ∧
    main_calls ((AutoVectorization.new add_fn [true, true]).call number_types
      [Value.list [], Value.list [10, 20]] ctx0).2.log = [[0, 10], [0, 20]] ∧
    ∃ (N : Nat) (outs : List (Value Int)) (ctx1 : ExecutionContext Int)
      (added : List (Event Int)),
      (AutoVectorization.new add_fn [true, true]).call number_types
        [Value.list [], Value.list [10, 20]] ctx0 = (Result.ok outs, ctx1) ∧
      ctx1.log = ctx0.log ++ added ∧ init_default_count 0 added = N ∧
      ∀ (original_fn1 : SharedFunction String Int String)
        (fn : VectorizedFunction String Int String),
        to_vectorized_function number_types add_fn [true, true]
          [constant_fn 7, constant_fn 7] = some (original_fn1, fn) →
        (AutoVectorization.new original_fn1 [true, true]).call number_types
          [Value.list [], Value.list [10, 20]] ctx0 = (Result.ok outs, ctx1) := by
  refine ⟨⟨rfl, rfl, by decide⟩, by decide, by decide, ?_⟩
  obtain ⟨N, outs, ctx1, added, d, -, -, h3, h4, h5, -, -, -, h9⟩ :=
    interpreted_empty_list_init_default number_types add_fn [true, true] _ add_values
      [Value.list [], Value.list [10, 20]] ctx0 0 rfl rfl rfl (fun _ => rfl) (fun _ => rfl)
      (fun _ _ => rfl) (by decide) rfl
  exact ⟨N, outs, ctx1, added, h3, h4, h5, fun F1 fn h => h9 _ F1 fn h⟩

/-! ### The iteration frame during the assembly of the inputs -/

section
variable {τ α ε : Type}

end

theorem mem_list_inputs_from : ∀ (mask : List Bool) (i0 i : Nat),
    i ∈ list_inputs_from mask i0 ↔ i0 ≤ i ∧ mask[i - i0]? = some true
  | [], _, _ => by simp [list_inputs_from]
  | true :: mask, i0, i => by
    rw [list_inputs_from, List.mem_cons, mem_list_inputs_from mask (i0 + 1) i]
    constructor
    · rintro (h | ⟨h1, h2⟩)
      · subst h; simp
      · refine ⟨by omega, ?_⟩
        have e : i - i0 = (i - (i0 + 1)) + 1 := by omega
        rw [e]
        simpa using h2
    · rintro ⟨h1, h2⟩
      rcases Nat.eq_or_lt_of_le h1 with h | h
      · left; exact h.symm
      · right
        refine ⟨by omega, ?_⟩
        have e : i - i0 = (i - (i0 + 1)) + 1 := by omega
        rw [e] at h2
        simpa using h2
  | false :: mask, i0, i => by
    rw [list_inputs_from, mem_list_inputs_from mask (i0 + 1) i]
    constructor
    · rintro ⟨h1, h2⟩
      refine ⟨by omega, ?_⟩
      have e : i - i0 = (i - (i0 + 1)) + 1 := by omega
      rw [e]
      simpa using h2
    · rintro ⟨h1, h2⟩
      rcases Nat.eq_or_lt_of_le h1 with h | h
      · subst h; simp at h2
      · refine ⟨by omega, ?_⟩
        have e : i - i0 = (i - (i0 + 1)) + 1 := by omega
        rw [e] at h2
        simpa using h2

theorem list_inputs_from_nodup : ∀ (mask : List Bool) (i0 : Nat),
    (list_inputs_from mask i0).Nodup
  | [], _ => by simp [list_inputs_from]
  | true :: mask, i0 => by
    rw [list_inputs_from, List.nodup_cons]
    refine ⟨?_, list_inputs_from_nodup mask (i0 + 1)⟩
    intro h
    have := (mem_list_inputs_from mask (i0 + 1) i0).mp h
    omega
  | false :: mask, i0 => by
    rw [list_inputs_from]
    exact list_inputs_from_nodup mask (i0 + 1)

theorem free_not_mem_gen_prepare_events {α : Type} (it i : Nat) :
    ∀ (vs : List (Value α)) (i0 k : Nat), IREvent.free i ∉ gen_prepare_events it vs i0 k
  | [], _, _ => by simp [gen_prepare_events]
  | Value.base a :: vs, i0, k => by
    simpa [gen_prepare_events] using free_not_mem_gen_prepare_events it i vs (i0 + 1) k
  | Value.list xs :: vs, i0, k => by
    have ih := free_not_mem_gen_prepare_events it i vs (i0 + 1) (k + 1)
    by_cases hx : xs.length = 0 <;> simp [gen_prepare_events, hx, ih]

theorem free_not_mem_gen_loop_events {α : Type} (m : Nat) (args : Nat → List α)
    (inputs : List (Value α)) (i : Nat) :
    ∀ (n j : Nat), IREvent.free i ∉ gen_loop_events m args inputs n j
  | 0, _ => by simp [gen_loop_events]
  | n + 1, j => by
    have ih := free_not_mem_gen_loop_events m args inputs i n (j + 1)
    have hp := free_not_mem_gen_prepare_events (α := α) j i inputs 0 0
    simp [gen_loop_events, ih, hp]

section
variable {τ α ε : Type}

/-- C20: the instructions emitted by `build_ir` free the inputs after the loop and not
before: the log is the allocations and the loop, in which nothing is freed, followed by
the frees. Freed are exactly the inputs marked as lists in the mask, in order of position
and each once; an input that is not marked is not freed. The only frees are these frees of
inputs: the output lists are returned, one per output of the original function. -/
theorem inputs_freed_after_loop (types : TypeSystem τ α) (main : SharedFunction τ α ε)
    (f : List α → List α) (mask : List Bool) (builders : List (SharedFunction τ α ε))
    (hwf : WellFormed types main f mask builders) (fn_in : List (Value α))
    (htyped : well_typed mask fn_in = true) (u : α) :
    ∃ (gen : AutoVectorizationGen τ α ε) (outs : List (Value α))
      (before : List (IREvent α)) (N : Nat),
      AutoVectorizationGen.new types main mask builders = some gen ∧
      CreateSIntMax (lengths_of fn_in) = some N ∧
      gen.build_ir fn_in u =
        some (outs, before ++ (list_inputs_from mask 0).map IREvent.free) ∧
      (∀ i, IREvent.free i ∉ before) ∧
      (ir_main_calls before).length = N ∧
      (∀ o, o < main.output_amount → IREvent.new_list o N ∈ before) ∧
      (list_inputs_from mask 0).Nodup ∧
      (∀ i, i ∈ list_inputs_from mask 0 ↔ mask[i]? = some true) ∧
      (∀ i, mask[i]? = some false → i ∉ list_inputs_from mask 0) ∧
      outs.length = main.output_amount ∧
      ∀ o, o < main.output_amount → ∃ ys, outs[o]? = some (Value.list ys) := by
  obtain ⟨gen, B, N, hgen, hN, -, hir⟩ :=
    build_ir_closed_form types main f mask builders hwf fn_in htyped u
  have hmem : ∀ i, i ∈ list_inputs_from mask 0 ↔ mask[i]? = some true := by
    intro i
    rw [mem_list_inputs_from]
    simp
  refine ⟨gen, _, _, N, hgen, hN, hir, ?_, ?_, ?_, list_inputs_from_nodup mask 0, hmem, ?_, ?_,
    ?_⟩
  · intro i hi
    simp only [List.mem_append, List.mem_map, reduceCtorEq, and_false, exists_false,
      false_or] at hi
    exact free_not_mem_gen_loop_events _ _ _ i N 0 hi
  · have := ir_main_calls_build_log main.output_amount
      (fun j => broadcast j (fun _ k => B k) fn_in 0 0) fn_in N []
    simp only [List.map_nil, List.append_nil] at this
    rw [this]
    simp
  · intro o ho
    simp only [List.mem_append, List.mem_map, List.mem_range]
    left
    exact ⟨o, ho, rfl⟩
  · intro i hi h
    rw [hmem i, hi] at h
    simp at h
  · simp [columns]
  · intro o ho
    exact ⟨column (rows_of f (fun j => broadcast j (fun _ k => B k) fn_in 0 0) N) o,
      by simp [columns, List.getElem?_range ho]⟩

end

/-- Witness: `inputs_freed_after_loop` at `add` with the second input marked as a list:
the log ends with the one free of input 1, and input 0 is not freed. -/
theorem inputs_freed_after_loop_witness :
    WellFormed number_types add_fn add_values [false, true] [constant_fn 0] ∧
    well_typed [false, true] [Value.base (10 : Int), Value.list [1, 2]] = true ∧
    list_inputs_from [false, true] 0 = [1] ∧
    ∃ (gen : AutoVectorizationGen String Int String) (outs : List (Value Int))
      (before : List (IREvent Int)),
      AutoVectorizationGen.new number_types add_fn [false, true] [constant_fn 0] = some gen ∧
      gen.build_ir [Value.base 10, Value.list [1, 2]] 0 =
        some (outs, before ++ [IREvent.free 1]) ∧
      (∀ i, IREvent.free i ∉ before) := by
  have hwf : WellFormed number_types add_fn add_values [false, true] [constant_fn 0] :=
    binary_fn_well_formed "add" (fun a b => a + b) [false, true] [0] rfl rfl rfl
  refine ⟨hwf, by decide, rfl, ?_⟩
  obtain ⟨gen, outs, before, N, h1, -, h3, h4, -⟩ :=
    inputs_freed_after_loop number_types add_fn add_values [false, true] [constant_fn 0] hwf
      [Value.base 10, Value.list [1, 2]] (by decide) 0
  exact ⟨gen, outs, before, h1, h3, h4⟩

/-! ### All list inputs empty -/

section
variable {τ α ε : Type}

/-- C21: when every list input has length 0 the maximum length is 0 in both backends, and
the original function is not invoked, no element is read and no default value is placed in
an input slot: the log of the interpreted call is the two pushes followed by the two pops,
its stack is the caller's, and the log of the emitted instructions is the allocations of
the output lists with length 0 followed by the frees of the list inputs. Every output of
either backend is the empty list. -/
theorem all_lists_empty (types : TypeSystem τ α) (main : SharedFunction τ α ε)
    (f : List α → List α) (mask : List Bool) (builders : List (SharedFunction τ α ε))
    (hwf : WellFormed types main f mask builders) (fn_in : List (Value α))
    (htyped : well_typed mask fn_in = true)
    (hempty : ∀ (i : Nat) (xs : List α), fn_in[i]? = some (Value.list xs) → xs.length = 0)
    (ctx : ExecutionContext α) (u : α) :
    ∃ (gen : AutoVectorizationGen τ α ε) (ctx1 : ExecutionContext α)
      (log : List (IREvent α)),
      AutoVectorizationGen.new types main mask builders = some gen ∧
      AutoVectorization.max_element (lengths_of fn_in) = some 0 ∧
      CreateSIntMax (lengths_of fn_in) = some 0 ∧
      (AutoVectorization.new main mask).call types fn_in ctx =
        (Result.ok (List.replicate main.output_amount (Value.list [])), ctx1) ∧
      ctx1.stack = ctx.stack ∧
      ctx1.log = ctx.log ++
        [Event.push (StackFrame.iteration none), Event.push (StackFrame.text main.name),
          Event.pop, Event.pop] ∧
      main_calls (ctx1.log.drop ctx.log.length) = [] ∧
      (∀ index load_index stack,
        Event.get_element index load_index stack ∉ ctx1.log.drop ctx.log.length) ∧
      (∀ index, Event.init_default index ∉ ctx1.log.drop ctx.log.length) ∧
      gen.build_ir fn_in u =
        some (List.replicate main.output_amount (Value.list []), log) ∧
      log = (List.range main.output_amount).map (fun o => IREvent.new_list o 0) ++
        (list_inputs_from mask 0).map IREvent.free ∧
      ir_main_calls log = [] ∧
      (∀ index load_index, IREvent.load index load_index ∉ log) ∧
      (∀ k, IREvent.default_builder k ∉ log) := by
  obtain ⟨D, N1, hN1, -, hcall⟩ := call_closed_form types main f mask builders hwf fn_in htyped ctx
  obtain ⟨gen, B, N2, hgen, hN2, -, hir⟩ :=
    build_ir_closed_form types main f mask builders hwf fn_in htyped u
  have hne := lengths_of_ne_nil mask fn_in htyped hwf.mask_true
  have hall := lengths_of_all_eq fn_in 0 hempty
  rw [max_element_const 0 _ hne hall] at hN1
  rw [CreateSIntMax_const 0 _ hne hall] at hN2
  simp only [Option.some.injEq] at hN1 hN2
  subst hN1
  subst hN2
  have hrows : ∀ args : Nat → List α, rows_of f args 0 = [] := fun _ => rfl
  simp only [hrows, columns_nil, loop_events, gen_loop_events, List.append_nil] at hcall hir
  refine ⟨gen, _, _, hgen, max_element_const 0 _ hne hall, CreateSIntMax_const 0 _ hne hall, hcall,
    rfl, by simp, ?_, ?_, ?_, hir, rfl, ?_, ?_, ?_⟩
  · simp [main_calls]
  · intro index load_index stack h
    simp at h
  · intro index h
    simp at h
  · simp [ir_main_calls, List.filterMap_append, List.filterMap_map, Function.comp_def]
  · intro index load_index h
    simp at h
  · intro k h
    simp at h

end

/-- Witness: `all_lists_empty` at `add` with both inputs marked as lists and both lists
empty. -/
theorem all_lists_empty_witness :
    WellFormed number_types add_fn add_values [true, true] [constant_fn 0, constant_fn 0] ∧
    well_typed [true, true] [Value.list ([] : List Int), Value.list []] = true ∧
    (AutoVectorization.new add_fn [true, true]).call number_types
        [Value.list [], Value.list []] ctx_caller =
      (Result.ok [Value.list []],
        { stack := [StackFrame.text "caller"]
          log := [Event.push (StackFrame.iteration none), Event.push (StackFrame.text "add"),
            Event.pop, Event.pop] }) ∧
    ∃ (gen : AutoVectorizationGen String Int String),
      AutoVectorizationGen.new number_types add_fn [true, true]
        [constant_fn 0, constant_fn 0] = some gen ∧
      gen.build_ir [Value.list [], Value.list []] 0 =
        some ([Value.list []], [IREvent.new_list 0 0, IREvent.free 0, IREvent.free 1]) := by
  refine ⟨well_formed_add_two_lists, by decide, by decide, ?_⟩
  obtain ⟨gen, ctx1, log, h1, -, -, -, -, -, -, -, -, h2, h3, -⟩ :=
    all_lists_empty number_types add_fn add_values [true, true]
      [constant_fn 0, constant_fn 0] well_formed_add_two_lists [Value.list [], Value.list []]
      (by decide)
      (by
        intro i xs h
        match i with
        | 0 => simp at h; subst h; rfl
        | 1 => simp at h; subst h; rfl
        | i + 2 => simp at h)
      ctx_caller 0
  subst h3
  exact ⟨gen, h1, h2⟩

end FN
